import Mathlib


/-!
# `examples/simple_gemm.cpp`: a shallow embedding and its verification

The program multiplies row-major `float` matrices, `C = alpha * A * B + beta * C`,
once on the device (`simple_gemm_kernel` launched by `gemm_host`) and once on the
host (`gemm_cpu_reference`), and compares the two results (`verify_results`).

Modelling decisions:

* `float` is IEEE 754 binary32 with round-to-nearest-even (`F32`). C++ lets a
  compiler contract `x * y + z` into a fused multiply-add, which rounds once
  instead of twice (device code is contracted by default); what a build makes
  of the two arithmetic expressions of the program is a `FloatUnit`, and kernel
  and reference each take the unit of their build.
* `int` is 32 bits wide, two's complement: the index expressions `i * K + k`,
  `k * N + j`, `i * N + j` are computed by `idx32`, which wraps on overflow
  (C++ leaves the overflow undefined; wrapping is what the hardware does).
  The dimensions `M`, `N`, `K` are non-negative `int` values; loop counters
  never exceed them.
* `std::vector<float>` and device buffers are `List F32`; `operator[]` is a
  checked access that ends the run in `Res.oob` when the index is outside the
  buffer (undefined behaviour in C++).
* every element access is recorded in a log, so that "reads nothing" and
  "writes only at index p" are statements about the run.
-/

/-! ## The `float` type -/

/-- IEEE 754 binary32 values: one NaN, two infinities, and the finite values given by
sign, biased exponent `e < 255` and 23-bit fraction `m` (`e = 0`: zero or subnormal). -/
inductive F32 where
  | nan : F32
  | inf (neg : Bool) : F32
  | fin (neg : Bool) (e : Fin 255) (m : Fin 8388608) : F32
  deriving DecidableEq

namespace F32

/-- Integer significand of a finite value: the hidden bit is set for `e ≠ 0`. -/
def sig (e : Fin 255) (m : Fin 8388608) : Nat :=
  if e.val = 0 then m.val else 8388608 + m.val

/-- Exponent of the last fraction bit: the finite value is `± sig e m * 2 ^ qexp e`. -/
def qexp (e : Fin 255) : Int :=
  if e.val = 0 then -149 else (e.val : Int) - 150

/-- Number of halvings that bring `n` below 2, with `fuel` bounding the recursion. -/
def ilog2Aux : Nat → Nat → Nat
  | 0, _ => 0
  | fuel + 1, n => if n < 2 then 0 else ilog2Aux fuel (n / 2) + 1

/-- Position of the leading one bit: `2 ^ ilog2 n ≤ n < 2 ^ (ilog2 n + 1)` for `n ≠ 0`. -/
def ilog2 (n : Nat) : Nat := ilog2Aux n n

/-- Quotient `M / 2 ^ d` rounded to the nearest integer, ties to the even one. -/
def rne (M d : Nat) : Nat :=
  let q := M / 2 ^ d
  let r := M % 2 ^ d
  if 2 * r < 2 ^ d then q
  else if 2 ^ d < 2 * r then q + 1
  else if q % 2 = 0 then q else q + 1

/-- Rounding of the exact value `± M * 2 ^ E` to binary32 (round to nearest, ties to
even; overflow gives an infinity, underflow a subnormal or a zero of the same sign). -/
def rnd (neg : Bool) (M : Nat) (E : Int) : F32 :=
  if M = 0 then fin neg 0 0 else
  let q : Int := max ((ilog2 M : Int) + E - 23) (-149)
  let m1 : Nat := if q ≤ E then M * 2 ^ (E - q).toNat else rne M (q - E).toNat
  let m2 : Nat := if m1 = 16777216 then 8388608 else m1
  let q2 : Int := if m1 = 16777216 then q + 1 else q
  if 104 < q2 then inf neg
  else if m2 < 8388608 then fin neg 0 (Fin.ofNat m2)
  else fin neg (Fin.ofNat (q2 + 150).toNat) (Fin.ofNat (m2 - 8388608))

/-- The literal `0.0f`. -/
def zero : F32 := fin false 0 0

/-- The literal `1.0f`. -/
def one : F32 := fin false 127 0

/-- The literal `1e-4f` (bit pattern `0x38D1B717`). -/
def tol_default : F32 := fin false 113 5355287

/-- Conversion of a small non-negative integer literal. -/
def ofNat (n : Nat) : F32 := rnd false n 0

/-- Whether the value is NaN. -/
def isNaN : F32 → Bool
  | nan => true
  | _ => false

/-- Whether the value is finite: neither NaN nor an infinity. -/
def isFinite : F32 → Bool
  | fin _ _ _ => true
  | _ => false

/-- Whether the value is `+0.0f` or `-0.0f`. -/
def isZero : F32 → Bool
  | fin _ e m => e.val = 0 && m.val = 0
  | _ => false

/-- Signed integer `± n`. -/
def signed (neg : Bool) (n : Nat) : Int := if neg then -(n : Int) else (n : Int)

/-- The finite value `± sig e m * 2 ^ qexp e` in units of `2 ^ E`, for `E ≤ qexp e`. -/
def aligned (neg : Bool) (e : Fin 255) (m : Fin 8388608) (E : Int) : Int :=
  signed neg (sig e m * 2 ^ (qexp e - E).toNat)

/-- Operator `*` on `float`. -/
def mul : F32 → F32 → F32
  | nan, _ => nan
  | _, nan => nan
  | inf s, inf t => inf (s != t)
  | inf s, fin t e m => if sig e m = 0 then nan else inf (s != t)
  | fin s e m, inf t => if sig e m = 0 then nan else inf (s != t)
  | fin s e m, fin t e' m' => rnd (s != t) (sig e m * sig e' m') (qexp e + qexp e')

/-- Operator `+` on `float`. -/
def add : F32 → F32 → F32
  | nan, _ => nan
  | _, nan => nan
  | inf s, inf t => if s = t then inf s else nan
  | inf s, fin _ _ _ => inf s
  | fin _ _ _, inf t => inf t
  | fin s e m, fin t e' m' =>
    let E := min (qexp e) (qexp e')
    let c : Int := aligned s e m E + aligned t e' m' E
    if c = 0 then fin (s && t) 0 0 else rnd (decide (c < 0)) c.natAbs E

/-- The sum `±inf + z`. -/
def infPlus (neg : Bool) : F32 → F32
  | nan => nan
  | inf u => if neg = u then inf neg else nan
  | fin _ _ _ => inf neg

/-- The fused multiply-add `fma(x, y, z)`: the exact value of `x * y + z`, rounded once. -/
def fma : F32 → F32 → F32 → F32
  | nan, _, _ => nan
  | inf _, nan, _ => nan
  | inf s, inf t, z => infPlus (s != t) z
  | inf s, fin t e m, z => if sig e m = 0 then nan else infPlus (s != t) z
  | fin _ _ _, nan, _ => nan
  | fin s e m, inf t, z => if sig e m = 0 then nan else infPlus (s != t) z
  | fin _ _ _, fin _ _ _, nan => nan
  | fin _ _ _, fin _ _ _, inf u => inf u
  | fin s e m, fin t e' m', fin u e'' m'' =>
    let E := min (qexp e + qexp e') (qexp e'')
    let c : Int :=
      signed (s != t) (sig e m * sig e' m' * 2 ^ (qexp e + qexp e' - E).toNat)
        + aligned u e'' m'' E
    if c = 0 then fin ((s != t) && u) 0 0 else rnd (decide (c < 0)) c.natAbs E

/-- Unary minus. -/
def neg : F32 → F32
  | nan => nan
  | inf s => inf (!s)
  | fin s e m => fin (!s) e m

/-- Operator `-` on `float`. -/
def sub (x y : F32) : F32 := add x (neg y)

/-- Function `std::abs` on `float`. -/
def abs : F32 → F32
  | nan => nan
  | inf _ => inf false
  | fin _ e m => fin false e m

/-- Operator `<` on `float`: false whenever an operand is NaN. -/
def lt : F32 → F32 → Bool
  | nan, _ => false
  | _, nan => false
  | inf s, inf t => s && !t
  | inf s, fin _ _ _ => s
  | fin _ _ _, inf t => !t
  | fin s e m, fin t e' m' =>
    let E := min (qexp e) (qexp e')
    decide (aligned s e m E < aligned t e' m' E)

/-- Operator `>` on `float`. -/
def gt (x y : F32) : Bool := lt y x

end F32

/-- What a build makes of the two arithmetic expressions of the program:
`mac sum a b` is the value of `sum + a * b` (in `sum += A[..] * B[..]`), and
`axpby alpha sum beta c` the value of `alpha * sum + beta * c`. -/
structure FloatUnit where
  mac : F32 → F32 → F32 → F32
  axpby : F32 → F32 → F32 → F32 → F32

/-- A build without contraction: every `*` and `+` is rounded. -/
def FloatUnit.separate : FloatUnit :=
  { mac := fun sum a b => F32.add sum (F32.mul a b)
    axpby := fun alpha sum beta c => F32.add (F32.mul alpha sum) (F32.mul beta c) }

/-- A build with contraction: `sum + a * b` is `fma(a, b, sum)` and
`alpha * sum + beta * c` is `fma(alpha, sum, beta * c)`. -/
def FloatUnit.fused : FloatUnit :=
  { mac := fun sum a b => F32.fma a b sum
    axpby := fun alpha sum beta c => F32.fma alpha sum (F32.mul beta c) }

/-- The builds C++ allows: each evaluation of `sum + a * b` is either rounded twice or
fused, and each evaluation of `alpha * sum + beta * c` is rounded three times or has one
of its two products fused with the sum. -/
def FloatUnit.conforming (u : FloatUnit) : Prop :=
  (∀ sum a b, u.mac sum a b = F32.add sum (F32.mul a b) ∨ u.mac sum a b = F32.fma a b sum) ∧
  (∀ alpha sum beta c,
    u.axpby alpha sum beta c = F32.add (F32.mul alpha sum) (F32.mul beta c) ∨
    u.axpby alpha sum beta c = F32.fma alpha sum (F32.mul beta c) ∨
    u.axpby alpha sum beta c = F32.fma beta c (F32.mul alpha sum))

namespace simple_gemm

/-! ## The type `int` -/

/-- The largest `int`, `INT_MAX`. -/
def INT_MAX : Nat := 2147483647

/-- The 32-bit `int` that an exact result becomes, its two's complement wrap: the low
32 bits `x mod 2^32`, read as a negative number when bit 31 is set. -/
def wrap32 (x : Int) : Int :=
  if 2147483648 ≤ x % 4294967296 then x % 4294967296 - 4294967296 else x % 4294967296

/-- The dimensions and the element counts `M * K`, `K * N`, `M * N` of a multiply are
`int` values: none exceeds `INT_MAX`. -/
def FitsInt (M N K : Nat) : Prop :=
  M ≤ INT_MAX ∧ N ≤ INT_MAX ∧ K ≤ INT_MAX ∧
  M * K ≤ INT_MAX ∧ K * N ≤ INT_MAX ∧ M * N ≤ INT_MAX

instance (M N K : Nat) : Decidable (FitsInt M N K) := by
  unfold FitsInt
  exact inferInstance

/-- The `int` expression `a * b + c` on `int` values `a, b, c ≥ 0`. -/
def idx32 (a b c : Nat) : Int :=
  wrap32 (wrap32 ((a : Int) * (b : Int)) + (c : Int))

/-- The number of `float`s in `a * b * sizeof(float)` bytes: the product `a * b` is an
`int`, converted to the 64-bit `size_t` before the multiplication by 4. -/
def floatCount (a b : Nat) : Nat :=
  ((wrap32 ((a : Int) * (b : Int)) * 4) % 18446744073709551616).toNat / 4

/-! ## Memory, checked accesses and loops -/

/-- The three buffers of a multiply. -/
inductive Buf where
  | A
  | B
  | C
  deriving DecidableEq

/-- One element access, as recorded in the log; the index is the value of the index
expression, negative when an `int` expression has wrapped. -/
inductive Access where
  | read (b : Buf) (i : Int)
  | write (b : Buf) (i : Int)
  deriving DecidableEq

/-- The buffers a multiply works on, and the log of its element accesses
(oldest first). -/
structure Mem where
  A : List F32
  B : List F32
  C : List F32
  log : List Access
  deriving DecidableEq

/-- Outcome of running code on a memory: a value and the memory after, or the
out-of-bounds access that ended the run and the memory at that moment. -/
inductive Res (α : Type) where
  | ok (v : α) (m : Mem)
  | oob (a : Access) (m : Mem)
  deriving DecidableEq

/-- The memory at the end of a run. -/
def Res.mem {α : Type} : Res α → Mem
  | Res.ok _ m => m
  | Res.oob _ m => m

/-- Whether a run came to its end without an out-of-bounds access. -/
def Res.isOk {α : Type} : Res α → Bool
  | Res.ok _ _ => true
  | Res.oob _ _ => false

/-- The out-of-bounds access that ended a run, if one did. -/
def Res.fault {α : Type} : Res α → Option Access
  | Res.ok _ _ => none
  | Res.oob a _ => some a

/-- Code that runs on a memory. -/
def Exec (α : Type) : Type := Mem → Res α

/-- Code that only returns `v`. -/
def Exec.pure {α : Type} (v : α) : Exec α := fun m => Res.ok v m

/-- Code `x` followed by code `f`; an out-of-bounds access in `x` ends the run. -/
def Exec.bind {α β : Type} (x : Exec α) (f : α → Exec β) : Exec β := fun m =>
  match x m with
  | Res.ok v m1 => f v m1
  | Res.oob a m1 => Res.oob a m1

instance : Monad Exec where
  pure := Exec.pure
  bind := Exec.bind

/-- The contents of buffer `b`. -/
def Mem.buf (m : Mem) : Buf → List F32
  | Buf.A => m.A
  | Buf.B => m.B
  | Buf.C => m.C

/-- The memory with the contents of buffer `b` replaced. -/
def Mem.setBuf (m : Mem) (b : Buf) (xs : List F32) : Mem :=
  match b with
  | Buf.A => { m with A := xs }
  | Buf.B => { m with B := xs }
  | Buf.C => { m with C := xs }

/-- Element read `b[i]`. -/
def load (b : Buf) (i : Int) : Exec F32 := fun m =>
  if 0 ≤ i then
    match (m.buf b)[i.toNat]? with
    | some v => Res.ok v { m with log := m.log ++ [Access.read b i] }
    | none => Res.oob (Access.read b i) m
  else Res.oob (Access.read b i) m

/-- Element write `b[i] = v`. -/
def store (b : Buf) (i : Int) (v : F32) : Exec Unit := fun m =>
  if 0 ≤ i ∧ i.toNat < (m.buf b).length then
    Res.ok ()
      { m.setBuf b ((m.buf b).set i.toNat v) with log := m.log ++ [Access.write b i] }
  else Res.oob (Access.write b i) m

/-- The loop `for (int i = lo; i < lo + n; ++i) s = body(i, s)`, where `s` stands for
the local variables the body updates. -/
def forLoop {σ : Type} (body : Nat → σ → Exec σ) : Nat → Nat → σ → Exec σ
  | _, 0, s => pure s
  | i, n + 1, s => do
    let s1 ← body i s
    forLoop body (i + 1) n s1

/-! ## The program -/

/-- A `dim3` with `z = 1`. -/
structure Dim3 where
  x : Nat
  y : Nat
  deriving DecidableEq

/-- One thread of a launch: its `blockIdx` and `threadIdx`. -/
structure Thread where
  blockIdx : Dim3
  threadIdx : Dim3
  deriving DecidableEq

/-- The kernel `simple_gemm_kernel`, as run by the thread `t` of a launch with
blocks of `blockDim` threads, in a device build with float unit `u`; `A`, `B`, `C` are
the device buffers. -/
def simple_gemm_kernel (u : FloatUnit) (blockDim : Dim3) (t : Thread) (M N K : Nat)
    (alpha beta : F32) : Exec Unit :=
  let row := t.blockIdx.y * blockDim.y + t.threadIdx.y
  let col := t.blockIdx.x * blockDim.x + t.threadIdx.x
  if row < M ∧ col < N then do
    let sum ← forLoop (fun k sum => do
      let a ← load Buf.A (idx32 row K k)
      let b ← load Buf.B (idx32 k N col)
      pure (u.mac sum a b)) 0 K F32.zero
    let c ← load Buf.C (idx32 row N col)
    store Buf.C (idx32 row N col) (u.axpby alpha sum beta c)
  else pure ()

/-- Threads of a launch, block by block (`blockIdx.y`, `blockIdx.x`, `threadIdx.y`,
`threadIdx.x` in lexicographic order). -/
def gridThreads (gridDim blockDim : Dim3) : List Thread :=
  (List.range gridDim.y).flatMap fun bY =>
  (List.range gridDim.x).flatMap fun bX =>
  (List.range blockDim.y).flatMap fun tY =>
  (List.range blockDim.x).map fun tX =>
    { blockIdx := { x := bX, y := bY }, threadIdx := { x := tX, y := tY } }

/-- Threads run one after another in the order of the list. -/
def runThreads (kernel : Thread → Exec Unit) : List Thread → Exec Unit
  | [] => pure ()
  | t :: ts => do
    kernel t
    runThreads kernel ts

/-- The launch `hipLaunchKernelGGL(kernel, gridDim, blockDim, 0, 0, ...)`: every
thread of the grid runs the kernel once; `schedule` is the order the device picks. -/
def hipLaunchKernelGGL (schedule : List Thread → List Thread)
    (kernel : Dim3 → Thread → Exec Unit) (gridDim blockDim : Dim3) : Exec Unit :=
  runThreads (kernel blockDim) (schedule (gridThreads gridDim blockDim))

/-- The copy `hipMemcpy(d, v.data(), n * sizeof(float), hipMemcpyHostToDevice)`: reads
`v[0 .. n)` of the host vector `b` and returns the device buffer. -/
def hipMemcpyHostToDevice (b : Buf) (n : Nat) : Exec (List F32) :=
  forLoop (fun i d => do
    let v ← load b (i : Int)
    pure (d ++ [v])) 0 n []

/-- The copy `hipMemcpy(v.data(), d, n * sizeof(float), hipMemcpyDeviceToHost)`: writes
the `n` elements of the device buffer `d` to `v[0 .. n)` of the host vector `b`. -/
def hipMemcpyDeviceToHost (b : Buf) (d : List F32) (n : Nat) : Exec Unit :=
  forLoop (fun i _ => store b (i : Int) (d.getD i F32.zero)) 0 n ()

/-- Outcome of `gemm_host`: host and device memory at the return, or the
out-of-bounds access of a host vector (by a copy) or of a device buffer (by a thread). -/
inductive HostRes where
  | ok (host dev : Mem)
  | hostOob (a : Access) (host : Mem)
  | devOob (a : Access) (host dev : Mem)
  deriving DecidableEq

/-- The host memory at the end of `gemm_host`. -/
def HostRes.hostMem : HostRes → Mem
  | HostRes.ok h _ => h
  | HostRes.hostOob _ h => h
  | HostRes.devOob _ h _ => h

/-- Whether `gemm_host` returned without an out-of-bounds access. -/
def HostRes.isOk : HostRes → Bool
  | HostRes.ok _ _ => true
  | _ => false

/-- The function `gemm_host`, on the host vectors `A`, `B`, `C` of `host`; `dev` is the
float unit of the device build. The sizes count `float`s. -/
def gemm_host (dev : FloatUnit) (schedule : List Thread → List Thread) (M N K : Nat)
    (alpha beta : F32) (host : Mem) : HostRes :=
  let size_A := floatCount M K
  let size_B := floatCount K N
  let size_C := floatCount M N
  let copies : Exec (List F32 × List F32 × List F32) := do
    let d_A ← hipMemcpyHostToDevice Buf.A size_A
    let d_B ← hipMemcpyHostToDevice Buf.B size_B
    let d_C ← hipMemcpyHostToDevice Buf.C size_C
    pure (d_A, d_B, d_C)
  match copies host with
  | Res.oob a h => HostRes.hostOob a h
  | Res.ok (d_A, d_B, d_C) h =>
    let blockDim : Dim3 := { x := 16, y := 16 }
    let gridDim : Dim3 :=
      { x := (N + blockDim.x - 1) / blockDim.x, y := (M + blockDim.y - 1) / blockDim.y }
    let launch := hipLaunchKernelGGL schedule
      (fun bd t => simple_gemm_kernel dev bd t M N K alpha beta) gridDim blockDim
    match launch { A := d_A, B := d_B, C := d_C, log := [] } with
    | Res.oob a d => HostRes.devOob a h d
    | Res.ok _ d =>
      match hipMemcpyDeviceToHost Buf.C d.C size_C h with
      | Res.oob a h2 => HostRes.hostOob a h2
      | Res.ok _ h2 => HostRes.ok h2 d

/-- The function `gemm_cpu_reference`, on the vectors `A`, `B`, `C` of the memory, in a
host build with float unit `u`. -/
def gemm_cpu_reference (u : FloatUnit) (M N K : Nat) (alpha beta : F32) : Exec Unit :=
  forLoop (fun i _ =>
    forLoop (fun j _ => do
      let sum ← forLoop (fun k sum => do
        let a ← load Buf.A (idx32 i K k)
        let b ← load Buf.B (idx32 k N j)
        pure (u.mac sum a b)) 0 K F32.zero
      let c ← load Buf.C (idx32 i N j)
      store Buf.C (idx32 i N j) (u.axpby alpha sum beta c)) 0 N ()) 0 M ()

/-- Outcome of `verify_results`: `true` (`pass`); `false` with the line written to
`std::cerr` (`mismatch`: index, both values, their distance); or a read past the end
of `C_cpu` (`oob`). -/
inductive Verdict where
  | pass
  | mismatch (i : Nat) (gpu cpu diff : F32)
  | oob (i : Nat)
  deriving DecidableEq

/-- The value `verify_results` returns. -/
def Verdict.toBool : Verdict → Bool
  | Verdict.pass => true
  | _ => false

/-- The loop of `verify_results` from index `i`, with `n` indices left. -/
def verify_loop (C_gpu C_cpu : List F32) (tolerance : F32) : Nat → Nat → Verdict
  | _, 0 => Verdict.pass
  | i, n + 1 =>
    match C_gpu[i]?, C_cpu[i]? with
    | some g, some c =>
      let diff := F32.abs (F32.sub g c)
      if F32.gt diff tolerance then Verdict.mismatch i g c diff
      else verify_loop C_gpu C_cpu tolerance (i + 1) n
    | _, _ => Verdict.oob i

/-- The function `verify_results`. -/
def verify_results (C_gpu C_cpu : List F32) (tolerance : F32) : Verdict :=
  verify_loop C_gpu C_cpu tolerance 0 C_gpu.length

/-- The calls `main` makes, in the order it makes them; `init` is the block
"Initialize matrices" (construction of the four vectors and the two fill loops). -/
inductive Call where
  | init
  | gemm_host
  | gemm_cpu_reference
  | verify_results
  deriving DecidableEq

/-- Local state of `main`: its four vectors, the calls made so far, the outcome of
`verify_results` once it has run, and whether a call ended in an out-of-bounds
access. -/
structure Harness where
  A : List F32
  B : List F32
  C_gpu : List F32
  C_cpu : List F32
  calls : List Call
  verdict : Option Verdict
  crashed : Bool

/-- The block "Initialize matrices" of `main`: `A(M * K)` and `B(K * N)` filled from
consecutive draws `dis(gen)` (`draw n` is the `n`-th), `C_gpu` and `C_cpu` of
`M * N` zeros. -/
def main_init (draw : Nat → F32) (M N K : Nat) : Harness :=
  { A := (List.range (M * K)).map draw
    B := (List.range (K * N)).map fun i => draw (M * K + i)
    C_gpu := List.replicate (M * N) F32.zero
    C_cpu := List.replicate (M * N) F32.zero
    calls := [Call.init]
    verdict := none
    crashed := false }

/-- The statement `gemm_host(A, B, C_gpu, M, N, K, alpha, beta);` of `main`. -/
def main_gemm_host (dev : FloatUnit) (schedule : List Thread → List Thread) (M N K : Nat)
    (alpha beta : F32) (h : Harness) : Harness :=
  if h.crashed then h else
  match gemm_host dev schedule M N K alpha beta
      { A := h.A, B := h.B, C := h.C_gpu, log := [] } with
  | HostRes.ok m _ => { h with C_gpu := m.C, calls := h.calls ++ [Call.gemm_host] }
  | HostRes.hostOob _ m =>
    { h with C_gpu := m.C, calls := h.calls ++ [Call.gemm_host], crashed := true }
  | HostRes.devOob _ m _ =>
    { h with C_gpu := m.C, calls := h.calls ++ [Call.gemm_host], crashed := true }

/-- The statement `gemm_cpu_reference(A, B, C_cpu, M, N, K, alpha, beta);` of `main`. -/
def main_gemm_cpu_reference (host : FloatUnit) (M N K : Nat) (alpha beta : F32)
    (h : Harness) : Harness :=
  if h.crashed then h else
  match gemm_cpu_reference host M N K alpha beta
      { A := h.A, B := h.B, C := h.C_cpu, log := [] } with
  | Res.ok _ m => { h with C_cpu := m.C, calls := h.calls ++ [Call.gemm_cpu_reference] }
  | Res.oob _ m =>
    { h with C_cpu := m.C, calls := h.calls ++ [Call.gemm_cpu_reference], crashed := true }

/-- The condition `verify_results(C_gpu, C_cpu)` of `main` (default tolerance). -/
def main_verify_results (h : Harness) : Harness :=
  if h.crashed then h else
  match verify_results h.C_gpu h.C_cpu F32.tol_default with
  | Verdict.oob i =>
    { h with calls := h.calls ++ [Call.verify_results], verdict := some (Verdict.oob i),
             crashed := true }
  | v => { h with calls := h.calls ++ [Call.verify_results], verdict := some v }

/-- The function `main` without its printing: `host` and `dev` are the float units of
the host and device builds, `draw` is the stream `dis(gen)`, `err` and `deviceCount`
are what `hipGetDeviceCount` gives (`err = 0` is `hipSuccess`), `schedule` the order in
which the device runs the threads. -/
def main (host dev : FloatUnit) (draw : Nat → F32) (err : Nat) (deviceCount : Int)
    (schedule : List Thread → List Thread) : Harness :=
  let M := 512
  let N := 512
  let K := 512
  let alpha := F32.one
  let beta := F32.zero
  let h := main_init draw M N K
  if err ≠ 0 ∨ deviceCount = 0 then
    main_gemm_cpu_reference host M N K alpha beta h
  else
    let h1 := main_gemm_host dev schedule M N K alpha beta h
    let h2 := main_gemm_cpu_reference host M N K alpha beta h1
    main_verify_results h2

/-! ## Definitions used to state the properties -/

/-- The sum of `A[i * K + k] * B[k * N + j]` for `k = 0, ..., K - 1`, accumulated left to
right starting from `0.0f` by the float unit `u`. -/
def dot_spec (u : FloatUnit) (A B : List F32) (N K i j : Nat) : F32 :=
  (List.range K).foldl
    (fun s k => u.mac s (A.getD (i * K + k) F32.zero) (B.getD (k * N + j) F32.zero))
    F32.zero

/-- The value `alpha * s + beta * C0[i * N + j]`, with `s` the sum `dot_spec`, as the
float unit `u` evaluates it. -/
def elem_spec (u : FloatUnit) (A B C0 : List F32) (N K : Nat) (alpha beta : F32)
    (i j : Nat) : F32 :=
  u.axpby alpha (dot_spec u A B N K i j) beta (C0.getD (i * N + j) F32.zero)

/-- The accesses of the update of element `(i, j)`, in the order they are made, when no
index expression overflows. -/
def elem_log (N K i j : Nat) : List Access :=
  (List.range K).flatMap
      (fun k => [Access.read Buf.A ((i * K + k : Nat) : Int),
                 Access.read Buf.B ((k * N + j : Nat) : Int)])
    ++ [Access.read Buf.C ((i * N + j : Nat) : Int),
        Access.write Buf.C ((i * N + j : Nat) : Int)]

/-- The statements that kernel and reference run for the element `(row, col)`. -/
def update_element (u : FloatUnit) (N K : Nat) (alpha beta : F32) (row col : Nat) :
    Exec Unit := do
  let sum ← forLoop (fun k sum => do
    let a ← load Buf.A (idx32 row K k)
    let b ← load Buf.B (idx32 k N col)
    pure (u.mac sum a b)) 0 K F32.zero
  let c ← load Buf.C (idx32 row N col)
  store Buf.C (idx32 row N col) (u.axpby alpha sum beta c)

/-- Element updates run one after another in the order of the list. -/
def run_elements (u : FloatUnit) (N K : Nat) (alpha beta : F32) :
    List (Nat × Nat) → Exec Unit
  | [] => pure ()
  | p :: ps => do
    update_element u N K alpha beta p.1 p.2
    run_elements u N K alpha beta ps

/-- An index that is inside a buffer of `len` elements and is an `int` value. -/
def InRange32 (n len : Nat) : Prop :=
  n < len ∧ n < 2147483648

/-- The update of element `p` stays inside buffers of the given lengths, with every
index an `int` value. -/
def Safe (N K lenA lenB lenC : Nat) (p : Nat × Nat) : Prop :=
  (∀ k, k < K → InRange32 (p.1 * K + k) lenA) ∧
  (∀ k, k < K → InRange32 (k * N + p.2) lenB) ∧
  InRange32 (p.1 * N + p.2) lenC

/-- The positions `(i, j)` of an `M x N` matrix in row-major order. -/
def positions (M N : Nat) : List (Nat × Nat) :=
  (List.range M).flatMap fun i => (List.range N).map fun j => (i, j)

/-- The launch configuration of `gemm_host`: blocks of 16 x 16 threads. -/
def hostBlockDim : Dim3 := { x := 16, y := 16 }

/-- The launch configuration of `gemm_host`: `(N + 15) / 16` by `(M + 15) / 16` blocks. -/
def hostGridDim (M N : Nat) : Dim3 :=
  { x := (N + hostBlockDim.x - 1) / hostBlockDim.x, y := (M + hostBlockDim.y - 1) / hostBlockDim.y }

/-- Row of the output element a thread computes. -/
def Thread.row (blockDim : Dim3) (t : Thread) : Nat :=
  t.blockIdx.y * blockDim.y + t.threadIdx.y

/-- Column of the output element a thread computes. -/
def Thread.col (blockDim : Dim3) (t : Thread) : Nat :=
  t.blockIdx.x * blockDim.x + t.threadIdx.x

/-- The elements the threads of a list update, in the order of the list: a thread with
`row < M` and `col < N` updates `(row, col)`, any other thread none. -/
def thread_elements (blockDim : Dim3) (M N : Nat) (l : List Thread) : List (Nat × Nat) :=
  (l.filter fun t => decide (t.row blockDim < M ∧ t.col blockDim < N)).map
    fun t => (t.row blockDim, t.col blockDim)

end simple_gemm

/-- Same `float` value: identical, or both a zero (`+0.0f` and `-0.0f` compare equal). -/
def F32.same (x y : F32) : Prop :=
  x = y ∨ (x.isZero = true ∧ y.isZero = true)

/-- The value with `-0.0f` replaced by `+0.0f`. -/
def F32.plusZero (x : F32) : F32 :=
  if x.isZero = true then F32.zero else x

instance (x y : F32) : Decidable (F32.same x y) := by
  unfold F32.same
  exact inferInstance

/-! ## Facts about the `float` model -/

namespace F32

theorem ilog2Aux_spec : ∀ fuel n, n ≤ fuel → n ≠ 0 →
    2 ^ ilog2Aux fuel n ≤ n ∧ n < 2 ^ (ilog2Aux fuel n + 1) := by
  intro fuel
  induction fuel with
  | zero => intro n h1 h2; omega
  | succ f ih =>
    intro n h1 h2
    unfold ilog2Aux
    by_cases h : n < 2
    · simp only [h, if_true]
      omega
    · simp only [h, if_false]
      have hh := ih (n / 2) (by omega) (by omega)
      obtain ⟨ha, hb⟩ := hh
      constructor
      · rw [pow_succ]; omega
      · rw [pow_succ]; omega

theorem ilog2_spec (n : Nat) (h : n ≠ 0) : 2 ^ ilog2 n ≤ n ∧ n < 2 ^ (ilog2 n + 1) :=
  ilog2Aux_spec n n (Nat.le_refl n) h

theorem ilog2_eq (n L : Nat) (h1 : 2 ^ L ≤ n) (h2 : n < 2 ^ (L + 1)) : ilog2 n = L := by
  have hn : n ≠ 0 := by
    have : 0 < 2 ^ L := Nat.two_pow_pos _
    omega
  obtain ⟨ha, hb⟩ := ilog2_spec n hn
  have h3 : 2 ^ L < 2 ^ (ilog2 n + 1) := Nat.lt_of_le_of_lt h1 hb
  have h4 : 2 ^ ilog2 n < 2 ^ (L + 1) := Nat.lt_of_le_of_lt ha h2
  have h5 := (Nat.pow_lt_pow_iff_right (by decide : 1 < 2)).mp h3
  have h6 := (Nat.pow_lt_pow_iff_right (by decide : 1 < 2)).mp h4
  omega

theorem ilog2_mul_pow (a k : Nat) (h : a ≠ 0) : ilog2 (a * 2 ^ k) = ilog2 a + k := by
  obtain ⟨ha, hb⟩ := ilog2_spec a h
  apply ilog2_eq
  · rw [pow_add]; exact Nat.mul_le_mul_right _ ha
  · have : 2 ^ (ilog2 a + k + 1) = 2 ^ (ilog2 a + 1) * 2 ^ k := by
      rw [← pow_add]; congr 1; omega
    rw [this]
    exact Nat.mul_lt_mul_of_pos_right hb (Nat.two_pow_pos _)

theorem rne_mul_pow (a k : Nat) : rne (a * 2 ^ k) k = a := by
  have hp : 0 < 2 ^ k := Nat.two_pow_pos _
  simp [rne, Nat.mul_div_cancel _ hp, Nat.mul_mod_left, hp]

theorem sig_lt (e : Fin 255) (m : Fin 8388608) : sig e m < 16777216 := by
  unfold sig
  have := m.isLt
  split <;> omega

theorem ilog2_sig (e : Fin 255) (m : Fin 8388608) (h : sig e m ≠ 0) :
    (e.val = 0 ∧ ilog2 (sig e m) ≤ 22) ∨ (e.val ≠ 0 ∧ ilog2 (sig e m) = 23) := by
  by_cases he : e.val = 0
  · left
    refine ⟨he, ?_⟩
    obtain ⟨ha, _⟩ := ilog2_spec _ h
    have hm := m.isLt
    have hs : sig e m < 2 ^ 23 := by simp [sig, he]
    have h3 : 2 ^ ilog2 (sig e m) < 2 ^ 23 := Nat.lt_of_le_of_lt ha hs
    have h5 := (Nat.pow_lt_pow_iff_right (by decide : 1 < 2)).mp h3
    omega
  · right
    refine ⟨he, ?_⟩
    have hm := m.isLt
    apply ilog2_eq <;> simp only [sig, he, if_false] <;> omega

/-- Rounding a value that is a binary32 number gives that number. -/
theorem rnd_exact (s : Bool) (e : Fin 255) (m : Fin 8388608) (k : Nat) (h : sig e m ≠ 0) :
    rnd s (sig e m * 2 ^ k) (qexp e - k) = fin s e m := by
  have hM : sig e m * 2 ^ k ≠ 0 := Nat.mul_ne_zero h (Nat.two_pow_pos k).ne.symm
  have hlog := ilog2_mul_pow (sig e m) k h
  have hm := m.isLt
  have he := e.isLt
  have hq : max (((ilog2 (sig e m * 2 ^ k) : Nat) : Int) + (qexp e - k) - 23) (-149) = qexp e := by
    rw [hlog]
    rcases ilog2_sig e m h with ⟨h0, hl⟩ | ⟨h0, hl⟩
    · simp only [qexp, h0, if_true]; omega
    · simp only [qexp, h0, if_false]; omega
  have hm1 : (if qexp e ≤ qexp e - (k : Int) then sig e m * 2 ^ k * 2 ^ (qexp e - k - qexp e).toNat
      else rne (sig e m * 2 ^ k) (qexp e - (qexp e - k)).toNat) = sig e m := by
    by_cases hk : k = 0
    · subst hk; simp
    · have : ¬ qexp e ≤ qexp e - (k : Int) := by omega
      simp only [this, if_false]
      have : (qexp e - (qexp e - (k : Int))).toNat = k := by omega
      rw [this, rne_mul_pow]
  have hlt := sig_lt e m
  unfold rnd
  simp only [hM, if_false, hq, hm1]
  have hne : sig e m ≠ 16777216 := by omega
  simp only [hne, if_false]
  have hq2 : ¬ (104 < qexp e) := by unfold qexp; split <;> omega
  simp only [hq2, if_false]
  by_cases h0 : e.val = 0
  · have hs : sig e m = m.val := by simp [sig, h0]
    have hlt2 : sig e m < 8388608 := by omega
    rw [if_pos hlt2, hs]
    have e0 : (0 : Fin 255) = e := Fin.ext (by simp [h0])
    have e1 : (Fin.ofNat m.val : Fin 8388608) = m := by
      apply Fin.ext; simp [Fin.ofNat, Nat.mod_eq_of_lt hm]
    rw [e0, e1]
  · have hs : sig e m = 8388608 + m.val := by simp [sig, h0]
    have hlt2 : ¬ sig e m < 8388608 := by omega
    rw [if_neg hlt2, hs]
    have e0 : (Fin.ofNat (qexp e + 150).toNat : Fin 255) = e := by
      apply Fin.ext
      have : (qexp e + 150).toNat = e.val := by simp only [qexp, h0, if_false]; omega
      simp [Fin.ofNat, this, Nat.mod_eq_of_lt he]
    have e1 : (Fin.ofNat (8388608 + m.val - 8388608) : Fin 8388608) = m := by
      apply Fin.ext; simp [Fin.ofNat, Nat.mod_eq_of_lt hm]
    rw [e0, e1]

theorem sig_zero (e : Fin 255) (m : Fin 8388608) (h : sig e m = 0) : e = 0 ∧ m = 0 := by
  unfold sig at h
  by_cases he : e.val = 0
  · simp only [he, if_true] at h
    exact ⟨Fin.ext he, Fin.ext h⟩
  · simp only [he, if_false] at h
    omega

theorem rnd_zero (s : Bool) (E : Int) : rnd s 0 E = fin s 0 0 := by
  simp [rnd]

theorem mul_zero_left (s t : Bool) (e : Fin 255) (m : Fin 8388608) :
    mul (fin s 0 0) (fin t e m) = fin (s != t) 0 0 := by
  simp [mul, sig, rnd_zero]

theorem mul_zero_right (s t : Bool) (e : Fin 255) (m : Fin 8388608) :
    mul (fin t e m) (fin s 0 0) = fin (t != s) 0 0 := by
  simp [mul, sig, rnd_zero]

theorem mul_one_right (s : Bool) (e : Fin 255) (m : Fin 8388608) :
    mul (fin s e m) one = fin s e m := by
  have h1 : sig 127 0 = 2 ^ 23 := by decide
  have h2 : qexp 127 = -23 := by decide
  simp only [mul, one, h1, h2]
  have hs : (s != false) = s := by cases s <;> rfl
  rw [hs]
  by_cases h : sig e m = 0
  · obtain ⟨he, hm⟩ := sig_zero e m h
    rw [h, Nat.zero_mul, rnd_zero, he, hm]
  · have := rnd_exact s e m 23 h
    simpa [Int.sub_eq_add_neg] using this

theorem mul_one_left (s : Bool) (e : Fin 255) (m : Fin 8388608) :
    mul one (fin s e m) = fin s e m := by
  have h1 : sig 127 0 = 2 ^ 23 := by decide
  have h2 : qexp 127 = -23 := by decide
  simp only [mul, one, h1, h2]
  have hs : (false != s) = s := by cases s <;> rfl
  rw [hs]
  by_cases h : sig e m = 0
  · obtain ⟨he, hm⟩ := sig_zero e m h
    rw [h, Nat.mul_zero, rnd_zero, he, hm]
  · have := rnd_exact s e m 23 h
    rw [Nat.mul_comm, Int.add_comm]
    simpa [Int.sub_eq_add_neg] using this

theorem qexp_ge (e : Fin 255) : -149 ≤ qexp e := by
  unfold qexp
  split <;> omega

theorem add_zero_right (s t : Bool) (e : Fin 255) (m : Fin 8388608) :
    add (fin s e m) (fin t 0 0) = if sig e m = 0 then fin (s && t) 0 0 else fin s e m := by
  have hq := qexp_ge e
  have h0 : qexp 0 = -149 := by decide
  have hmin : min (qexp e) (-149) = -149 := by omega
  have hs0 : sig 0 0 = 0 := by decide
  simp only [add, h0, hmin, aligned, hs0, Nat.zero_mul, signed]
  by_cases h : sig e m = 0
  · simp [h]
  · have hp : sig e m * 2 ^ (qexp e - -149).toNat ≠ 0 :=
      Nat.mul_ne_zero h (Nat.two_pow_pos _).ne.symm
    have hpos : (0 : Int) < ((sig e m * 2 ^ (qexp e - -149).toNat : Nat) : Int) := by omega
    have hx := rnd_exact s e m (qexp e - -149).toNat h
    have hE : qexp e - ((qexp e - -149).toNat : Int) = -149 := by omega
    rw [hE] at hx
    cases s
    · simp only [Bool.false_eq_true, if_false, h]
      have hc : ¬ (((sig e m * 2 ^ (qexp e - -149).toNat : Nat) : Int) + (if t = true then -((0 : Nat) : Int) else ((0 : Nat) : Int)) = 0) := by
        split <;> omega
      rw [if_neg hc]
      have hneg : decide (((sig e m * 2 ^ (qexp e - -149).toNat : Nat) : Int) + (if t = true then -((0 : Nat) : Int) else ((0 : Nat) : Int)) < 0) = false := by
        rw [decide_eq_false_iff_not]; split <;> omega
      have hab : (((sig e m * 2 ^ (qexp e - -149).toNat : Nat) : Int) + (if t = true then -((0 : Nat) : Int) else ((0 : Nat) : Int))).natAbs = sig e m * 2 ^ (qexp e - -149).toNat := by
        split <;> omega
      rw [hneg, hab, hx]
    · simp only [if_true, h, if_false]
      have hc : ¬ (-((sig e m * 2 ^ (qexp e - -149).toNat : Nat) : Int) + (if t = true then -((0 : Nat) : Int) else ((0 : Nat) : Int)) = 0) := by
        split <;> omega
      rw [if_neg hc]
      have hneg : decide (-((sig e m * 2 ^ (qexp e - -149).toNat : Nat) : Int) + (if t = true then -((0 : Nat) : Int) else ((0 : Nat) : Int)) < 0) = true := by
        rw [decide_eq_true_iff]; split <;> omega
      have hab : (-((sig e m * 2 ^ (qexp e - -149).toNat : Nat) : Int) + (if t = true then -((0 : Nat) : Int) else ((0 : Nat) : Int))).natAbs = sig e m * 2 ^ (qexp e - -149).toNat := by
        split <;> omega
      rw [hneg, hab, hx]

theorem add_comm (x y : F32) : add x y = add y x := by
  cases x with
  | nan => cases y <;> rfl
  | inf s =>
    cases y with
    | nan => rfl
    | inf t =>
      cases s <;> cases t <;> rfl
    | fin t e m => rfl
  | fin s e m =>
    cases y with
    | nan => rfl
    | inf t => rfl
    | fin t e' m' =>
      simp only [add]
      rw [min_comm (qexp e) (qexp e'), Int.add_comm (aligned s e m _), Bool.and_comm s t]

theorem add_zero_left (s t : Bool) (e : Fin 255) (m : Fin 8388608) :
    add (fin t 0 0) (fin s e m) = if sig e m = 0 then fin (s && t) 0 0 else fin s e m := by
  rw [add_comm, add_zero_right]

theorem same_refl (x : F32) : same x x := Or.inl rfl

theorem isZero_fin_zero (s : Bool) : isZero (fin s 0 0) = true := by
  simp [isZero]

theorem isZero_of_sig (s : Bool) (e : Fin 255) (m : Fin 8388608) (h : sig e m = 0) :
    isZero (fin s e m) = true := by
  obtain ⟨he, hm⟩ := sig_zero e m h
  rw [he, hm]
  exact isZero_fin_zero s

theorem sig_of_isZero (s : Bool) (e : Fin 255) (m : Fin 8388608)
    (h : isZero (fin s e m) = true) : sig e m = 0 := by
  simp only [isZero, Bool.and_eq_true, decide_eq_true_eq] at h
  simp [sig, h.1, h.2]

/-- Adding a zero of either sign to `y` gives `y`, up to the sign of a zero. -/
theorem add_zero_same (u : Bool) (y : F32) : same (add (fin u 0 0) y) y := by
  cases y with
  | nan => exact Or.inl rfl
  | inf t => exact Or.inl rfl
  | fin t e m =>
    rw [add_zero_left]
    by_cases h : sig e m = 0
    · rw [if_pos h]
      exact Or.inr ⟨isZero_fin_zero _, isZero_of_sig t e m h⟩
    · rw [if_neg h]
      exact Or.inl rfl

/-- A zero times a finite value is a zero. -/
theorem zero_mul_finite (u : Bool) (x : F32) (h : isFinite x = true) :
    ∃ v, mul (fin u 0 0) x = fin v 0 0 := by
  cases x with
  | nan => cases h
  | inf t => cases h
  | fin t e m => exact ⟨_, mul_zero_left u t e m⟩

theorem finite_mul_zero (u : Bool) (x : F32) (h : isFinite x = true) :
    ∃ v, mul x (fin u 0 0) = fin v 0 0 := by
  cases x with
  | nan => cases h
  | inf t => cases h
  | fin t e m => exact ⟨_, mul_zero_right u t e m⟩

theorem same_plusZero (x : F32) : same (plusZero x) x := by
  unfold plusZero
  by_cases h : x.isZero = true
  · rw [if_pos h]
    exact Or.inr ⟨isZero_fin_zero false, h⟩
  · rw [if_neg h]
    exact Or.inl rfl

/-- Adding a zero of either sign to a value without a minus zero changes nothing. -/
theorem plusZero_add_zero (x : F32) (v : Bool) (h : isFinite x = true) :
    add (plusZero x) (fin v 0 0) = plusZero x := by
  cases x with
  | nan => cases h
  | inf t => cases h
  | fin t e m =>
    unfold plusZero
    by_cases hz : (fin t e m).isZero = true
    · rw [if_pos hz]
      show add (fin false 0 0) (fin v 0 0) = fin false 0 0
      rw [add_zero_right]
      simp [sig]
    · rw [if_neg hz, add_zero_right]
      have hs : sig e m ≠ 0 := fun h0 => hz (isZero_of_sig t e m h0)
      rw [if_neg hs]

/-- Adding a finite value to `+0.0f` gives the value, a minus zero becoming `+0.0f`. -/
theorem zero_add_finite (x : F32) (h : isFinite x = true) : add zero x = plusZero x := by
  cases x with
  | nan => cases h
  | inf t => cases h
  | fin t e m =>
    show add (fin false 0 0) (fin t e m) = plusZero (fin t e m)
    rw [add_zero_left]
    unfold plusZero
    by_cases hs : sig e m = 0
    · rw [if_pos hs, if_pos (isZero_of_sig t e m hs)]
      simp [zero]
    · have hz : ¬ (fin t e m).isZero = true := fun hz => hs (sig_of_isZero t e m hz)
      rw [if_neg hs, if_neg hz]

theorem mul_one_finite (x : F32) (h : isFinite x = true) : mul x one = x := by
  cases x with
  | nan => cases h
  | inf t => cases h
  | fin t e m => exact mul_one_right t e m

theorem one_mul_plusZero (x : F32) (h : isFinite x = true) :
    mul one (plusZero x) = plusZero x := by
  cases x with
  | nan => cases h
  | inf t => cases h
  | fin t e m =>
    unfold plusZero
    by_cases hz : (fin t e m).isZero = true
    · rw [if_pos hz]
      exact mul_one_left false 0 0
    · rw [if_neg hz]
      exact mul_one_left t e m

/-! ### The fused multiply-add -/

theorem rne_scale (M d k : Nat) : rne (M * 2 ^ k) (d + k) = rne M d := by
  have hp : 0 < 2 ^ k := Nat.two_pow_pos _
  have hq : M * 2 ^ k / 2 ^ (d + k) = M / 2 ^ d := by
    rw [pow_add, Nat.mul_div_mul_right _ _ hp]
  have hr : M * 2 ^ k % 2 ^ (d + k) = (M % 2 ^ d) * 2 ^ k := by
    rw [pow_add, Nat.mul_mod_mul_right]
  have c1 : (2 * (M % 2 ^ d * 2 ^ k) < 2 ^ (d + k)) ↔ (2 * (M % 2 ^ d) < 2 ^ d) := by
    rw [pow_add, ← Nat.mul_assoc]
    exact Nat.mul_lt_mul_right hp
  have c2 : (2 ^ (d + k) < 2 * (M % 2 ^ d * 2 ^ k)) ↔ (2 ^ d < 2 * (M % 2 ^ d)) := by
    rw [pow_add, ← Nat.mul_assoc]
    exact Nat.mul_lt_mul_right hp
  unfold rne
  simp only [hq, hr, c1, c2]

/-- Rounding depends on the exact value only, not on how it is written. -/
theorem rnd_scale (s : Bool) (M k : Nat) (E : Int) :
    rnd s (M * 2 ^ k) (E - k) = rnd s M E := by
  by_cases hM : M = 0
  · subst hM
    simp [rnd]
  have hM' : M * 2 ^ k ≠ 0 := Nat.mul_ne_zero hM (Nat.two_pow_pos k).ne.symm
  have hlog := ilog2_mul_pow M k hM
  have hq : max (((ilog2 (M * 2 ^ k) : Nat) : Int) + (E - k) - 23) (-149)
      = max (((ilog2 M : Nat) : Int) + E - 23) (-149) := by
    rw [hlog]
    congr 1
    omega
  have hm1 : ∀ q : Int,
      (if q ≤ E - (k : Int) then M * 2 ^ k * 2 ^ (E - k - q).toNat
        else rne (M * 2 ^ k) (q - (E - k)).toNat)
      = (if q ≤ E then M * 2 ^ (E - q).toNat else rne M (q - E).toNat) := by
    intro q
    by_cases h1 : q ≤ E - (k : Int)
    · have h2 : q ≤ E := by omega
      rw [if_pos h1, if_pos h2]
      have : (E - q).toNat = k + (E - k - q).toNat := by omega
      rw [this, pow_add, Nat.mul_assoc]
    · rw [if_neg h1]
      by_cases h2 : q ≤ E
      · rw [if_pos h2]
        have hd : (E - q).toNat + (q - (E - k)).toNat = k := by omega
        have hk : M * 2 ^ k = M * 2 ^ (E - q).toNat * 2 ^ (q - (E - k)).toNat := by
          rw [Nat.mul_assoc, ← pow_add, hd]
        rw [hk, rne_mul_pow]
      · rw [if_neg h2]
        have : (q - (E - k)).toNat = (q - E).toNat + k := by omega
        rw [this, rne_scale]
  unfold rnd
  simp only [hM, hM', if_false, hq, hm1]

theorem signed_zero (b : Bool) : signed b 0 = 0 := by
  cases b <;> rfl

/-- Rounding of a signed integer multiple of `2 ^ E`. -/
theorem rnd_signed (w s : Bool) (P : Nat) (E : Int) :
    (if signed s P = 0 then fin w 0 0
      else rnd (decide (signed s P < 0)) (signed s P).natAbs E)
      = if P = 0 then fin w 0 0 else rnd s P E := by
  by_cases hP : P = 0
  · subst hP
    rw [signed_zero]
    simp
  · rw [if_neg hP]
    cases s
    · have h1 : signed false P = (P : Int) := rfl
      have h2 : ¬ ((P : Int) = 0) := by omega
      have h3 : decide ((P : Int) < 0) = false := by
        rw [decide_eq_false_iff_not]; omega
      rw [h1, if_neg h2, h3, Int.natAbs_ofNat]
    · have h1 : signed true P = -(P : Int) := rfl
      have h2 : ¬ (-(P : Int) = 0) := by omega
      have h3 : decide (-(P : Int) < 0) = true := by
        rw [decide_eq_true_iff]; omega
      rw [h1, if_neg h2, h3, Int.natAbs_neg, Int.natAbs_ofNat]

/-- Rounding of a binary32 number written in units of `2 ^ E`. -/
theorem rnd_aligned (w u : Bool) (e : Fin 255) (m : Fin 8388608) (E : Int) (hE : E ≤ qexp e) :
    (if aligned u e m E = 0 then fin w 0 0
      else rnd (decide (aligned u e m E < 0)) (aligned u e m E).natAbs E)
      = if sig e m = 0 then fin w 0 0 else fin u e m := by
  unfold aligned
  rw [rnd_signed]
  by_cases hs : sig e m = 0
  · rw [if_pos hs, if_pos (by rw [hs, Nat.zero_mul])]
  · have hP : sig e m * 2 ^ (qexp e - E).toNat ≠ 0 :=
      Nat.mul_ne_zero hs (Nat.two_pow_pos _).ne.symm
    rw [if_neg hs, if_neg hP]
    have hx := rnd_exact u e m (qexp e - E).toNat hs
    have hE' : qexp e - ((qexp e - E).toNat : Int) = E := by omega
    rw [hE'] at hx
    exact hx

/-- A product with a zero factor contributes nothing to a fused multiply-add: the
result is that of the separately rounded product and sum. -/
theorem fma_mul_zero_right (t v : Bool) (e : Fin 255) (m : Fin 8388608) (z : F32) :
    fma (fin t e m) (fin v 0 0) z = add (mul (fin t e m) (fin v 0 0)) z := by
  rw [mul_zero_right]
  cases z with
  | nan => rfl
  | inf u => rfl
  | fin u e2 m2 =>
    rw [add_zero_left]
    have hs0 : sig 0 0 = 0 := by decide
    have h := rnd_aligned ((t != v) && u) u e2 m2 (min (qexp e + qexp 0) (qexp e2))
      (min_le_right _ _)
    simp only [fma, hs0, Nat.mul_zero, Nat.zero_mul, signed_zero, Int.zero_add]
    rw [h, Bool.and_comm]

theorem fma_mul_zero_left (t v : Bool) (e : Fin 255) (m : Fin 8388608) (z : F32) :
    fma (fin v 0 0) (fin t e m) z = add (mul (fin v 0 0) (fin t e m)) z := by
  rw [mul_zero_left]
  cases z with
  | nan => rfl
  | inf u => rfl
  | fin u e2 m2 =>
    rw [add_zero_left]
    have hs0 : sig 0 0 = 0 := by decide
    have h := rnd_aligned ((v != t) && u) u e2 m2 (min (qexp 0 + qexp e) (qexp e2))
      (min_le_right _ _)
    simp only [fma, hs0, Nat.mul_zero, Nat.zero_mul, signed_zero, Int.zero_add]
    rw [h, Bool.and_comm]

/-- A fused multiply-add with a zero addend rounds the exact product, as `*` does; only
the sign of a zero result can differ. -/
theorem fma_zero_addend (s t u : Bool) (e e2 : Fin 255) (m m2 : Fin 8388608) :
    fma (fin s e m) (fin t e2 m2) (fin u 0 0)
      = if sig e m * sig e2 m2 = 0 then fin ((s != t) && u) 0 0
        else mul (fin s e m) (fin t e2 m2) := by
  have hs0 : sig 0 0 = 0 := by decide
  have hE : min (qexp e + qexp e2) (qexp 0) ≤ qexp e + qexp e2 := min_le_left _ _
  have hk : qexp e + qexp e2
      - (((qexp e + qexp e2 - min (qexp e + qexp e2) (qexp 0)).toNat : Nat) : Int)
      = min (qexp e + qexp e2) (qexp 0) := by omega
  simp only [fma, mul, aligned, hs0, Nat.zero_mul, signed_zero, Int.add_zero]
  rw [rnd_signed]
  by_cases hP : sig e m * sig e2 m2 = 0
  · rw [if_pos hP, if_pos (by rw [hP, Nat.zero_mul])]
  · rw [if_neg hP, if_neg (Nat.mul_ne_zero hP (Nat.two_pow_pos _).ne.symm)]
    have h := rnd_scale (s != t) (sig e m * sig e2 m2)
      (qexp e + qexp e2 - min (qexp e + qexp e2) (qexp 0)).toNat (qexp e + qexp e2)
    rw [hk] at h
    exact h

/-- With a zero addend, the fused multiply-add gives the product, up to the sign of a
zero. -/
theorem fma_zero_addend_same (u : Bool) (x y : F32) :
    same (fma x y (fin u 0 0)) (mul x y) := by
  cases x with
  | nan => cases y <;> exact Or.inl rfl
  | inf s =>
    cases y with
    | nan => exact Or.inl rfl
    | inf t => exact Or.inl rfl
    | fin t e m =>
      by_cases h : sig e m = 0
      · exact Or.inl (by simp [fma, mul, h])
      · exact Or.inl (by simp [fma, mul, h, infPlus])
  | fin s e m =>
    cases y with
    | nan => exact Or.inl rfl
    | inf t =>
      by_cases h : sig e m = 0
      · exact Or.inl (by simp [fma, mul, h])
      · exact Or.inl (by simp [fma, mul, h, infPlus])
    | fin t e2 m2 =>
      rw [fma_zero_addend]
      by_cases hP : sig e m * sig e2 m2 = 0
      · rw [if_pos hP]
        refine Or.inr ⟨isZero_fin_zero _, ?_⟩
        simp only [mul, hP, rnd_zero]
        exact isZero_fin_zero _
      · rw [if_neg hP]
        exact Or.inl rfl

theorem fma_one_right (s u : Bool) (e : Fin 255) (m : Fin 8388608) :
    fma (fin s e m) one (fin u 0 0) = add (fin s e m) (fin u 0 0) := by
  have h1 : sig 127 0 = 8388608 := by decide
  have hs : (s != false) = s := by cases s <;> rfl
  show fma (fin s e m) (fin false 127 0) (fin u 0 0) = _
  rw [fma_zero_addend, add_zero_right, h1, hs]
  by_cases h : sig e m = 0
  · rw [if_pos h, if_pos (by rw [h, Nat.zero_mul])]
  · rw [if_neg h, if_neg (by omega)]
    exact mul_one_right s e m

theorem fma_one_left (s u : Bool) (e : Fin 255) (m : Fin 8388608) :
    fma one (fin s e m) (fin u 0 0) = add (fin s e m) (fin u 0 0) := by
  have h1 : sig 127 0 = 8388608 := by decide
  have hs : (false != s) = s := by cases s <;> rfl
  show fma (fin false 127 0) (fin s e m) (fin u 0 0) = _
  rw [fma_zero_addend, add_zero_right, h1, hs]
  by_cases h : sig e m = 0
  · rw [if_pos h, if_pos (by rw [h, Nat.mul_zero])]
  · rw [if_neg h, if_neg (by omega)]
    exact mul_one_left s e m

end F32

/-! ### What a conforming float unit gives on zeros and ones -/

namespace FloatUnit

/-- A term `a * 0.0f` with finite `a`: fused or not, the sum changes as by `+`. -/
theorem mac_zero (u : FloatUnit) (hu : u.conforming) (s a : F32) (v : Bool)
    (ha : a.isFinite = true) :
    u.mac s a (F32.fin v 0 0) = F32.add s (F32.mul a (F32.fin v 0 0)) := by
  rcases hu.1 s a (F32.fin v 0 0) with h | h
  · exact h
  · rw [h]
    cases a with
    | nan => cases ha
    | inf t => cases ha
    | fin t e m => rw [F32.fma_mul_zero_right, F32.add_comm]

/-- A term `a * 1.0f` with finite `a`, added to a zero: fused or not, the same value. -/
theorem mac_one (u : FloatUnit) (hu : u.conforming) (a : F32) (w : Bool)
    (ha : a.isFinite = true) :
    u.mac (F32.fin w 0 0) a F32.one = F32.add (F32.fin w 0 0) (F32.mul a F32.one) := by
  rcases hu.1 (F32.fin w 0 0) a F32.one with h | h
  · exact h
  · rw [h]
    cases a with
    | nan => cases ha
    | inf t => cases ha
    | fin t e m => rw [F32.fma_one_right, F32.mul_one_right, F32.add_comm]

/-- The value `1.0f * s + 0.0f * c` with finite `s` and `c`: fused or not, the same. -/
theorem axpby_one_zero (u : FloatUnit) (hu : u.conforming) (s c : F32)
    (hs : s.isFinite = true) (hc : c.isFinite = true) :
    u.axpby F32.one s F32.zero c = F32.add (F32.mul F32.one s) (F32.mul F32.zero c) := by
  rcases hu.2 F32.one s F32.zero c with h | h | h
  · exact h
  · rw [h]
    cases s with
    | nan => cases hs
    | inf t => cases hs
    | fin t e m =>
      obtain ⟨v, hv⟩ := F32.zero_mul_finite false c hc
      have hv' : F32.mul F32.zero c = F32.fin v 0 0 := hv
      rw [hv', F32.fma_one_left, F32.mul_one_left]
  · rw [h]
    cases c with
    | nan => cases hc
    | inf t => cases hc
    | fin t e m =>
      show F32.fma (F32.fin false 0 0) (F32.fin t e m) _ = _
      rw [F32.fma_mul_zero_left, F32.add_comm]
      rfl

/-- The value `0.0f * s + beta * c` with finite `s`: fused or not, it is `beta * c` up
to the sign of a zero. -/
theorem axpby_zero (u : FloatUnit) (hu : u.conforming) (s beta c : F32)
    (hs : s.isFinite = true) :
    F32.same (u.axpby F32.zero s beta c) (F32.mul beta c) := by
  obtain ⟨v, hv⟩ := F32.zero_mul_finite false s hs
  have hv' : F32.mul F32.zero s = F32.fin v 0 0 := hv
  rcases hu.2 F32.zero s beta c with h | h | h
  · rw [h, hv']
    exact F32.add_zero_same v _
  · rw [h]
    cases s with
    | nan => cases hs
    | inf t => cases hs
    | fin t e m =>
      show F32.same (F32.fma (F32.fin false 0 0) (F32.fin t e m) _) _
      rw [F32.fma_mul_zero_left, F32.mul_zero_left]
      exact F32.add_zero_same _ _
  · rw [h, hv']
    exact F32.fma_zero_addend_same v beta c

theorem separate_conforming : FloatUnit.separate.conforming :=
  ⟨fun _ _ _ => Or.inl rfl, fun _ _ _ _ => Or.inl rfl⟩

theorem fused_conforming : FloatUnit.fused.conforming :=
  ⟨fun _ _ _ => Or.inr rfl, fun _ _ _ _ => Or.inr (Or.inl rfl)⟩

end FloatUnit

/-! ## Running code: basic facts -/

namespace simple_gemm

@[simp] theorem pure_run {α : Type} (v : α) (m : Mem) : (pure v : Exec α) m = Res.ok v m := rfl

theorem bind_run {α β : Type} (x : Exec α) (f : α → Exec β) (m : Mem) :
    (x >>= f) m = match x m with
      | Res.ok v m1 => f v m1
      | Res.oob a m1 => Res.oob a m1 := rfl

theorem bind_ok {α β : Type} (x : Exec α) (f : α → Exec β) (m m1 : Mem) (v : α)
    (h : x m = Res.ok v m1) : (x >>= f) m = f v m1 := by
  rw [bind_run, h]

theorem bind_oob {α β : Type} (x : Exec α) (f : α → Exec β) (m m1 : Mem) (a : Access)
    (h : x m = Res.oob a m1) : (x >>= f) m = Res.oob a m1 := by
  rw [bind_run, h]

/-! ### `int` arithmetic without overflow -/

theorem wrap32_eq (x : Int) (h0 : 0 ≤ x) (h1 : x < 2147483648) : wrap32 x = x := by
  unfold wrap32
  omega

/-- An index expression whose exact value is an `int` has that value. -/
theorem idx32_eq (a b c : Nat) (h : a * b + c < 2147483648) :
    idx32 a b c = ((a * b + c : Nat) : Int) := by
  have h1 : (a : Int) * (b : Int) = ((a * b : Nat) : Int) := by push_cast; rfl
  unfold idx32
  rw [h1, wrap32_eq ((a * b : Nat) : Int) (by omega) (by omega),
    wrap32_eq _ (by omega) (by omega)]
  push_cast
  rfl

/-- A product that is an `int` gives the element count it stands for. -/
theorem floatCount_eq (a b : Nat) (h : a * b ≤ INT_MAX) : floatCount a b = a * b := by
  have h1 : (a : Int) * (b : Int) = ((a * b : Nat) : Int) := by push_cast; rfl
  unfold INT_MAX at h
  unfold floatCount
  rw [h1, wrap32_eq _ (by omega) (by omega)]
  omega

/-! ### Accesses -/

theorem load_ok (b : Buf) (i : Nat) (m : Mem) (h : i < (m.buf b).length) :
    load b (i : Int) m = Res.ok ((m.buf b).getD i F32.zero)
      { m with log := m.log ++ [Access.read b (i : Int)] } := by
  unfold load
  rw [if_pos (by omega), Int.toNat_ofNat, List.getElem?_eq_getElem h]
  simp [List.getD, List.getElem?_eq_getElem h]

theorem load_oob (b : Buf) (i : Nat) (m : Mem) (h : (m.buf b).length ≤ i) :
    load b (i : Int) m = Res.oob (Access.read b (i : Int)) m := by
  unfold load
  rw [if_pos (by omega), Int.toNat_ofNat, List.getElem?_eq_none h]

/-- A read at an index that is negative or past the end of the buffer ends the run. -/
theorem load_fault (b : Buf) (i : Int) (m : Mem)
    (h : i < 0 ∨ ((m.buf b).length : Int) ≤ i) :
    load b i m = Res.oob (Access.read b i) m := by
  unfold load
  by_cases h0 : 0 ≤ i
  · rw [if_pos h0, List.getElem?_eq_none (by omega)]
  · rw [if_neg h0]

theorem store_ok (b : Buf) (i : Nat) (v : F32) (m : Mem) (h : i < (m.buf b).length) :
    store b (i : Int) v m = Res.ok ()
      { m.setBuf b ((m.buf b).set i v) with log := m.log ++ [Access.write b (i : Int)] } := by
  unfold store
  rw [if_pos ⟨by omega, by rw [Int.toNat_ofNat]; exact h⟩, Int.toNat_ofNat]

theorem forLoop_zero {σ : Type} (body : Nat → σ → Exec σ) (i : Nat) (s : σ) :
    forLoop body i 0 s = pure s := rfl

theorem forLoop_succ {σ : Type} (body : Nat → σ → Exec σ) (i n : Nat) (s : σ) :
    forLoop body i (n + 1) s = (body i s >>= fun s1 => forLoop body (i + 1) n s1) := rfl

/-! ## The element update -/

theorem dot_loop_ok (u : FloatUnit) (N K row col : Nat) (A B C : List F32) :
    ∀ (n lo : Nat) (s : F32) (lg : List Access),
      (∀ k, lo ≤ k → k < lo + n →
        InRange32 (row * K + k) A.length ∧ InRange32 (k * N + col) B.length) →
      forLoop (fun k sum => do
          let a ← load Buf.A (idx32 row K k)
          let b ← load Buf.B (idx32 k N col)
          pure (u.mac sum a b)) lo n s { A := A, B := B, C := C, log := lg }
        = Res.ok
            ((List.range' lo n).foldl
              (fun s k => u.mac s
                (A.getD (row * K + k) F32.zero) (B.getD (k * N + col) F32.zero)) s)
            { A := A, B := B, C := C,
              log := lg ++ (List.range' lo n).flatMap
                (fun k => [Access.read Buf.A ((row * K + k : Nat) : Int),
                           Access.read Buf.B ((k * N + col : Nat) : Int)]) } := by
  intro n
  induction n with
  | zero => intro lo s lg _; simp [forLoop_zero]
  | succ n ih =>
    intro lo s lg h
    obtain ⟨⟨hA, hA32⟩, ⟨hB, hB32⟩⟩ := h lo (Nat.le_refl _) (by omega)
    rw [forLoop_succ]
    have h1 : load Buf.A (idx32 row K lo) { A := A, B := B, C := C, log := lg }
        = Res.ok (A.getD (row * K + lo) F32.zero)
            { A := A, B := B, C := C,
              log := lg ++ [Access.read Buf.A ((row * K + lo : Nat) : Int)] } := by
      rw [idx32_eq _ _ _ hA32]
      exact load_ok Buf.A _ _ hA
    have h2 : load Buf.B (idx32 lo N col)
          { A := A, B := B, C := C,
            log := lg ++ [Access.read Buf.A ((row * K + lo : Nat) : Int)] }
        = Res.ok (B.getD (lo * N + col) F32.zero)
            { A := A, B := B, C := C,
              log := lg ++ [Access.read Buf.A ((row * K + lo : Nat) : Int)]
                ++ [Access.read Buf.B ((lo * N + col : Nat) : Int)] } := by
      rw [idx32_eq _ _ _ hB32]
      exact load_ok Buf.B _ _ hB
    rw [bind_run, bind_run, h1]
    simp only []
    rw [bind_run, h2]
    simp only [pure_run]
    rw [ih (lo + 1) _ _ (fun k hk1 hk2 => h k (by omega) (by omega))]
    simp [List.range'_succ, List.append_assoc]

theorem update_element_ok (u : FloatUnit) (N K : Nat) (alpha beta : F32) (row col : Nat)
    (m : Mem) (hs : Safe N K m.A.length m.B.length m.C.length (row, col)) :
    update_element u N K alpha beta row col m = Res.ok ()
      { A := m.A, B := m.B,
        C := m.C.set (row * N + col) (elem_spec u m.A m.B m.C N K alpha beta row col),
        log := m.log ++ elem_log N K row col } := by
  obtain ⟨hA, hB, hC, hC32⟩ := hs
  have hd := dot_loop_ok u N K row col m.A m.B m.C K 0 F32.zero m.log
    (fun k _ hk => ⟨hA k (by omega), hB k (by omega)⟩)
  unfold update_element
  rw [bind_run]
  have hm : m = { A := m.A, B := m.B, C := m.C, log := m.log } := rfl
  rw [hm, hd]
  simp only []
  rw [idx32_eq _ _ _ hC32, bind_run, load_ok Buf.C _ _ (by simpa [Mem.buf] using hC)]
  simp only []
  rw [store_ok Buf.C _ _ _ (by simpa [Mem.buf] using hC)]
  simp [Mem.buf, Mem.setBuf, elem_spec, dot_spec, elem_log, List.range_eq_range']

theorem idx_lt (i M k K : Nat) (hi : i < M) (hk : k < K) : i * K + k < M * K := by
  have h1 : (i + 1) * K ≤ M * K := Nat.mul_le_mul_right K hi
  have h2 : (i + 1) * K = i * K + K := by ring
  omega

theorem idx_lt' (k K j N : Nat) (hk : k < K) (hj : j < N) : k * N + j < K * N :=
  idx_lt k K j N hk hj

/-- On buffers that hold the elements the dimensions require, with all three element
counts `int` values, the update of an element of the output is safe. -/
theorem safe_of_fits (M N K lenA lenB lenC : Nat) (p : Nat × Nat)
    (hA : M * K ≤ lenA) (hB : K * N ≤ lenB) (hC : M * N ≤ lenC)
    (hA32 : M * K ≤ 2147483648) (hB32 : K * N ≤ 2147483648) (hC32 : M * N ≤ 2147483648)
    (h1 : p.1 < M) (h2 : p.2 < N) : Safe N K lenA lenB lenC p := by
  refine ⟨fun k hk => ?_, fun k hk => ?_, ?_⟩
  · have := idx_lt _ _ _ _ h1 hk
    exact ⟨by omega, by omega⟩
  · have := idx_lt' _ _ _ _ hk h2
    exact ⟨by omega, by omega⟩
  · have := idx_lt _ _ _ _ h1 h2
    exact ⟨by omega, by omega⟩

theorem elem_spec_congr (u : FloatUnit) (A B C C' : List F32) (N K : Nat) (alpha beta : F32)
    (i j : Nat) (h : C'.getD (i * N + j) F32.zero = C.getD (i * N + j) F32.zero) :
    elem_spec u A B C' N K alpha beta i j = elem_spec u A B C N K alpha beta i j := by
  unfold elem_spec
  rw [h]

/-- A list of safe element updates at pairwise distinct positions runs to the end: each
listed element gets its value, every other element of `C` keeps its own, `A` and `B`
stay as they are, and the log grows by the accesses of the updates. -/
theorem run_elements_ok (u : FloatUnit) (N K : Nat) (alpha beta : F32) :
    ∀ (ps : List (Nat × Nat)) (m : Mem),
      (∀ p ∈ ps, Safe N K m.A.length m.B.length m.C.length p) →
      (ps.map fun p => p.1 * N + p.2).Nodup →
      ∃ C' : List F32,
        run_elements u N K alpha beta ps m = Res.ok ()
          { A := m.A, B := m.B, C := C',
            log := m.log ++ ps.flatMap fun p => elem_log N K p.1 p.2 } ∧
        C'.length = m.C.length ∧
        (∀ p ∈ ps,
          C'[p.1 * N + p.2]? = some (elem_spec u m.A m.B m.C N K alpha beta p.1 p.2)) ∧
        (∀ q, q ∉ (ps.map fun p => p.1 * N + p.2) → C'[q]? = m.C[q]?) := by
  intro ps
  induction ps with
  | nil =>
    intro m _ _
    exact ⟨m.C, by simp [run_elements], rfl, by simp, by simp⟩
  | cons p ps ih =>
    intro m hin hnd
    have hsafe := hin p (List.mem_cons_self _ _)
    have hidx : p.1 * N + p.2 < m.C.length := hsafe.2.2.1
    have hu := update_element_ok u N K alpha beta p.1 p.2 m hsafe
    rw [List.map_cons, List.nodup_cons] at hnd
    obtain ⟨hnotin, hnd'⟩ := hnd
    obtain ⟨C', hrun, hlen, hval, hother⟩ := ih
      { A := m.A, B := m.B,
        C := m.C.set (p.1 * N + p.2) (elem_spec u m.A m.B m.C N K alpha beta p.1 p.2),
        log := m.log ++ elem_log N K p.1 p.2 }
      (fun q hq => by simpa using hin q (List.mem_cons_of_mem _ hq)) hnd'
    refine ⟨C', ?_, ?_, ?_, ?_⟩
    · unfold run_elements
      rw [bind_run, hu]
      simp only []
      rw [hrun]
      simp [List.append_assoc]
    · simpa using hlen
    · intro q hq
      rcases List.mem_cons.mp hq with rfl | hq'
      · rw [hother _ hnotin]
        simp [List.getElem?_set, hidx]
      · rw [hval q hq']
        congr 1
        apply elem_spec_congr
        have hne : p.1 * N + p.2 ≠ q.1 * N + q.2 := by
          intro he
          apply hnotin
          rw [he]
          exact List.mem_map_of_mem (fun p => p.1 * N + p.2) hq'
        simp [List.getD, List.getElem?_set, hne]
    · intro q hq
      have hq1 : q ≠ p.1 * N + p.2 := by
        intro he
        apply hq
        rw [he]
        exact List.mem_cons_self _ _
      have hq2 : q ∉ (ps.map fun p => p.1 * N + p.2) := by
        intro hm
        apply hq
        exact List.mem_cons_of_mem _ hm
      rw [hother q hq2]
      simp [List.getElem?_set, Ne.symm hq1]

/-! ## Reference and kernel as lists of element updates -/

theorem run_elements_append (u : FloatUnit) (N K : Nat) (alpha beta : F32)
    (qs : List (Nat × Nat)) :
    ∀ (ps : List (Nat × Nat)) (m : Mem),
      run_elements u N K alpha beta (ps ++ qs) m
        = (run_elements u N K alpha beta ps >>= fun _ =>
            run_elements u N K alpha beta qs) m := by
  intro ps
  induction ps with
  | nil => intro m; simp [run_elements, bind_run]
  | cons p ps ih =>
    intro m
    rw [List.cons_append]
    simp only [run_elements, bind_run]
    cases update_element u N K alpha beta p.1 p.2 m with
    | ok v m1 => simp only []; rw [ih m1, bind_run]
    | oob a m1 => rfl

theorem row_loop_eq (u : FloatUnit) (N K : Nat) (alpha beta : F32) (i : Nat) :
    ∀ (n lo : Nat) (m : Mem),
      forLoop (fun j (_ : Unit) => update_element u N K alpha beta i j) lo n () m
        = run_elements u N K alpha beta ((List.range' lo n).map fun j => (i, j)) m := by
  intro n
  induction n with
  | zero => intro lo m; simp [forLoop_zero, run_elements]
  | succ n ih =>
    intro lo m
    rw [forLoop_succ, List.range'_succ, List.map_cons]
    simp only [run_elements, bind_run]
    cases update_element u N K alpha beta i lo m with
    | ok v m1 => simp only []; rw [ih (lo + 1) m1]
    | oob a m1 => rfl

theorem gemm_cpu_reference_loop_eq (u : FloatUnit) (N K : Nat) (alpha beta : F32) :
    ∀ (n lo : Nat) (m : Mem),
      forLoop (fun i (_ : Unit) =>
          forLoop (fun j (_ : Unit) => update_element u N K alpha beta i j) 0 N ()) lo n () m
        = run_elements u N K alpha beta
            ((List.range' lo n).flatMap fun i => (List.range N).map fun j => (i, j)) m := by
  intro n
  induction n with
  | zero => intro lo m; simp [forLoop_zero, run_elements]
  | succ n ih =>
    intro lo m
    rw [forLoop_succ, List.range'_succ, List.flatMap_cons, run_elements_append]
    simp only [bind_run]
    rw [row_loop_eq, ← List.range_eq_range']
    cases run_elements u N K alpha beta (List.map (fun j => (lo, j)) (List.range N)) m with
    | ok v m1 => simp only []; rw [ih (lo + 1) m1]
    | oob a m1 => rfl

/-- The reference is the list of element updates in row-major order. -/
theorem gemm_cpu_reference_eq (u : FloatUnit) (M N K : Nat) (alpha beta : F32) (m : Mem) :
    gemm_cpu_reference u M N K alpha beta m
      = run_elements u N K alpha beta (positions M N) m := by
  have h := gemm_cpu_reference_loop_eq u N K alpha beta M 0 m
  rw [← List.range_eq_range'] at h
  exact h

/-- The element a thread updates, if any. -/
theorem simple_gemm_kernel_eq (u : FloatUnit) (blockDim : Dim3) (t : Thread) (M N K : Nat)
    (alpha beta : F32) :
    simple_gemm_kernel u blockDim t M N K alpha beta
      = if t.row blockDim < M ∧ t.col blockDim < N
        then update_element u N K alpha beta (t.row blockDim) (t.col blockDim)
        else pure () := rfl

end simple_gemm

/-! ## Positions and the launch grid -/

namespace simple_gemm

theorem mem_positions (M N : Nat) (p : Nat × Nat) :
    p ∈ positions M N ↔ p.1 < M ∧ p.2 < N := by
  unfold positions
  simp only [List.mem_flatMap, List.mem_range, List.mem_map]
  constructor
  · rintro ⟨i, hi, j, hj, rfl⟩
    exact ⟨hi, hj⟩
  · rintro ⟨h1, h2⟩
    exact ⟨p.1, h1, p.2, h2, rfl⟩

theorem positions_succ (M N : Nat) :
    positions (M + 1) N = positions M N ++ (List.range N).map fun j => (M, j) := by
  unfold positions
  rw [List.range_succ, List.flatMap_append]
  simp

/-- Row-major order: the indices of the positions are `0, 1, ..., M * N - 1`. -/
theorem positions_index (M N : Nat) :
    (positions M N).map (fun p => p.1 * N + p.2) = List.range (M * N) := by
  induction M with
  | zero => simp [positions]
  | succ M ih =>
    rw [positions_succ, List.map_append, ih, List.map_map]
    have h : (M + 1) * N = M * N + N := by ring
    rw [h, List.range_add]
    rfl

theorem index_inj (N i j i' j' : Nat) (hj : j < N) (hj' : j' < N)
    (h : i * N + j = i' * N + j') : i = i' ∧ j = j' := by
  have h1 : (i * N + j) / N = i := by
    rw [Nat.mul_comm, Nat.mul_add_div (by omega), Nat.div_eq_of_lt hj]; rfl
  have h2 : (i' * N + j') / N = i' := by
    rw [Nat.mul_comm, Nat.mul_add_div (by omega), Nat.div_eq_of_lt hj']; rfl
  have hi : i = i' := by rw [← h1, ← h2, h]
  subst hi
  exact ⟨rfl, by omega⟩

theorem index_decomp (M N q : Nat) (h : q < M * N) :
    q / N < M ∧ q % N < N ∧ q / N * N + q % N = q := by
  have hN : 0 < N := by
    rcases Nat.eq_zero_or_pos N with h0 | h0
    · subst h0; simp at h
    · exact h0
  refine ⟨?_, Nat.mod_lt _ hN, Nat.div_add_mod' q N⟩
  exact (Nat.div_lt_iff_lt_mul hN).mpr h

theorem mem_gridThreads (g b : Dim3) (t : Thread) :
    t ∈ gridThreads g b ↔
      t.blockIdx.y < g.y ∧ t.blockIdx.x < g.x ∧ t.threadIdx.y < b.y ∧ t.threadIdx.x < b.x := by
  unfold gridThreads
  simp only [List.mem_flatMap, List.mem_range, List.mem_map]
  constructor
  · rintro ⟨bY, h1, bX, h2, tY, h3, tX, h4, rfl⟩
    exact ⟨h1, h2, h3, h4⟩
  · rintro ⟨h1, h2, h3, h4⟩
    exact ⟨t.blockIdx.y, h1, t.blockIdx.x, h2, t.threadIdx.y, h3, t.threadIdx.x, h4, rfl⟩

theorem nodup_flatMap_range {α : Type} (n : Nat) (f : Nat → List α)
    (h1 : ∀ i, (f i).Nodup) (h2 : ∀ i j x, x ∈ f i → x ∈ f j → i = j) :
    ((List.range n).flatMap f).Nodup := by
  induction n with
  | zero => simp
  | succ n ih =>
    rw [List.range_succ, List.flatMap_append, List.nodup_append]
    refine ⟨ih, by simpa using h1 n, ?_⟩
    intro x hx hy
    simp only [List.mem_flatMap, List.mem_range] at hx
    obtain ⟨i, hi, hxi⟩ := hx
    have hxn : x ∈ f n := by simpa using hy
    have := h2 i n x hxi hxn
    omega

theorem nodup_gridThreads (g b : Dim3) : (gridThreads g b).Nodup := by
  unfold gridThreads
  apply nodup_flatMap_range
  · intro bY
    apply nodup_flatMap_range
    · intro bX
      apply nodup_flatMap_range
      · intro tY
        apply List.Nodup.map _ (List.nodup_range _)
        intro a c hac
        simpa using hac
      · intro i j x hi hj
        simp only [List.mem_map, List.mem_range] at hi hj
        obtain ⟨_, _, rfl⟩ := hi
        obtain ⟨_, _, h⟩ := hj
        simp at h
        omega
    · intro i j x hi hj
      simp only [List.mem_flatMap, List.mem_map, List.mem_range] at hi hj
      obtain ⟨_, _, _, _, rfl⟩ := hi
      obtain ⟨_, _, _, _, h⟩ := hj
      simp at h
      omega
  · intro i j x hi hj
    simp only [List.mem_flatMap, List.mem_map, List.mem_range] at hi hj
    obtain ⟨_, _, _, _, _, _, rfl⟩ := hi
    obtain ⟨_, _, _, _, _, _, h⟩ := hj
    simp at h
    omega

/-- Two threads of the grid of `gemm_host` with the same row and column are the same. -/
theorem host_grid_inj (M N : Nat) (t u : Thread)
    (ht : t ∈ gridThreads (hostGridDim M N) hostBlockDim)
    (hu : u ∈ gridThreads (hostGridDim M N) hostBlockDim)
    (hr : t.row hostBlockDim = u.row hostBlockDim)
    (hc : t.col hostBlockDim = u.col hostBlockDim) : t = u := by
  rw [mem_gridThreads] at ht hu
  simp only [hostBlockDim] at ht hu
  simp only [Thread.row, Thread.col, hostBlockDim] at hr hc
  obtain ⟨⟨bx, by_⟩, ⟨tx, ty⟩⟩ := t
  obtain ⟨⟨bx', by'⟩, ⟨tx', ty'⟩⟩ := u
  simp only at ht hu hr hc
  have h1 : by_ = by' := by omega
  have h2 : bx = bx' := by omega
  have h3 : ty = ty' := by omega
  have h4 : tx = tx' := by omega
  subst h1 h2 h3 h4
  rfl

/-- Every position of the output has a thread of the grid of `gemm_host`. -/
theorem host_grid_cover (M N r c : Nat) (hr : r < M) (hc : c < N) :
    ∃ t, t ∈ gridThreads (hostGridDim M N) hostBlockDim ∧
      t.row hostBlockDim = r ∧ t.col hostBlockDim = c := by
  refine ⟨{ blockIdx := { x := c / 16, y := r / 16 },
            threadIdx := { x := c % 16, y := r % 16 } }, ?_, ?_, ?_⟩
  · rw [mem_gridThreads]
    simp only [hostGridDim, hostBlockDim]
    refine ⟨?_, ?_, ?_, ?_⟩ <;> omega
  · simp only [Thread.row, hostBlockDim]; omega
  · simp only [Thread.col, hostBlockDim]; omega

end simple_gemm

/-! ## What reference, launch and host function compute -/

namespace simple_gemm

/-- Running threads one after another is running the updates of their elements. -/
theorem runThreads_eq (u : FloatUnit) (bd : Dim3) (M N K : Nat) (alpha beta : F32) :
    ∀ (l : List Thread) (m : Mem),
      runThreads (fun t => simple_gemm_kernel u bd t M N K alpha beta) l m
        = run_elements u N K alpha beta (thread_elements bd M N l) m := by
  intro l
  induction l with
  | nil => intro m; rfl
  | cons t ts ih =>
    intro m
    unfold runThreads
    rw [bind_run, simple_gemm_kernel_eq]
    by_cases h : t.row bd < M ∧ t.col bd < N
    · have hte : thread_elements bd M N (t :: ts)
          = (t.row bd, t.col bd) :: thread_elements bd M N ts := by
        simp [thread_elements, List.filter_cons, h]
      rw [if_pos h, hte]
      simp only [run_elements, bind_run]
      cases update_element u N K alpha beta (t.row bd) (t.col bd) m with
      | ok v m1 => simp only []; exact ih m1
      | oob a m1 => rfl
    · have hte : thread_elements bd M N (t :: ts) = thread_elements bd M N ts := by
        simp [thread_elements, List.filter_cons, h]
      rw [if_neg h, hte]
      simp only [pure_run]
      exact ih m

theorem mem_thread_elements (bd : Dim3) (M N : Nat) (l : List Thread) (p : Nat × Nat) :
    p ∈ thread_elements bd M N l ↔
      ∃ t, t ∈ l ∧ t.row bd = p.1 ∧ t.col bd = p.2 ∧ p.1 < M ∧ p.2 < N := by
  unfold thread_elements
  simp only [List.mem_map, List.mem_filter, decide_eq_true_eq]
  constructor
  · rintro ⟨t, ⟨ht, h1, h2⟩, rfl⟩
    exact ⟨t, ht, rfl, rfl, h1, h2⟩
  · rintro ⟨t, ht, h1, h2, h3, h4⟩
    refine ⟨t, ⟨ht, by omega, by omega⟩, ?_⟩
    rw [h1, h2]

/-- The elements of a schedule of the grid of `gemm_host`: in range, and no index of `C`
twice. -/
theorem schedule_elements (M N : Nat) (l : List Thread)
    (hl : l.Perm (gridThreads (hostGridDim M N) hostBlockDim)) :
    (∀ p ∈ thread_elements hostBlockDim M N l, p.1 < M ∧ p.2 < N) ∧
    ((thread_elements hostBlockDim M N l).map fun p => p.1 * N + p.2).Nodup ∧
    (∀ i j, i < M → j < N → (i, j) ∈ thread_elements hostBlockDim M N l) := by
  refine ⟨?_, ?_, ?_⟩
  · intro p hp
    rw [mem_thread_elements] at hp
    obtain ⟨t, _, _, _, h3, h4⟩ := hp
    exact ⟨h3, h4⟩
  · unfold thread_elements
    rw [List.map_map]
    have hnd : l.Nodup := hl.nodup_iff.mpr (nodup_gridThreads _ _)
    apply List.Nodup.map_on _ (hnd.filter _)
    intro t ht u hu h
    simp only [List.mem_filter, decide_eq_true_eq] at ht hu
    simp only [Function.comp] at h
    obtain ⟨h1, h2⟩ := index_inj N _ _ _ _ ht.2.2 hu.2.2 h
    exact host_grid_inj M N t u (hl.mem_iff.mp ht.1) (hl.mem_iff.mp hu.1) h1 h2
  · intro i j hi hj
    rw [mem_thread_elements]
    obtain ⟨t, ht, h1, h2⟩ := host_grid_cover M N i j hi hj
    exact ⟨t, hl.mem_iff.mpr ht, h1, h2, hi, hj⟩

/-- A list of element updates that covers every position of the output exactly once
gives every element of `C` its value, whatever the order. -/
theorem run_elements_all (u : FloatUnit) (M N K : Nat) (alpha beta : F32)
    (ps : List (Nat × Nat)) (m : Mem)
    (hin : ∀ p ∈ ps, p.1 < M ∧ p.2 < N)
    (hnd : (ps.map fun p => p.1 * N + p.2).Nodup)
    (hall : ∀ i j, i < M → j < N → (i, j) ∈ ps)
    (hA : M * K ≤ m.A.length) (hB : K * N ≤ m.B.length) (hC : M * N ≤ m.C.length)
    (hA32 : M * K ≤ 2147483648) (hB32 : K * N ≤ 2147483648) (hC32 : M * N ≤ 2147483648) :
    ∃ C' : List F32,
      run_elements u N K alpha beta ps m = Res.ok ()
        { A := m.A, B := m.B, C := C',
          log := m.log ++ ps.flatMap fun p => elem_log N K p.1 p.2 } ∧
      C'.length = m.C.length ∧
      (∀ i j, i < M → j < N →
        C'[i * N + j]? = some (elem_spec u m.A m.B m.C N K alpha beta i j)) ∧
      (∀ q, M * N ≤ q → C'[q]? = m.C[q]?) := by
  obtain ⟨C', hrun, hlen, hval, hother⟩ := run_elements_ok u N K alpha beta ps m
    (fun p hp => safe_of_fits M N K _ _ _ p hA hB hC hA32 hB32 hC32 (hin p hp).1 (hin p hp).2)
    hnd
  refine ⟨C', hrun, hlen, ?_, ?_⟩
  · intro i j hi hj
    exact hval (i, j) (hall i j hi hj)
  · intro q hq
    apply hother
    intro hmem
    rw [List.mem_map] at hmem
    obtain ⟨p, hp, rfl⟩ := hmem
    obtain ⟨h1, h2⟩ := hin p hp
    have := idx_lt _ _ _ _ h1 h2
    omega

/-- Two buffers that hold the value of every element and agree past the output are equal. -/
theorem buffers_eq (M N : Nat) (C1 C2 C0 : List F32) (f : Nat → Nat → F32)
    (h1 : ∀ i j, i < M → j < N → C1[i * N + j]? = some (f i j))
    (h1' : ∀ q, M * N ≤ q → C1[q]? = C0[q]?)
    (h2 : ∀ i j, i < M → j < N → C2[i * N + j]? = some (f i j))
    (h2' : ∀ q, M * N ≤ q → C2[q]? = C0[q]?) : C1 = C2 := by
  apply List.ext_getElem?
  intro q
  by_cases hq : q < M * N
  · obtain ⟨ha, hb, hc⟩ := index_decomp M N q hq
    have e1 := h1 _ _ ha hb
    have e2 := h2 _ _ ha hb
    rw [hc] at e1 e2
    rw [e1, e2]
  · rw [h1' q (by omega), h2' q (by omega)]

/-! ### The copies of `gemm_host` -/

theorem buf_log (m : Mem) (b : Buf) (lg : List Access) :
    ({ m with log := lg } : Mem).buf b = m.buf b := by
  cases b <;> rfl

theorem buf_setBuf (m : Mem) (b : Buf) (xs : List F32) : (m.setBuf b xs).buf b = xs := by
  cases b <;> rfl

theorem hipMemcpyHostToDevice_loop (b : Buf) :
    ∀ (n lo : Nat) (d : List F32) (m : Mem), lo + n ≤ (m.buf b).length →
      forLoop (fun i d => do
          let v ← load b (i : Int)
          pure (d ++ [v])) lo n d m
        = Res.ok (d ++ ((m.buf b).drop lo).take n)
            { m with log := m.log
                ++ (List.range' lo n).map fun i => Access.read b (i : Int) } := by
  intro n
  induction n with
  | zero => intro lo d m _; simp [forLoop_zero]
  | succ n ih =>
    intro lo d m h
    have hlo : lo < (m.buf b).length := by omega
    rw [forLoop_succ, bind_run, bind_run, load_ok b lo m hlo]
    simp only [pure_run]
    rw [ih (lo + 1) _ _ (by rw [buf_log]; omega), buf_log]
    have hd : (m.buf b).drop lo = (m.buf b).getD lo F32.zero :: (m.buf b).drop (lo + 1) := by
      rw [List.drop_eq_getElem_cons hlo]
      simp [List.getD, List.getElem?_eq_getElem hlo]
    rw [hd]
    simp [List.range'_succ, List.append_assoc, buf_log]

/-- A copy to the device of as many elements as the vector holds reads the whole vector. -/
theorem hipMemcpyHostToDevice_ok (b : Buf) (n : Nat) (m : Mem) (h : (m.buf b).length = n) :
    hipMemcpyHostToDevice b n m
      = Res.ok (m.buf b)
          { m with log := m.log ++ (List.range n).map fun i => Access.read b (i : Int) } := by
  unfold hipMemcpyHostToDevice
  rw [hipMemcpyHostToDevice_loop b n 0 [] m (by omega)]
  simp [← h, List.range_eq_range']

theorem hipMemcpyDeviceToHost_loop (b : Buf) (d : List F32) :
    ∀ (n lo : Nat) (m : Mem), lo + n ≤ (m.buf b).length →
      ∃ xs : List F32,
        forLoop (fun i (_ : Unit) => store b (i : Int) (d.getD i F32.zero)) lo n () m
          = Res.ok () { m.setBuf b xs with
              log := m.log ++ (List.range' lo n).map fun i => Access.write b (i : Int) } ∧
        xs.length = (m.buf b).length ∧
        ∀ q, xs[q]? = if lo ≤ q ∧ q < lo + n then some (d.getD q F32.zero) else (m.buf b)[q]? := by
  intro n
  induction n with
  | zero =>
    intro lo m _
    refine ⟨m.buf b, ?_, rfl, ?_⟩
    · rw [forLoop_zero, pure_run]
      cases b <;> simp [Mem.setBuf, Mem.buf]
    · intro q
      have : ¬ (lo ≤ q ∧ q < lo + 0) := by omega
      rw [if_neg this]
  | succ n ih =>
    intro lo m h
    have hlo : lo < (m.buf b).length := by omega
    rw [forLoop_succ, bind_run, store_ok b lo _ m hlo]
    simp only []
    obtain ⟨xs, hrun, hlen, hval⟩ := ih (lo + 1)
      { m.setBuf b ((m.buf b).set lo (d.getD lo F32.zero)) with
        log := m.log ++ [Access.write b (lo : Int)] }
      (by rw [buf_log, buf_setBuf, List.length_set]; omega)
    refine ⟨xs, ?_, ?_, ?_⟩
    · rw [hrun]
      cases b <;> simp [Mem.setBuf, List.range'_succ, List.append_assoc]
    · rw [hlen, buf_log, buf_setBuf, List.length_set]
    · intro q
      rw [hval q, buf_log, buf_setBuf]
      by_cases hq : q = lo
      · subst hq
        have h1 : ¬ (q + 1 ≤ q ∧ q < q + 1 + n) := by omega
        have h2 : q ≤ q ∧ q < q + (n + 1) := by omega
        rw [if_neg h1, if_pos h2]
        simp [List.getElem?_set, hlo]
      · by_cases hr : lo + 1 ≤ q ∧ q < lo + 1 + n
        · have h2 : lo ≤ q ∧ q < lo + (n + 1) := by omega
          rw [if_pos hr, if_pos h2]
        · have h2 : ¬ (lo ≤ q ∧ q < lo + (n + 1)) := by omega
          rw [if_neg hr, if_neg h2]
          simp [List.getElem?_set, Ne.symm hq]

/-- A copy back of a device buffer as long as the host vector replaces the vector. -/
theorem hipMemcpyDeviceToHost_ok (b : Buf) (d : List F32) (n : Nat) (m : Mem)
    (hd : d.length = n) (hm : (m.buf b).length = n) :
    hipMemcpyDeviceToHost b d n m
      = Res.ok () { m.setBuf b d with
          log := m.log ++ (List.range n).map fun i => Access.write b (i : Int) } := by
  unfold hipMemcpyDeviceToHost
  obtain ⟨xs, hrun, hlen, hval⟩ := hipMemcpyDeviceToHost_loop b d n 0 m (by omega)
  have hx : xs = d := by
    apply List.ext_getElem?
    intro q
    rw [hval q]
    by_cases hq : q < n
    · have : 0 ≤ q ∧ q < 0 + n := by omega
      rw [if_pos this]
      have hq' : q < d.length := by omega
      simp [List.getD, List.getElem?_eq_getElem hq']
    · have : ¬ (0 ≤ q ∧ q < 0 + n) := by omega
      rw [if_neg this, List.getElem?_eq_none (by omega), List.getElem?_eq_none (by omega)]
  rw [hrun, hx, List.range_eq_range']

/-! ### Reference and host function on buffers of matching size -/

/-- The reference runs to the end and gives every element of `C` its value. -/
theorem gemm_cpu_reference_ok (u : FloatUnit) (M N K : Nat) (alpha beta : F32) (m : Mem)
    (hA : M * K ≤ m.A.length) (hB : K * N ≤ m.B.length) (hC : M * N ≤ m.C.length)
    (hA32 : M * K ≤ 2147483648) (hB32 : K * N ≤ 2147483648) (hC32 : M * N ≤ 2147483648) :
    ∃ C' : List F32,
      gemm_cpu_reference u M N K alpha beta m = Res.ok ()
        { A := m.A, B := m.B, C := C',
          log := m.log ++ (positions M N).flatMap fun p => elem_log N K p.1 p.2 } ∧
      C'.length = m.C.length ∧
      (∀ i j, i < M → j < N →
        C'[i * N + j]? = some (elem_spec u m.A m.B m.C N K alpha beta i j)) ∧
      (∀ q, M * N ≤ q → C'[q]? = m.C[q]?) := by
  rw [gemm_cpu_reference_eq]
  apply run_elements_all u M N K alpha beta (positions M N) m
  · intro p hp
    exact (mem_positions M N p).mp hp
  · rw [positions_index]
    exact List.nodup_range _
  · intro i j hi hj
    exact (mem_positions M N (i, j)).mpr ⟨hi, hj⟩
  · exact hA
  · exact hB
  · exact hC
  · exact hA32
  · exact hB32
  · exact hC32

/-- The launch of `gemm_host` runs to the end and gives every element of the device
buffer `C` its value, in whatever order the threads run. -/
theorem launch_ok (u : FloatUnit) (schedule : List Thread → List Thread)
    (hs : ∀ l, (schedule l).Perm l) (M N K : Nat) (alpha beta : F32) (m : Mem)
    (hA : M * K ≤ m.A.length) (hB : K * N ≤ m.B.length) (hC : M * N ≤ m.C.length)
    (hA32 : M * K ≤ 2147483648) (hB32 : K * N ≤ 2147483648) (hC32 : M * N ≤ 2147483648) :
    ∃ C' : List F32,
      hipLaunchKernelGGL schedule (fun bd t => simple_gemm_kernel u bd t M N K alpha beta)
          (hostGridDim M N) hostBlockDim m
        = Res.ok ()
          { A := m.A, B := m.B, C := C',
            log := m.log ++ (thread_elements hostBlockDim M N
              (schedule (gridThreads (hostGridDim M N) hostBlockDim))).flatMap
                fun p => elem_log N K p.1 p.2 } ∧
      C'.length = m.C.length ∧
      (∀ i j, i < M → j < N →
        C'[i * N + j]? = some (elem_spec u m.A m.B m.C N K alpha beta i j)) ∧
      (∀ q, M * N ≤ q → C'[q]? = m.C[q]?) := by
  unfold hipLaunchKernelGGL
  rw [runThreads_eq]
  obtain ⟨h1, h2, h3⟩ := schedule_elements M N _ (hs (gridThreads (hostGridDim M N) hostBlockDim))
  exact run_elements_all u M N K alpha beta _ m h1 h2 h3 hA hB hC hA32 hB32 hC32

/-- The host function on buffers of matching size: the three copies, the launch and the
copy back run to the end; `C` gets every element's value and `A`, `B` stay as they are. -/
theorem gemm_host_ok (u : FloatUnit) (schedule : List Thread → List Thread)
    (hs : ∀ l, (schedule l).Perm l) (M N K : Nat) (alpha beta : F32) (host : Mem)
    (hA : host.A.length = M * K) (hB : host.B.length = K * N) (hC : host.C.length = M * N)
    (hA32 : M * K ≤ INT_MAX) (hB32 : K * N ≤ INT_MAX) (hC32 : M * N ≤ INT_MAX) :
    ∃ (C' : List F32) (hlog dlog : List Access),
      gemm_host u schedule M N K alpha beta host
        = HostRes.ok { A := host.A, B := host.B, C := C', log := hlog }
            { A := host.A, B := host.B, C := C', log := dlog } ∧
      C'.length = M * N ∧
      (∀ i j, i < M → j < N →
        C'[i * N + j]? = some (elem_spec u host.A host.B host.C N K alpha beta i j)) := by
  have hA' : M * K ≤ 2147483648 := by unfold INT_MAX at hA32; omega
  have hB' : K * N ≤ 2147483648 := by unfold INT_MAX at hB32; omega
  have hC' : M * N ≤ 2147483648 := by unfold INT_MAX at hC32; omega
  obtain ⟨C', hrun, hlen, hval, _⟩ := launch_ok u schedule hs M N K alpha beta
    { A := host.A, B := host.B, C := host.C, log := [] }
    (by simp [hA]) (by simp [hB]) (by simp [hC]) hA' hB' hC'
  have c1 := hipMemcpyHostToDevice_ok Buf.A (M * K) host hA
  have c2 := hipMemcpyHostToDevice_ok Buf.B (K * N)
    { host with log := host.log
        ++ (List.range (M * K)).map fun i => Access.read Buf.A (i : Int) } hB
  have c3 := hipMemcpyHostToDevice_ok Buf.C (M * N)
    { host with log := host.log
        ++ ((List.range (M * K)).map fun i => Access.read Buf.A (i : Int))
        ++ (List.range (K * N)).map fun i => Access.read Buf.B (i : Int) } hC
  have c4 := hipMemcpyDeviceToHost_ok Buf.C C' (M * N)
    { host with log := host.log
        ++ ((List.range (M * K)).map fun i => Access.read Buf.A (i : Int))
        ++ ((List.range (K * N)).map fun i => Access.read Buf.B (i : Int))
        ++ (List.range (M * N)).map fun i => Access.read Buf.C (i : Int) }
    (by rw [hlen]; exact hC) hC
  refine ⟨C',
    host.log ++ ((List.range (M * K)).map fun i => Access.read Buf.A (i : Int))
      ++ ((List.range (K * N)).map fun i => Access.read Buf.B (i : Int))
      ++ ((List.range (M * N)).map fun i => Access.read Buf.C (i : Int))
      ++ (List.range (M * N)).map fun i => Access.write Buf.C (i : Int),
    [] ++ (thread_elements hostBlockDim M N
      (schedule (gridThreads (hostGridDim M N) hostBlockDim))).flatMap
        fun p => elem_log N K p.1 p.2,
    ?_, by rw [hlen]; exact hC, hval⟩
  unfold gemm_host
  simp only [floatCount_eq _ _ hA32, floatCount_eq _ _ hB32, floatCount_eq _ _ hC32,
    bind_run, c1, c2, c3, pure_run, Mem.buf]
  have hrun' := hrun
  simp only [hostGridDim, hostBlockDim] at hrun'
  rw [hrun']
  simp only []
  simp only [Mem.buf] at c4
  rw [c4]
  simp only [Mem.setBuf, hostGridDim, hostBlockDim]

/-! ### The comparison -/

theorem verify_loop_pass (G C : List F32) (t : F32) :
    ∀ (n i : Nat),
      (∀ q, i ≤ q → q < i + n →
        ∃ g c, G[q]? = some g ∧ C[q]? = some c ∧ F32.gt (F32.abs (F32.sub g c)) t = false) →
      verify_loop G C t i n = Verdict.pass := by
  intro n
  induction n with
  | zero => intro i _; rfl
  | succ n ih =>
    intro i h
    obtain ⟨g, c, hg, hc, hgt⟩ := h i (Nat.le_refl _) (by omega)
    unfold verify_loop
    rw [hg, hc]
    simp only [hgt, Bool.false_eq_true, if_false]
    exact ih (i + 1) (fun q h1 h2 => h q (by omega) (by omega))

theorem verify_loop_mismatch (G C : List F32) (t : F32) (q : Nat) (g c : F32)
    (hg : G[q]? = some g) (hc : C[q]? = some c)
    (hgt : F32.gt (F32.abs (F32.sub g c)) t = true) :
    ∀ (n i : Nat), i ≤ q → q < i + n →
      (∀ r, i ≤ r → r < q →
        ∃ g' c', G[r]? = some g' ∧ C[r]? = some c' ∧
          F32.gt (F32.abs (F32.sub g' c')) t = false) →
      verify_loop G C t i n = Verdict.mismatch q g c (F32.abs (F32.sub g c)) := by
  intro n
  induction n with
  | zero => intro i h1 h2 _; omega
  | succ n ih =>
    intro i h1 h2 h
    unfold verify_loop
    by_cases hq : i = q
    · subst hq
      rw [hg, hc]
      simp only [hgt, if_true]
    · obtain ⟨g', c', hg', hc', hgt'⟩ := h i (Nat.le_refl _) (by omega)
      rw [hg', hc']
      simp only [hgt', Bool.false_eq_true, if_false]
      exact ih (i + 1) (by omega) (by omega) (fun r h3 h4 => h r (by omega) h4)

theorem verify_loop_not_oob (G C : List F32) (t : F32) :
    ∀ (n i : Nat), i + n ≤ G.length → i + n ≤ C.length →
      ∀ k, verify_loop G C t i n ≠ Verdict.oob k := by
  intro n
  induction n with
  | zero => intro i _ _ k h; cases h
  | succ n ih =>
    intro i h1 h2 k
    unfold verify_loop
    rw [List.getElem?_eq_getElem (by omega : i < G.length),
      List.getElem?_eq_getElem (by omega : i < C.length)]
    simp only []
    split
    · intro h; cases h
    · exact ih (i + 1) (by omega) (by omega) k


/-! ### The statements of `main` -/

theorem main_gemm_cpu_reference_ok (u : FloatUnit) (M N K : Nat) (alpha beta : F32)
    (h : Harness) (hc : h.crashed = false)
    (hA : h.A.length = M * K) (hB : h.B.length = K * N) (hC : h.C_cpu.length = M * N)
    (hA32 : M * K ≤ INT_MAX) (hB32 : K * N ≤ INT_MAX) (hC32 : M * N ≤ INT_MAX) :
    (gemm_cpu_reference u M N K alpha beta
        { A := h.A, B := h.B, C := h.C_cpu, log := [] }).isOk = true ∧
    main_gemm_cpu_reference u M N K alpha beta h
      = { h with
          C_cpu := (gemm_cpu_reference u M N K alpha beta
            { A := h.A, B := h.B, C := h.C_cpu, log := [] }).mem.C,
          calls := h.calls ++ [Call.gemm_cpu_reference] } ∧
    (gemm_cpu_reference u M N K alpha beta
        { A := h.A, B := h.B, C := h.C_cpu, log := [] }).mem.C.length = M * N := by
  unfold INT_MAX at hA32 hB32 hC32
  obtain ⟨C', hrun, hlen, _, _⟩ := gemm_cpu_reference_ok u M N K alpha beta
    { A := h.A, B := h.B, C := h.C_cpu, log := [] }
    (by simp [hA]) (by simp [hB]) (by simp [hC]) (by omega) (by omega) (by omega)
  refine ⟨by rw [hrun]; rfl, ?_, by rw [hrun]; simpa [Res.mem, hC] using hlen⟩
  unfold main_gemm_cpu_reference
  rw [hc, hrun]
  simp [Res.mem]

theorem main_gemm_host_ok (u : FloatUnit) (schedule : List Thread → List Thread)
    (hs : ∀ l, (schedule l).Perm l) (M N K : Nat) (alpha beta : F32) (h : Harness)
    (hc : h.crashed = false)
    (hA : h.A.length = M * K) (hB : h.B.length = K * N) (hC : h.C_gpu.length = M * N)
    (hA32 : M * K ≤ INT_MAX) (hB32 : K * N ≤ INT_MAX) (hC32 : M * N ≤ INT_MAX) :
    (gemm_host u schedule M N K alpha beta
        { A := h.A, B := h.B, C := h.C_gpu, log := [] }).isOk = true ∧
    main_gemm_host u schedule M N K alpha beta h
      = { h with
          C_gpu := (gemm_host u schedule M N K alpha beta
            { A := h.A, B := h.B, C := h.C_gpu, log := [] }).hostMem.C,
          calls := h.calls ++ [Call.gemm_host] } ∧
    (gemm_host u schedule M N K alpha beta
        { A := h.A, B := h.B, C := h.C_gpu, log := [] }).hostMem.C.length = M * N := by
  obtain ⟨C', hlog, dlog, hrun, hlen, _⟩ := gemm_host_ok u schedule hs M N K alpha beta
    { A := h.A, B := h.B, C := h.C_gpu, log := [] } hA hB hC hA32 hB32 hC32
  refine ⟨by rw [hrun]; rfl, ?_, by rw [hrun]; exact hlen⟩
  unfold main_gemm_host
  rw [hc, hrun]
  simp [HostRes.hostMem]

theorem main_verify_results_ok (h : Harness) (hc : h.crashed = false)
    (hlen : h.C_gpu.length = h.C_cpu.length) :
    main_verify_results h
      = { h with calls := h.calls ++ [Call.verify_results],
                 verdict := some (verify_results h.C_gpu h.C_cpu F32.tol_default) } ∧
    ∀ i, verify_results h.C_gpu h.C_cpu F32.tol_default ≠ Verdict.oob i := by
  have hno := verify_loop_not_oob h.C_gpu h.C_cpu F32.tol_default h.C_gpu.length 0
    (by omega) (by omega)
  refine ⟨?_, hno⟩
  unfold main_verify_results
  rw [hc]
  simp only [Bool.false_eq_true, if_false]
  cases hv : verify_results h.C_gpu h.C_cpu F32.tol_default with
  | pass => rfl
  | mismatch i g c d => rfl
  | oob i => exact absurd hv (hno i)

/-- The body of `main` without a device, for any dimensions and scalars. -/
theorem main_body_cpu (host : FloatUnit) (M N K : Nat) (alpha beta : F32)
    (draw : Nat → F32)
    (hA32 : M * K ≤ INT_MAX) (hB32 : K * N ≤ INT_MAX) (hC32 : M * N ≤ INT_MAX) :
    main_gemm_cpu_reference host M N K alpha beta (main_init draw M N K)
      = { A := (main_init draw M N K).A
          B := (main_init draw M N K).B
          C_gpu := (main_init draw M N K).C_gpu
          C_cpu := (gemm_cpu_reference host M N K alpha beta
            { A := (main_init draw M N K).A, B := (main_init draw M N K).B,
              C := (main_init draw M N K).C_cpu, log := [] }).mem.C
          calls := [Call.init, Call.gemm_cpu_reference]
          verdict := none
          crashed := false } ∧
    (gemm_cpu_reference host M N K alpha beta
        { A := (main_init draw M N K).A, B := (main_init draw M N K).B,
          C := (main_init draw M N K).C_cpu, log := [] }).isOk = true := by
  obtain ⟨hok, hrun, _⟩ := main_gemm_cpu_reference_ok host M N K alpha beta
    (main_init draw M N K) rfl (by simp [main_init]) (by simp [main_init])
    (by simp [main_init]) hA32 hB32 hC32
  refine ⟨?_, hok⟩
  rw [hrun]
  rfl

/-- The body of `main` with a device, for any dimensions and scalars. -/
theorem main_body_device (host dev : FloatUnit) (M N K : Nat) (alpha beta : F32)
    (draw : Nat → F32) (schedule : List Thread → List Thread)
    (hs : ∀ l, (schedule l).Perm l)
    (hA32 : M * K ≤ INT_MAX) (hB32 : K * N ≤ INT_MAX) (hC32 : M * N ≤ INT_MAX) :
    main_verify_results
        (main_gemm_cpu_reference host M N K alpha beta
          (main_gemm_host dev schedule M N K alpha beta (main_init draw M N K)))
      = { A := (main_init draw M N K).A
          B := (main_init draw M N K).B
          C_gpu := (gemm_host dev schedule M N K alpha beta
            { A := (main_init draw M N K).A, B := (main_init draw M N K).B,
              C := (main_init draw M N K).C_gpu, log := [] }).hostMem.C
          C_cpu := (gemm_cpu_reference host M N K alpha beta
            { A := (main_init draw M N K).A, B := (main_init draw M N K).B,
              C := (main_init draw M N K).C_cpu, log := [] }).mem.C
          calls := [Call.init, Call.gemm_host, Call.gemm_cpu_reference, Call.verify_results]
          verdict := some (verify_results
            (gemm_host dev schedule M N K alpha beta
              { A := (main_init draw M N K).A, B := (main_init draw M N K).B,
                C := (main_init draw M N K).C_gpu, log := [] }).hostMem.C
            (gemm_cpu_reference host M N K alpha beta
              { A := (main_init draw M N K).A, B := (main_init draw M N K).B,
                C := (main_init draw M N K).C_cpu, log := [] }).mem.C
            F32.tol_default)
          crashed := false } ∧
    (gemm_host dev schedule M N K alpha beta
        { A := (main_init draw M N K).A, B := (main_init draw M N K).B,
          C := (main_init draw M N K).C_gpu, log := [] }).isOk = true ∧
    (gemm_cpu_reference host M N K alpha beta
        { A := (main_init draw M N K).A, B := (main_init draw M N K).B,
          C := (main_init draw M N K).C_cpu, log := [] }).isOk = true ∧
    ∀ i, verify_results
        (gemm_host dev schedule M N K alpha beta
          { A := (main_init draw M N K).A, B := (main_init draw M N K).B,
            C := (main_init draw M N K).C_gpu, log := [] }).hostMem.C
        (gemm_cpu_reference host M N K alpha beta
          { A := (main_init draw M N K).A, B := (main_init draw M N K).B,
            C := (main_init draw M N K).C_cpu, log := [] }).mem.C
        F32.tol_default ≠ Verdict.oob i := by
  obtain ⟨hok1, hrun1, hlen1⟩ := main_gemm_host_ok dev schedule hs M N K alpha beta
    (main_init draw M N K) rfl (by simp [main_init]) (by simp [main_init])
    (by simp [main_init]) hA32 hB32 hC32
  obtain ⟨hok2, hrun2, hlen2⟩ := main_gemm_cpu_reference_ok host M N K alpha beta
    { main_init draw M N K with
      C_gpu := (gemm_host dev schedule M N K alpha beta
        { A := (main_init draw M N K).A, B := (main_init draw M N K).B,
          C := (main_init draw M N K).C_gpu, log := [] }).hostMem.C,
      calls := (main_init draw M N K).calls ++ [Call.gemm_host] }
    rfl (by simp [main_init]) (by simp [main_init]) (by simp [main_init]) hA32 hB32 hC32
  obtain ⟨hrun3, hno⟩ := main_verify_results_ok
    { main_init draw M N K with
      C_gpu := (gemm_host dev schedule M N K alpha beta
        { A := (main_init draw M N K).A, B := (main_init draw M N K).B,
          C := (main_init draw M N K).C_gpu, log := [] }).hostMem.C,
      C_cpu := (gemm_cpu_reference host M N K alpha beta
        { A := (main_init draw M N K).A, B := (main_init draw M N K).B,
          C := (main_init draw M N K).C_cpu, log := [] }).mem.C,
      calls := (main_init draw M N K).calls ++ [Call.gemm_host]
        ++ [Call.gemm_cpu_reference] }
    rfl (by simp only [hlen1]; exact hlen2.symm)
  refine ⟨?_, hok1, hok2, hno⟩
  rw [hrun1, hrun2, hrun3]
  rfl

/-! ### The sum against a column of the identity matrix -/

theorem dot_identity_upto (u : FloatUnit) (hu : u.conforming) (A B : List F32)
    (N K i j : Nat)
    (hfin : ∀ k, k < K → (A.getD (i * K + k) F32.zero).isFinite = true)
    (hI : ∀ k, k < K → B.getD (k * N + j) F32.zero = if k = j then F32.one else F32.zero) :
    ∀ n, n ≤ K →
      (List.range n).foldl
        (fun s k => u.mac s (A.getD (i * K + k) F32.zero) (B.getD (k * N + j) F32.zero))
        F32.zero
        = if j < n then F32.plusZero (A.getD (i * K + j) F32.zero) else F32.zero := by
  intro n
  induction n with
  | zero => intro _; simp
  | succ n ih =>
    intro hn
    rw [List.range_succ, List.foldl_append, ih (by omega)]
    simp only [List.foldl_cons, List.foldl_nil]
    rw [hI n (by omega)]
    have hmz : ∀ s, u.mac s (A.getD (i * K + n) F32.zero) F32.zero
        = F32.add s (F32.mul (A.getD (i * K + n) F32.zero) F32.zero) :=
      fun s => FloatUnit.mac_zero u hu s _ false (hfin n (by omega))
    have hmo : u.mac F32.zero (A.getD (i * K + n) F32.zero) F32.one
        = F32.add F32.zero (F32.mul (A.getD (i * K + n) F32.zero) F32.one) :=
      FloatUnit.mac_one u hu _ false (hfin n (by omega))
    by_cases hjn : j < n
    · have hne : ¬ n = j := by omega
      rw [if_pos hjn, if_neg hne, if_pos (by omega : j < n + 1), hmz]
      obtain ⟨v, hv⟩ := F32.finite_mul_zero false _ (hfin n (by omega))
      have hv' : F32.mul (A.getD (i * K + n) F32.zero) F32.zero = F32.fin v 0 0 := hv
      rw [hv']
      exact F32.plusZero_add_zero _ v (hfin j (by omega))
    · rw [if_neg hjn]
      by_cases hnj : n = j
      · subst hnj
        rw [if_pos rfl, if_pos (by omega : n < n + 1), hmo,
          F32.mul_one_finite _ (hfin n (by omega))]
        exact F32.zero_add_finite _ (hfin n (by omega))
      · rw [if_neg hnj, if_neg (by omega : ¬ j < n + 1), hmz]
        obtain ⟨v, hv⟩ := F32.finite_mul_zero false _ (hfin n (by omega))
        have hv' : F32.mul (A.getD (i * K + n) F32.zero) F32.zero = F32.fin v 0 0 := hv
        rw [hv']
        show F32.add (F32.fin false 0 0) (F32.fin v 0 0) = F32.fin false 0 0
        rw [F32.add_zero_right]
        simp [F32.sig]

/-- Against column `j` of the identity matrix, the sum over a finite row of `A` is the
element `A[i * K + j]`, a minus zero becoming `+0.0f`, fused or not. -/
theorem dot_identity (u : FloatUnit) (hu : u.conforming) (A B : List F32) (N K i j : Nat)
    (hj : j < K)
    (hfin : ∀ k, k < K → (A.getD (i * K + k) F32.zero).isFinite = true)
    (hI : ∀ k, k < K → B.getD (k * N + j) F32.zero = if k = j then F32.one else F32.zero) :
    dot_spec u A B N K i j = F32.plusZero (A.getD (i * K + j) F32.zero) := by
  unfold dot_spec
  rw [dot_identity_upto u hu A B N K i j hfin hI K (Nat.le_refl K), if_pos hj]

/-! ### Runs that end in an out-of-bounds access -/

theorem hipMemcpyHostToDevice_loop_oob (b : Buf) :
    ∀ (n lo : Nat) (d : List F32) (m : Mem),
      lo ≤ (m.buf b).length → (m.buf b).length < lo + n →
      forLoop (fun i d => do
          let v ← load b (i : Int)
          pure (d ++ [v])) lo n d m
        = Res.oob (Access.read b ((m.buf b).length : Int))
            { m with log := m.log ++
                (List.range' lo ((m.buf b).length - lo)).map fun i => Access.read b (i : Int) } := by
  intro n
  induction n with
  | zero => intro lo d m h1 h2; omega
  | succ n ih =>
    intro lo d m h1 h2
    rw [forLoop_succ, bind_run, bind_run]
    by_cases hlo : lo = (m.buf b).length
    · rw [load_oob b lo m (by omega)]
      simp [hlo]
    · have hlt : lo < (m.buf b).length := by omega
      rw [load_ok b lo m hlt]
      simp only [pure_run]
      rw [ih (lo + 1) _ _ (by rw [buf_log]; omega) (by rw [buf_log]; omega), buf_log]
      have hsub : (m.buf b).length - lo = ((m.buf b).length - (lo + 1)) + 1 := by omega
      rw [hsub, List.range'_succ]
      simp [List.append_assoc]

/-- A copy to the device of more elements than the vector holds reads the vector to its
end and then past it. -/
theorem hipMemcpyHostToDevice_oob (b : Buf) (n : Nat) (m : Mem) (h : (m.buf b).length < n) :
    hipMemcpyHostToDevice b n m
      = Res.oob (Access.read b ((m.buf b).length : Int))
          { m with log := m.log
              ++ (List.range (m.buf b).length).map fun i => Access.read b (i : Int) } := by
  unfold hipMemcpyHostToDevice
  rw [hipMemcpyHostToDevice_loop_oob b n 0 [] m (Nat.zero_le _) (by omega)]
  simp [List.range_eq_range']

/-- The sum loop of an element whose iteration `k0` makes the first access outside a
buffer, of `A` or, with `A[row * K + k0]` inside, of `B`: the run ends there, with the
buffers as they were. -/
theorem dot_loop_fault (u : FloatUnit) (N K row col : Nat) (A B C : List F32) (k0 : Nat)
    (acc : Access)
    (hpre : ∀ k, k < k0 →
      InRange32 (row * K + k) A.length ∧ InRange32 (k * N + col) B.length)
    (hbad :
      ((idx32 row K k0 < 0 ∨ (A.length : Int) ≤ idx32 row K k0) ∧
        acc = Access.read Buf.A (idx32 row K k0)) ∨
      (InRange32 (row * K + k0) A.length ∧
        (idx32 k0 N col < 0 ∨ (B.length : Int) ≤ idx32 k0 N col) ∧
        acc = Access.read Buf.B (idx32 k0 N col))) :
    ∀ (n lo : Nat) (s : F32) (lg : List Access), lo ≤ k0 → k0 < lo + n →
      ∃ lg' : List Access,
        forLoop (fun k sum => do
            let a ← load Buf.A (idx32 row K k)
            let b ← load Buf.B (idx32 k N col)
            pure (u.mac sum a b)) lo n s { A := A, B := B, C := C, log := lg }
          = Res.oob acc { A := A, B := B, C := C, log := lg' } := by
  intro n
  induction n with
  | zero => intro lo s lg h1 h2; omega
  | succ n ih =>
    intro lo s lg h1 h2
    rw [forLoop_succ, bind_run, bind_run]
    by_cases hlo : lo = k0
    · subst hlo
      rcases hbad with ⟨hb, hacc⟩ | ⟨⟨hA, hA32⟩, hb, hacc⟩
      · rw [load_fault Buf.A _ { A := A, B := B, C := C, log := lg } hb, hacc]
        exact ⟨lg, rfl⟩
      · have h1' : load Buf.A (idx32 row K lo) { A := A, B := B, C := C, log := lg }
            = Res.ok (A.getD (row * K + lo) F32.zero)
                { A := A, B := B, C := C,
                  log := lg ++ [Access.read Buf.A ((row * K + lo : Nat) : Int)] } := by
          rw [idx32_eq _ _ _ hA32]
          exact load_ok Buf.A _ _ hA
        rw [h1']
        simp only []
        rw [bind_run, load_fault Buf.B _
          { A := A, B := B, C := C,
            log := lg ++ [Access.read Buf.A ((row * K + lo : Nat) : Int)] } hb, hacc]
        exact ⟨_, rfl⟩
    · have hlt : lo < k0 := by omega
      obtain ⟨⟨hA, hA32⟩, ⟨hB, hB32⟩⟩ := hpre lo hlt
      have h1' : load Buf.A (idx32 row K lo) { A := A, B := B, C := C, log := lg }
          = Res.ok (A.getD (row * K + lo) F32.zero)
              { A := A, B := B, C := C,
                log := lg ++ [Access.read Buf.A ((row * K + lo : Nat) : Int)] } := by
        rw [idx32_eq _ _ _ hA32]
        exact load_ok Buf.A _ _ hA
      have h2' : load Buf.B (idx32 lo N col)
            { A := A, B := B, C := C,
              log := lg ++ [Access.read Buf.A ((row * K + lo : Nat) : Int)] }
          = Res.ok (B.getD (lo * N + col) F32.zero)
              { A := A, B := B, C := C,
                log := lg ++ [Access.read Buf.A ((row * K + lo : Nat) : Int)]
                  ++ [Access.read Buf.B ((lo * N + col : Nat) : Int)] } := by
        rw [idx32_eq _ _ _ hB32]
        exact load_ok Buf.B _ _ hB
      rw [h1']
      simp only []
      rw [bind_run, h2']
      simp only [pure_run]
      exact ih (lo + 1) _ _ (by omega) (by omega)

theorem update_element_fault (u : FloatUnit) (N K : Nat) (alpha beta : F32)
    (row col : Nat) (m : Mem) (k0 : Nat) (acc : Access) (hk : k0 < K)
    (hpre : ∀ k, k < k0 →
      InRange32 (row * K + k) m.A.length ∧ InRange32 (k * N + col) m.B.length)
    (hbad :
      ((idx32 row K k0 < 0 ∨ (m.A.length : Int) ≤ idx32 row K k0) ∧
        acc = Access.read Buf.A (idx32 row K k0)) ∨
      (InRange32 (row * K + k0) m.A.length ∧
        (idx32 k0 N col < 0 ∨ (m.B.length : Int) ≤ idx32 k0 N col) ∧
        acc = Access.read Buf.B (idx32 k0 N col))) :
    ∃ lg' : List Access,
      update_element u N K alpha beta row col m
        = Res.oob acc { A := m.A, B := m.B, C := m.C, log := lg' } := by
  obtain ⟨lg', hd⟩ := dot_loop_fault u N K row col m.A m.B m.C k0 acc hpre hbad K 0
    F32.zero m.log (Nat.zero_le _) (by omega)
  refine ⟨lg', ?_⟩
  unfold update_element
  rw [bind_run]
  have hm : m = { A := m.A, B := m.B, C := m.C, log := m.log } := rfl
  rw [hm, hd]

/-- Safe updates followed by an update that faults: the safe ones are done, the run ends
at the fault. -/
theorem run_elements_fault (u : FloatUnit) (N K : Nat) (alpha beta : F32)
    (pre rest : List (Nat × Nat)) (r c k0 : Nat) (acc : Access) (m : Mem)
    (hsafe : ∀ p ∈ pre, Safe N K m.A.length m.B.length m.C.length p)
    (hnd : (pre.map fun p => p.1 * N + p.2).Nodup)
    (hk : k0 < K)
    (hpre : ∀ k, k < k0 →
      InRange32 (r * K + k) m.A.length ∧ InRange32 (k * N + c) m.B.length)
    (hbad :
      ((idx32 r K k0 < 0 ∨ (m.A.length : Int) ≤ idx32 r K k0) ∧
        acc = Access.read Buf.A (idx32 r K k0)) ∨
      (InRange32 (r * K + k0) m.A.length ∧
        (idx32 k0 N c < 0 ∨ (m.B.length : Int) ≤ idx32 k0 N c) ∧
        acc = Access.read Buf.B (idx32 k0 N c))) :
    ∃ (C' : List F32) (lg' : List Access),
      run_elements u N K alpha beta (pre ++ (r, c) :: rest) m
        = Res.oob acc { A := m.A, B := m.B, C := C', log := lg' } ∧
      C'.length = m.C.length ∧
      (∀ p ∈ pre,
        C'[p.1 * N + p.2]? = some (elem_spec u m.A m.B m.C N K alpha beta p.1 p.2)) ∧
      (∀ q, q ∉ (pre.map fun p => p.1 * N + p.2) → C'[q]? = m.C[q]?) := by
  obtain ⟨C', hrun, hlen, hval, hother⟩ := run_elements_ok u N K alpha beta pre m hsafe hnd
  obtain ⟨lg', hu⟩ := update_element_fault u N K alpha beta r c
    { A := m.A, B := m.B, C := C',
      log := m.log ++ pre.flatMap fun p => elem_log N K p.1 p.2 }
    k0 acc hk hpre hbad
  refine ⟨C', lg', ?_, hlen, hval, hother⟩
  rw [run_elements_append, bind_run, hrun]
  simp only [run_elements]
  rw [bind_run, hu]

theorem range_split (N c : Nat) (hc : c < N) :
    ∃ tail : List Nat, List.range N = List.range c ++ c :: tail := by
  obtain ⟨d, rfl⟩ : ∃ d, N = c + (d + 1) := ⟨N - c - 1, by omega⟩
  refine ⟨(List.range d).map fun j => c + (j + 1), ?_⟩
  rw [List.range_add, List.range_succ_eq_map]
  simp [List.map_map, Function.comp]

theorem positions_row (M N r : Nat) (hr : r < M) :
    ∃ rest, positions M N
      = positions r N ++ ((List.range N).map fun j => (r, j)) ++ rest := by
  induction M with
  | zero => omega
  | succ M ih =>
    rw [positions_succ]
    by_cases h : r = M
    · subst h
      exact ⟨[], by simp⟩
    · obtain ⟨rest, hrest⟩ := ih (by omega)
      refine ⟨rest ++ (List.range N).map fun j => (M, j), ?_⟩
      rw [hrest]
      simp

/-- The positions before `(r, c)` in row-major order, then `(r, c)`, then the rest. -/
theorem positions_split (M N r c : Nat) (hr : r < M) (hc : c < N) :
    ∃ pre rest : List (Nat × Nat),
      positions M N = pre ++ (r, c) :: rest ∧
      (pre.map fun p => p.1 * N + p.2) = List.range (r * N + c) ∧
      (∀ p, p ∈ pre ↔ (p.1 < r ∧ p.2 < N) ∨ (p.1 = r ∧ p.2 < c)) := by
  obtain ⟨rest, hrest⟩ := positions_row M N r hr
  obtain ⟨tail, htail⟩ := range_split N c hc
  refine ⟨positions r N ++ (List.range c).map fun j => (r, j),
    tail.map (fun j => (r, j)) ++ rest, ?_, ?_, ?_⟩
  · rw [hrest, htail]
    simp
  · rw [List.map_append, positions_index, List.map_map, List.range_add]
    rfl
  · intro p
    rw [List.mem_append, mem_positions]
    simp only [List.mem_map, List.mem_range]
    constructor
    · rintro (h | ⟨j, hj, rfl⟩)
      · exact Or.inl h
      · exact Or.inr ⟨rfl, hj⟩
    · rintro (h | ⟨h1, h2⟩)
      · exact Or.inl h
      · exact Or.inr ⟨p.2, h2, by rw [← h1]⟩

/-- The reference when the update of element `(r, c)` faults at iteration `k0` and every
update before it is safe: the elements before `(r, c)` have their values, the others
are as they were, and the run ends at the fault. -/
theorem gemm_cpu_reference_fault (u : FloatUnit) (M N K : Nat) (alpha beta : F32)
    (m : Mem) (r c k0 : Nat) (acc : Access)
    (hr : r < M) (hc : c < N) (hk : k0 < K)
    (hsafe : ∀ i j, (i < r ∧ j < N) ∨ (i = r ∧ j < c) →
      Safe N K m.A.length m.B.length m.C.length (i, j))
    (hpre : ∀ k, k < k0 →
      InRange32 (r * K + k) m.A.length ∧ InRange32 (k * N + c) m.B.length)
    (hbad :
      ((idx32 r K k0 < 0 ∨ (m.A.length : Int) ≤ idx32 r K k0) ∧
        acc = Access.read Buf.A (idx32 r K k0)) ∨
      (InRange32 (r * K + k0) m.A.length ∧
        (idx32 k0 N c < 0 ∨ (m.B.length : Int) ≤ idx32 k0 N c) ∧
        acc = Access.read Buf.B (idx32 k0 N c))) :
    ∃ (C' : List F32) (lg' : List Access),
      gemm_cpu_reference u M N K alpha beta m
        = Res.oob acc { A := m.A, B := m.B, C := C', log := lg' } ∧
      C'.length = m.C.length ∧
      (∀ i j, (i < r ∧ j < N) ∨ (i = r ∧ j < c) →
        C'[i * N + j]? = some (elem_spec u m.A m.B m.C N K alpha beta i j)) ∧
      (∀ q, r * N + c ≤ q → C'[q]? = m.C[q]?) := by
  obtain ⟨pre, rest, hsplit, hidx, hmem⟩ := positions_split M N r c hr hc
  obtain ⟨C', lg', hrun, hlen, hval, hother⟩ := run_elements_fault u N K alpha beta
    pre rest r c k0 acc m
    (fun p hp => hsafe p.1 p.2 ((hmem p).mp hp))
    (by rw [hidx]; exact List.nodup_range _) hk hpre hbad
  refine ⟨C', lg', ?_, hlen, ?_, ?_⟩
  · rw [gemm_cpu_reference_eq, hsplit]
    exact hrun
  · intro i j hij
    exact hval (i, j) ((hmem (i, j)).mpr hij)
  · intro q hq
    apply hother
    rw [hidx, List.mem_range]
    omega

/-- With `A` shorter than `M * K`, the reference computes the rows of `C` that the
elements of `A` suffice for and then reads `A` past its end. -/
theorem gemm_cpu_reference_short_A (u : FloatUnit) (M N K : Nat) (alpha beta : F32)
    (m : Mem)
    (hA : m.A.length < M * K) (hB : K * N ≤ m.B.length) (hC : M * N ≤ m.C.length)
    (hN : 0 < N)
    (hA32 : M * K ≤ 2147483648) (hB32 : K * N ≤ 2147483648) (hC32 : M * N ≤ 2147483648) :
    ∃ (C' : List F32) (lg' : List Access),
      gemm_cpu_reference u M N K alpha beta m
        = Res.oob (Access.read Buf.A (m.A.length : Int))
            { A := m.A, B := m.B, C := C', log := lg' } ∧
      C'.length = m.C.length ∧
      (∀ i j, i < m.A.length / K → j < N →
        C'[i * N + j]? = some (elem_spec u m.A m.B m.C N K alpha beta i j)) ∧
      (∀ q, m.A.length / K * N ≤ q → C'[q]? = m.C[q]?) := by
  have hK : 0 < K := by
    rcases Nat.eq_zero_or_pos K with h0 | h0
    · subst h0; simp at hA
    · exact h0
  have hrM : m.A.length / K < M := (Nat.div_lt_iff_lt_mul hK).mpr hA
  have hrK : m.A.length / K * K ≤ m.A.length := Nat.div_mul_le_self _ _
  have hmod : m.A.length / K * K + m.A.length % K = m.A.length := Nat.div_add_mod' _ _
  have hk0 : m.A.length % K < K := Nat.mod_lt _ hK
  have hrN : m.A.length / K * N ≤ M * N := Nat.mul_le_mul_right N (Nat.le_of_lt hrM)
  have hidx : idx32 (m.A.length / K) K (m.A.length % K) = (m.A.length : Int) := by
    rw [idx32_eq _ _ _ (by omega), hmod]
  obtain ⟨C', lg', hrun, hlen, hval, hother⟩ := gemm_cpu_reference_fault u M N K alpha beta
    m (m.A.length / K) 0 (m.A.length % K) (Access.read Buf.A (m.A.length : Int))
    hrM hN hk0
    (fun i j hij => by
      have hi : i < m.A.length / K ∧ j < N := by
        rcases hij with h | ⟨_, h⟩
        · exact h
        · omega
      exact safe_of_fits (m.A.length / K) N K _ _ _ (i, j) hrK hB (by omega)
        (by omega) hB32 (by omega) hi.1 hi.2)
    (fun k hk => by
      refine ⟨⟨by omega, by omega⟩, ?_⟩
      have := idx_lt' k K 0 N (by omega) hN
      exact ⟨by omega, by omega⟩)
    (Or.inl ⟨Or.inr (by rw [hidx]), by rw [hidx]⟩)
  refine ⟨C', lg', hrun, hlen, ?_, ?_⟩
  · intro i j hi hj
    exact hval i j (Or.inl ⟨hi, hj⟩)
  · intro q hq
    exact hother q (by omega)

/-! ### Index expressions that overflow `int`

With `M = K = 46341` and `N = 1`, the element count `M * K = 2147488281` exceeds
`INT_MAX`, and `46340 * 46341 + 41708 = 2147483648` is the first index that does. -/

theorem replicate_getElem? (n i : Nat) (x : F32) (h : i < n) :
    (List.replicate n x)[i]? = some x := by
  rw [List.getElem?_replicate, if_pos h]

theorem replicate_getD (n i : Nat) (x : F32) : (List.replicate n x).getD i x = x := by
  rw [List.getD_eq_getElem?_getD, List.getElem?_replicate]
  split <;> rfl

theorem replicate_getD_lt (n i : Nat) (x d : F32) (h : i < n) :
    (List.replicate n x).getD i d = x := by
  rw [List.getD_eq_getElem?_getD, replicate_getElem? n i x h]
  rfl

/-- Row 46340 of a 46341 x 46341 matrix `A`: the index `46340 * 46341 + 41708` wraps to
`-2147483648`, and the reference reads `A` there after computing rows `0 .. 46339`. -/
theorem overflow_fault_A (u : FloatUnit) (alpha beta : F32) (A B C : List F32)
    (hA : A.length = 46341 * 46341) (hB : B.length = 46341 * 1)
    (hC : C.length = 46341 * 1) :
    ∃ (C' : List F32) (lg' : List Access),
      gemm_cpu_reference u 46341 1 46341 alpha beta { A := A, B := B, C := C, log := [] }
        = Res.oob (Access.read Buf.A (-2147483648))
            { A := A, B := B, C := C', log := lg' } ∧
      C'.length = C.length ∧
      (∀ i, i < 46340 → C'[i]? = some (elem_spec u A B C 1 46341 alpha beta i 0)) ∧
      (∀ q, 46340 ≤ q → C'[q]? = C[q]?) := by
  have hidx : idx32 46340 46341 41708 = -2147483648 := by decide!
  obtain ⟨C', lg', hrun, hlen, hval, hother⟩ := gemm_cpu_reference_fault u 46341 1 46341
    alpha beta { A := A, B := B, C := C, log := [] } 46340 0 41708
    (Access.read Buf.A (-2147483648)) (by omega) (by omega) (by omega)
    (fun i j hij => by
      refine ⟨fun k hk => ⟨?_, ?_⟩, fun k hk => ⟨?_, ?_⟩, ?_, ?_⟩ <;> dsimp only <;> omega)
    (fun k hk => by
      refine ⟨⟨?_, ?_⟩, ⟨?_, ?_⟩⟩ <;> dsimp only <;> omega)
    (Or.inl ⟨Or.inl (by rw [hidx]; omega), by rw [hidx]⟩)
  refine ⟨C', lg', hrun, hlen, ?_, ?_⟩
  · intro i hi
    have := hval i 0 (Or.inl ⟨hi, by omega⟩)
    simpa using this
  · intro q hq
    exact hother q (by omega)

/-- Row 46340 of a 46341 x 46341 matrix `B`: for column 41708 the index
`46340 * 46341 + 41708` wraps to `-2147483648`, and the reference reads `B` there after
computing the elements `0 .. 41707` of the first row of `C`. -/
theorem overflow_fault_B (u : FloatUnit) (alpha beta : F32) (A B C : List F32)
    (hA : A.length = 1 * 46341) (hB : B.length = 46341 * 46341)
    (hC : C.length = 1 * 46341) :
    ∃ (C' : List F32) (lg' : List Access),
      gemm_cpu_reference u 1 46341 46341 alpha beta { A := A, B := B, C := C, log := [] }
        = Res.oob (Access.read Buf.B (-2147483648))
            { A := A, B := B, C := C', log := lg' } ∧
      C'.length = C.length ∧
      (∀ j, j < 41708 → C'[j]? = some (elem_spec u A B C 46341 46341 alpha beta 0 j)) ∧
      (∀ q, 41708 ≤ q → C'[q]? = C[q]?) := by
  have hidx : idx32 46340 46341 41708 = -2147483648 := by decide!
  obtain ⟨C', lg', hrun, hlen, hval, hother⟩ := gemm_cpu_reference_fault u 1 46341 46341
    alpha beta { A := A, B := B, C := C, log := [] } 0 41708 46340
    (Access.read Buf.B (-2147483648)) (by omega) (by omega) (by omega)
    (fun i j hij => by
      refine ⟨fun k hk => ⟨?_, ?_⟩, fun k hk => ⟨?_, ?_⟩, ?_, ?_⟩ <;> dsimp only <;> omega)
    (fun k hk => by
      refine ⟨⟨?_, ?_⟩, ⟨?_, ?_⟩⟩ <;> dsimp only <;> omega)
    (Or.inr ⟨⟨by dsimp only; omega, by omega⟩, Or.inl (by rw [hidx]; omega), by rw [hidx]⟩)
  refine ⟨C', lg', hrun, hlen, ?_, ?_⟩
  · intro j hj
    have := hval 0 j (Or.inr ⟨rfl, hj⟩)
    simpa using this
  · intro q hq
    exact hother q (by omega)

/-- The `K x K` identity matrix in row-major order. -/
theorem identity_getD (K k j : Nat) (hk : k < K) (hj : j < K) :
    ((List.range (K * K)).map
        fun p => if p / K = p % K then F32.one else F32.zero).getD (k * K + j) F32.zero
      = if k = j then F32.one else F32.zero := by
  have hlt : k * K + j < K * K := idx_lt k K j K hk hj
  have hdiv : (k * K + j) / K = k := by
    rw [Nat.mul_comm, Nat.mul_add_div (by omega), Nat.div_eq_of_lt hj]
    rfl
  have hmod : (k * K + j) % K = j := by
    rw [Nat.mul_comm, Nat.mul_add_mod, Nat.mod_eq_of_lt hj]
  rw [List.getD_eq_getElem?_getD, List.getElem?_map, List.getElem?_range hlt]
  simp only [Option.map_some', Option.getD_some, hdiv, hmod]

/-- On zeros, the separately rounded sum is `0.0f`. -/
theorem dot_spec_zeros (A B : List F32) (N K i j : Nat)
    (hA : ∀ k, A.getD (i * K + k) F32.zero = F32.zero)
    (hB : ∀ k, B.getD (k * N + j) F32.zero = F32.zero) :
    dot_spec FloatUnit.separate A B N K i j = F32.zero := by
  have h : ∀ n, (List.range n).foldl
      (fun s k => FloatUnit.separate.mac s
        (A.getD (i * K + k) F32.zero) (B.getD (k * N + j) F32.zero)) F32.zero
      = F32.zero := by
    intro n
    induction n with
    | zero => rfl
    | succ n ih =>
      rw [List.range_succ, List.foldl_append, ih]
      simp only [List.foldl_cons, List.foldl_nil]
      rw [hA n, hB n]
      decide
  exact h K

/-- Two threads of the launch with `M = K = 46341` and `N = 1`: the thread of row 46340,
whose index expression overflows, run first leaves `C` untouched; run after the thread
of row 0 it leaves `C[0]` updated. Both runs end at the read of `A[-2147483648]`. -/
theorem overflow_threads (u : FloatUnit) (alpha beta : F32) (A B C : List F32)
    (rest : List Thread)
    (hA : A.length = 46341 * 46341) (hB : B.length = 46341 * 1)
    (hC : C.length = 46341 * 1) :
    (∃ lg' : List Access,
      runThreads
          (fun t => simple_gemm_kernel u { x := 16, y := 16 } t 46341 1 46341 alpha beta)
          ({ blockIdx := { x := 0, y := 2896 }, threadIdx := { x := 0, y := 4 } } :: rest)
          { A := A, B := B, C := C, log := [] }
        = Res.oob (Access.read Buf.A (-2147483648))
            { A := A, B := B, C := C, log := lg' }) ∧
    (∃ lg' : List Access,
      runThreads
          (fun t => simple_gemm_kernel u { x := 16, y := 16 } t 46341 1 46341 alpha beta)
          ({ blockIdx := { x := 0, y := 0 }, threadIdx := { x := 0, y := 0 } }
            :: { blockIdx := { x := 0, y := 2896 }, threadIdx := { x := 0, y := 4 } }
            :: rest)
          { A := A, B := B, C := C, log := [] }
        = Res.oob (Access.read Buf.A (-2147483648))
            { A := A, B := B,
              C := C.set 0 (elem_spec u A B C 1 46341 alpha beta 0 0), log := lg' }) := by
  have hidx : idx32 46340 46341 41708 = -2147483648 := by decide!
  have hbad : ∀ (C1 : List F32) (lg : List Access), ∃ lg' : List Access,
      update_element u 1 46341 alpha beta 46340 0 { A := A, B := B, C := C1, log := lg }
        = Res.oob (Access.read Buf.A (-2147483648))
            { A := A, B := B, C := C1, log := lg' } := by
    intro C1 lg
    exact update_element_fault u 1 46341 alpha beta 46340 0
      { A := A, B := B, C := C1, log := lg } 41708 (Access.read Buf.A (-2147483648))
      (by omega)
      (fun k hk => by
        refine ⟨⟨?_, ?_⟩, ⟨?_, ?_⟩⟩ <;> dsimp only <;> omega)
      (Or.inl ⟨Or.inl (by rw [hidx]; omega), by rw [hidx]⟩)
  have hkbad : ∀ (C1 : List F32) (lg : List Access),
      simple_gemm_kernel u { x := 16, y := 16 }
          { blockIdx := { x := 0, y := 2896 }, threadIdx := { x := 0, y := 4 } }
          46341 1 46341 alpha beta { A := A, B := B, C := C1, log := lg }
        = update_element u 1 46341 alpha beta 46340 0
            { A := A, B := B, C := C1, log := lg } := by
    intro C1 lg
    rw [simple_gemm_kernel_eq, if_pos (by decide)]
    rfl
  have hk0 : simple_gemm_kernel u { x := 16, y := 16 }
        { blockIdx := { x := 0, y := 0 }, threadIdx := { x := 0, y := 0 } }
        46341 1 46341 alpha beta { A := A, B := B, C := C, log := [] }
      = Res.ok ()
          { A := A, B := B, C := C.set 0 (elem_spec u A B C 1 46341 alpha beta 0 0),
            log := [] ++ elem_log 1 46341 0 0 } := by
    rw [simple_gemm_kernel_eq, if_pos (by decide)]
    exact update_element_ok u 1 46341 alpha beta 0 0 { A := A, B := B, C := C, log := [] }
      (by
        refine ⟨fun k hk => ⟨?_, ?_⟩, fun k hk => ⟨?_, ?_⟩, ?_, ?_⟩ <;> dsimp only <;> omega)
  refine ⟨?_, ?_⟩
  · obtain ⟨lg', h⟩ := hbad C []
    refine ⟨lg', ?_⟩
    unfold runThreads
    rw [bind_run, hkbad, h]
  · obtain ⟨lg', h⟩ := hbad (C.set 0 (elem_spec u A B C 1 46341 alpha beta 0 0))
      ([] ++ elem_log 1 46341 0 0)
    refine ⟨lg', ?_⟩
    unfold runThreads
    rw [bind_run, hk0]
    simp only []
    unfold runThreads
    rw [bind_run, hkbad, h]

end simple_gemm

/-! ## The claims -/

namespace simple_gemm

/-- C1 as stated fails. (1) With `M = K = 46341`, `N = 1` and buffers of matching size
(`A` of `46341 * 46341` elements, `B` and `C` of 46341), the `int` expression `i * K + k`
overflows at `i = 46340`, `k = 41708`, where its exact value is `2147483648`: the wrapped
index is `-2147483648`, `gemm_cpu_reference` reads `A` there and the call ends without
ever writing `C[46340]`. (2) In a build that contracts `sum + a * b` into a fused
multiply-add, `M = N = 1`, `K = 2`, `A = [-16777216, 4097]`, `B = [1, 4097]`, `alpha = 1`,
`beta = 0`, `C = [0]` gives `C = [8193]`, while the formula with every product and sum
rounded gives `8192`. -/
theorem int_overflow_counterexample :
    ((List.replicate (46341 * 46341) F32.one).length = 46341 * 46341 ∧
      (List.replicate (46341 * 1) F32.one).length = 46341 * 1 ∧
      (List.replicate (46341 * 1) F32.zero).length = 46341 * 1) ∧
    idx32 46340 46341 41708 = -2147483648 ∧
    (gemm_cpu_reference FloatUnit.separate 46341 1 46341 F32.one F32.zero
        { A := List.replicate (46341 * 46341) F32.one,
          B := List.replicate (46341 * 1) F32.one,
          C := List.replicate (46341 * 1) F32.zero, log := [] }).fault
      = some (Access.read Buf.A (-2147483648)) ∧
    (gemm_cpu_reference FloatUnit.separate 46341 1 46341 F32.one F32.zero
        { A := List.replicate (46341 * 46341) F32.one,
          B := List.replicate (46341 * 1) F32.one,
          C := List.replicate (46341 * 1) F32.zero, log := [] }).mem.C[46340]?
      = some F32.zero ∧
    (gemm_cpu_reference FloatUnit.fused 1 1 2 F32.one F32.zero
        { A := [F32.fin true 151 0, F32.fin false 139 2048],
          B := [F32.one, F32.fin false 139 2048], C := [F32.zero], log := [] }).mem.C
      = [F32.fin false 140 1024] ∧
    F32.add
        (F32.mul F32.one
          ((List.range 2).foldl
            (fun s k => F32.add s
              (F32.mul ([F32.fin true 151 0, F32.fin false 139 2048].getD (0 * 2 + k) F32.zero)
                ([F32.one, F32.fin false 139 2048].getD (k * 1 + 0) F32.zero)))
            F32.zero))
        (F32.mul F32.zero ([F32.zero].getD (0 * 1 + 0) F32.zero))
      = F32.fin false 140 0 ∧
    (F32.neg (F32.ofNat 16777216) = F32.fin true 151 0 ∧
      F32.ofNat 4097 = F32.fin false 139 2048 ∧
      F32.ofNat 8193 = F32.fin false 140 1024 ∧ F32.ofNat 8192 = F32.fin false 140 0) := by
  obtain ⟨C', lg', hrun, _, _, hother⟩ := overflow_fault_A FloatUnit.separate F32.one F32.zero
    (List.replicate (46341 * 46341) F32.one) (List.replicate (46341 * 1) F32.one)
    (List.replicate (46341 * 1) F32.zero)
    (List.length_replicate _ _) (List.length_replicate _ _) (List.length_replicate _ _)
  refine ⟨⟨List.length_replicate _ _, List.length_replicate _ _, List.length_replicate _ _⟩,
    by decide!, ?_, ?_, by decide!, by decide!,
    ⟨by decide!, by decide!, by decide!, by decide!⟩⟩
  · rw [hrun]
    rfl
  · rw [hrun]
    show C'[46340]? = some F32.zero
    rw [hother 46340 (Nat.le_refl _)]
    exact replicate_getElem? _ _ _ (by omega)

/-- C1, amended: for all `M, N, K` (in particular `M, N, K > 0`) whose element counts
`M * K`, `K * N`, `M * N` are `int` values (at most `INT_MAX`), scalars `alpha`, `beta`
and buffers `A` of length `M * K`, `B` of length `K * N`, `C` of length `M * N`,
`gemm_cpu_reference` runs to its end and leaves at every index `i * N + j` with `i < M`,
`j < N` the value of `alpha * s + beta * C[i * N + j]` as the build evaluates that
expression (`u.axpby`), where `C` is the buffer before the call and `s` is accumulated
left to right for `k = 0, ..., K - 1` starting from `0.0f` by
`s = s + A[i * K + k] * B[k * N + j]`, as the build evaluates that expression
(`u.mac`). -/
theorem gemm_cpu_reference_computes (u : FloatUnit) (M N K : Nat) (alpha beta : F32)
    (A B C : List F32) (lg : List Access) (hfit : FitsInt M N K)
    (hA : A.length = M * K) (hB : B.length = K * N) (hC : C.length = M * N) :
    ∃ m' : Mem,
      gemm_cpu_reference u M N K alpha beta { A := A, B := B, C := C, log := lg }
        = Res.ok () m' ∧
      ∀ i j, i < M → j < N →
        m'.C[i * N + j]? = some
          (u.axpby alpha
            ((List.range K).foldl
              (fun s k => u.mac s (A.getD (i * K + k) F32.zero) (B.getD (k * N + j) F32.zero))
              F32.zero)
            beta (C.getD (i * N + j) F32.zero)) := by
  obtain ⟨_, _, _, h1, h2, h3⟩ := hfit
  unfold INT_MAX at h1 h2 h3
  obtain ⟨C', hrun, _, hval, _⟩ := gemm_cpu_reference_ok u M N K alpha beta
    { A := A, B := B, C := C, log := lg } (by simp [hA]) (by simp [hB]) (by simp [hC])
    (by omega) (by omega) (by omega)
  exact ⟨_, hrun, fun i j hi hj => hval i j hi hj⟩

/-- C1, amended, on the example of the claim: `M = N = K = 2`, `A = [1, 2, 3, 4]`,
`B = [5, 6, 7, 8]`, `alpha = 1`, `beta = 0` and `C` of zeros: the call runs to its end
with `C = [19, 22, 43, 50]`, with every operation rounded and with fused
multiply-adds. -/
theorem gemm_cpu_reference_computes_witness :
    ((FitsInt 2 2 2 ∧
      [F32.ofNat 1, F32.ofNat 2, F32.ofNat 3, F32.ofNat 4].length = 2 * 2 ∧
      [F32.ofNat 5, F32.ofNat 6, F32.ofNat 7, F32.ofNat 8].length = 2 * 2 ∧
      [F32.zero, F32.zero, F32.zero, F32.zero].length = 2 * 2) ∧
      ∃ m' : Mem,
        gemm_cpu_reference FloatUnit.separate 2 2 2 F32.one F32.zero
            { A := [F32.ofNat 1, F32.ofNat 2, F32.ofNat 3, F32.ofNat 4],
              B := [F32.ofNat 5, F32.ofNat 6, F32.ofNat 7, F32.ofNat 8],
              C := [F32.zero, F32.zero, F32.zero, F32.zero], log := [] } = Res.ok () m' ∧
        ∀ i j, i < 2 → j < 2 →
          m'.C[i * 2 + j]? = some
            (FloatUnit.separate.axpby F32.one
              ((List.range 2).foldl
                (fun s k => FloatUnit.separate.mac s
                  ([F32.ofNat 1, F32.ofNat 2, F32.ofNat 3, F32.ofNat 4].getD (i * 2 + k)
                    F32.zero)
                  ([F32.ofNat 5, F32.ofNat 6, F32.ofNat 7, F32.ofNat 8].getD (k * 2 + j)
                    F32.zero))
                F32.zero)
              F32.zero ([F32.zero, F32.zero, F32.zero, F32.zero].getD (i * 2 + j) F32.zero))) ∧
    (gemm_cpu_reference FloatUnit.separate 2 2 2 F32.one F32.zero
        { A := [F32.ofNat 1, F32.ofNat 2, F32.ofNat 3, F32.ofNat 4],
          B := [F32.ofNat 5, F32.ofNat 6, F32.ofNat 7, F32.ofNat 8],
          C := [F32.zero, F32.zero, F32.zero, F32.zero], log := [] }).mem.C
      = [F32.fin false 131 1572864, F32.fin false 131 3145728,
         F32.fin false 132 2883584, F32.fin false 132 4718592] ∧
    (gemm_cpu_reference FloatUnit.fused 2 2 2 F32.one F32.zero
        { A := [F32.ofNat 1, F32.ofNat 2, F32.ofNat 3, F32.ofNat 4],
          B := [F32.ofNat 5, F32.ofNat 6, F32.ofNat 7, F32.ofNat 8],
          C := [F32.zero, F32.zero, F32.zero, F32.zero], log := [] }).mem.C
      = [F32.fin false 131 1572864, F32.fin false 131 3145728,
         F32.fin false 132 2883584, F32.fin false 132 4718592] ∧
    [F32.ofNat 19, F32.ofNat 22, F32.ofNat 43, F32.ofNat 50]
      = [F32.fin false 131 1572864, F32.fin false 131 3145728,
         F32.fin false 132 2883584, F32.fin false 132 4718592] :=
  ⟨⟨⟨by decide, by decide, by decide, by decide⟩,
    gemm_cpu_reference_computes FloatUnit.separate 2 2 2 F32.one F32.zero _ _ _ []
      (by decide) (by decide) (by decide) (by decide)⟩,
   by decide!, by decide!, by decide!⟩

/-- C10 as stated fails: with `M = K = 46341`, `N = 1` and `A.size = M * K`,
`B.size = K * N`, `C.size = M * N`, the inequality `i * K + k < M * K` holds at
`i = 46340`, `k = 41708`, but the `int` expression `i * K + k` that the code evaluates
wraps to `-2147483648`, which is not an index of `A`: the call takes the out-of-bounds
branch there. -/
theorem index_overflow_counterexample :
    ((List.replicate (46341 * 46341) F32.zero).length = 46341 * 46341 ∧
      (List.replicate (46341 * 1) F32.zero).length = 46341 * 1) ∧
    46340 * 46341 + 41708 < 46341 * 46341 ∧
    idx32 46340 46341 41708 = -2147483648 ∧
    (gemm_cpu_reference FloatUnit.separate 46341 1 46341 F32.zero F32.zero
        { A := List.replicate (46341 * 46341) F32.zero,
          B := List.replicate (46341 * 1) F32.zero,
          C := List.replicate (46341 * 1) F32.zero, log := [] }).isOk = false ∧
    (gemm_cpu_reference FloatUnit.separate 46341 1 46341 F32.zero F32.zero
        { A := List.replicate (46341 * 46341) F32.zero,
          B := List.replicate (46341 * 1) F32.zero,
          C := List.replicate (46341 * 1) F32.zero, log := [] }).fault
      = some (Access.read Buf.A (-2147483648)) := by
  obtain ⟨C', lg', hrun, _, _, _⟩ := overflow_fault_A FloatUnit.separate F32.zero F32.zero
    (List.replicate (46341 * 46341) F32.zero) (List.replicate (46341 * 1) F32.zero)
    (List.replicate (46341 * 1) F32.zero)
    (List.length_replicate _ _) (List.length_replicate _ _) (List.length_replicate _ _)
  refine ⟨⟨List.length_replicate _ _, List.length_replicate _ _⟩, by decide, by decide!,
    ?_, ?_⟩
  · rw [hrun]
    rfl
  · rw [hrun]
    rfl

/-- C10, amended: for all `M, N, K ≥ 0` that are `int` values with element counts
`M * K`, `K * N`, `M * N` at most `INT_MAX`, and buffers with `A.size = M * K`,
`B.size = K * N`, `C.size = M * N`, every index `gemm_cpu_reference` uses is inside its
buffer (`i * K + k < M * K`, `k * N + j < K * N`, `i * N + j < M * N` for `i < M`,
`j < N`, `k < K`, and the `int` expressions have these values), the run never takes the
out-of-bounds branch of an access (it ends in `Res.ok`), every access it logs is inside
its buffer, the length of `C` is still `M * N`, and `A` and `B` are unchanged. -/
theorem gemm_cpu_reference_in_bounds (u : FloatUnit) (M N K : Nat) (alpha beta : F32)
    (A B C : List F32) (lg : List Access) (hfit : FitsInt M N K)
    (hA : A.length = M * K) (hB : B.length = K * N) (hC : C.length = M * N) :
    (∀ i j k, i < M → j < N → k < K →
      (i * K + k < M * K ∧ idx32 i K k = ((i * K + k : Nat) : Int)) ∧
      (k * N + j < K * N ∧ idx32 k N j = ((k * N + j : Nat) : Int)) ∧
      (i * N + j < M * N ∧ idx32 i N j = ((i * N + j : Nat) : Int))) ∧
    ∃ (C' : List F32) (lg' : List Access),
      gemm_cpu_reference u M N K alpha beta { A := A, B := B, C := C, log := lg }
        = Res.ok () { A := A, B := B, C := C', log := lg ++ lg' } ∧
      C'.length = M * N ∧
      ∀ a ∈ lg', ∀ (b : Buf) (i : Int), (a = Access.read b i ∨ a = Access.write b i) →
        0 ≤ i ∧ i < ((Mem.buf { A := A, B := B, C := C, log := lg } b).length : Int) := by
  obtain ⟨_, _, _, h1, h2, h3⟩ := hfit
  unfold INT_MAX at h1 h2 h3
  refine ⟨fun i j k hi hj hk => ?_, ?_⟩
  · have e1 := idx_lt _ _ _ _ hi hk
    have e2 := idx_lt' _ _ _ _ hk hj
    have e3 := idx_lt _ _ _ _ hi hj
    exact ⟨⟨e1, idx32_eq _ _ _ (by omega)⟩, ⟨e2, idx32_eq _ _ _ (by omega)⟩,
      ⟨e3, idx32_eq _ _ _ (by omega)⟩⟩
  obtain ⟨C', hrun, hlen, _, _⟩ := gemm_cpu_reference_ok u M N K alpha beta
    { A := A, B := B, C := C, log := lg } (by simp [hA]) (by simp [hB]) (by simp [hC])
    (by omega) (by omega) (by omega)
  refine ⟨C', _, hrun, by rw [hlen]; exact hC, ?_⟩
  intro a ha b i hab
  simp only [List.mem_flatMap] at ha
  obtain ⟨p, hp, hmem⟩ := ha
  obtain ⟨hp1, hp2⟩ := (mem_positions M N p).mp hp
  simp only [elem_log, List.mem_append, List.mem_flatMap, List.mem_range, List.mem_cons,
    List.mem_singleton, List.not_mem_nil, or_false] at hmem
  rcases hmem with ⟨k, hk, h | h⟩ | h | h
  · subst h
    rcases hab with h | h
    · cases h
      have := idx_lt _ _ _ _ hp1 hk
      simp only [Mem.buf, hA]
      omega
    · cases h
  · subst h
    rcases hab with h | h
    · cases h
      have := idx_lt' _ _ _ _ hk hp2
      simp only [Mem.buf, hB]
      omega
    · cases h
  · subst h
    rcases hab with h | h
    · cases h
      have := idx_lt _ _ _ _ hp1 hp2
      simp only [Mem.buf, hC]
      omega
    · cases h
  · subst h
    rcases hab with h | h
    · cases h
    · cases h
      have := idx_lt _ _ _ _ hp1 hp2
      simp only [Mem.buf, hC]
      omega

/-- C10, amended, at `M = 2`, `N = 1`, `K = 2`. -/
theorem gemm_cpu_reference_in_bounds_witness :
    (FitsInt 2 1 2 ∧ [F32.one, F32.zero, F32.zero, F32.one].length = 2 * 2 ∧
      [F32.one, F32.one].length = 2 * 1 ∧ [F32.zero, F32.zero].length = 2 * 1) ∧
    ((∀ i j k, i < 2 → j < 1 → k < 2 →
      (i * 2 + k < 2 * 2 ∧ idx32 i 2 k = ((i * 2 + k : Nat) : Int)) ∧
      (k * 1 + j < 2 * 1 ∧ idx32 k 1 j = ((k * 1 + j : Nat) : Int)) ∧
      (i * 1 + j < 2 * 1 ∧ idx32 i 1 j = ((i * 1 + j : Nat) : Int))) ∧
    ∃ (C' : List F32) (lg' : List Access),
      gemm_cpu_reference FloatUnit.fused 2 1 2 F32.one F32.one
          { A := [F32.one, F32.zero, F32.zero, F32.one], B := [F32.one, F32.one],
            C := [F32.zero, F32.zero], log := [] }
        = Res.ok () { A := [F32.one, F32.zero, F32.zero, F32.one], B := [F32.one, F32.one],
                      C := C', log := [] ++ lg' } ∧
      C'.length = 2 * 1 ∧
      ∀ a ∈ lg', ∀ (b : Buf) (i : Int), (a = Access.read b i ∨ a = Access.write b i) →
        0 ≤ i ∧
        i < ((Mem.buf { A := [F32.one, F32.zero, F32.zero, F32.one], B := [F32.one, F32.one],
                        C := [F32.zero, F32.zero], log := [] } b).length : Int)) ∧
    (gemm_cpu_reference FloatUnit.fused 2 1 2 F32.one F32.one
        { A := [F32.one, F32.zero, F32.zero, F32.one], B := [F32.one, F32.one],
          C := [F32.zero, F32.zero], log := [] }).mem.log
      = [Access.read Buf.A 0, Access.read Buf.B 0, Access.read Buf.A 1, Access.read Buf.B 1,
         Access.read Buf.C 0, Access.write Buf.C 0,
         Access.read Buf.A 2, Access.read Buf.B 0, Access.read Buf.A 3, Access.read Buf.B 1,
         Access.read Buf.C 1, Access.write Buf.C 1] :=
  ⟨⟨by decide, by decide, by decide, by decide⟩,
   gemm_cpu_reference_in_bounds FloatUnit.fused 2 1 2 F32.one F32.one _ _ _ []
     (by decide) (by decide) (by decide) (by decide),
   by decide!⟩

/-- C8: for all `M, N` (in particular `M, N > 0`), the grid that `gemm_host` launches
(blocks of 16 x 16 threads, `(N + 16 - 1) / 16` blocks in x, `(M + 16 - 1) / 16` blocks
in y) lists no thread twice and holds, for each output position `(row, col)` with
`row < M` and `col < N`, exactly one thread with `blockIdx.y * 16 + threadIdx.y = row`
and `blockIdx.x * 16 + threadIdx.x = col`; and a thread of the grid with `row ≥ M` or
`col ≥ N` runs the kernel without reading or writing anything: memory and access log
are unchanged, whatever the float unit of the build. -/
theorem launch_grid_covers_once (M N : Nat) :
    (gridThreads { x := (N + 16 - 1) / 16, y := (M + 16 - 1) / 16 } { x := 16, y := 16 }).Nodup ∧
    (∀ row col, row < M → col < N →
      ∃! t : Thread,
        t ∈ gridThreads { x := (N + 16 - 1) / 16, y := (M + 16 - 1) / 16 } { x := 16, y := 16 } ∧
        t.blockIdx.y * 16 + t.threadIdx.y = row ∧
        t.blockIdx.x * 16 + t.threadIdx.x = col) ∧
    (∀ t : Thread,
      t ∈ gridThreads { x := (N + 16 - 1) / 16, y := (M + 16 - 1) / 16 } { x := 16, y := 16 } →
      (M ≤ t.blockIdx.y * 16 + t.threadIdx.y ∨ N ≤ t.blockIdx.x * 16 + t.threadIdx.x) →
      ∀ (u : FloatUnit) (K : Nat) (alpha beta : F32) (m : Mem),
        simple_gemm_kernel u { x := 16, y := 16 } t M N K alpha beta m = Res.ok () m) := by
  refine ⟨nodup_gridThreads _ _, ?_, ?_⟩
  · intro row col hr hc
    obtain ⟨t, ht, h1, h2⟩ := host_grid_cover M N row col hr hc
    refine ⟨t, ⟨ht, h1, h2⟩, ?_⟩
    rintro u ⟨hu, h3, h4⟩
    exact host_grid_inj M N u t hu ht (h3.trans h1.symm) (h4.trans h2.symm)
  · intro t _ hout u K alpha beta m
    have h : ¬ (t.blockIdx.y * 16 + t.threadIdx.y < M ∧ t.blockIdx.x * 16 + t.threadIdx.x < N) := by
      omega
    simp only [simple_gemm_kernel]
    rw [if_neg h]
    rfl

/-- C9 as stated fails: with `M = K = 46341`, `N = 1`, device buffers of matching size
(`A` and `B` of zeros, `C` of ones), `alpha = 1`, `beta = 0`, the thread of row 46340
(`blockIdx.y = 2896`, `threadIdx.y = 4`) is in range but its index expression
`row * K + k` overflows `int` at `k = 41708`: it reads `A[-2147483648]` and never reaches
`C`. Two orders of the threads of the grid then end with different contents of `C`: with
that thread first, `C[0]` is still `1`; with the thread of row 0 first and that thread
second, `C[0]` is `0`. -/
theorem schedule_counterexample :
    ((List.replicate (46341 * 46341) F32.zero).length = 46341 * 46341 ∧
      (List.replicate (46341 * 1) F32.zero).length = 46341 * 1 ∧
      (List.replicate (46341 * 1) F32.one).length = 46341 * 1) ∧
    (2896 * 16 + 4 < 46341 ∧ idx32 (2896 * 16 + 4) 46341 41708 = -2147483648) ∧
    (({ blockIdx := { x := 0, y := 2896 }, threadIdx := { x := 0, y := 4 } } : Thread)
        :: (gridThreads { x := (1 + 16 - 1) / 16, y := (46341 + 16 - 1) / 16 }
              { x := 16, y := 16 }).erase
            { blockIdx := { x := 0, y := 2896 }, threadIdx := { x := 0, y := 4 } }).Perm
      (gridThreads { x := (1 + 16 - 1) / 16, y := (46341 + 16 - 1) / 16 }
        { x := 16, y := 16 }) ∧
    (({ blockIdx := { x := 0, y := 0 }, threadIdx := { x := 0, y := 0 } } : Thread)
        :: { blockIdx := { x := 0, y := 2896 }, threadIdx := { x := 0, y := 4 } }
        :: ((gridThreads { x := (1 + 16 - 1) / 16, y := (46341 + 16 - 1) / 16 }
              { x := 16, y := 16 }).erase
            { blockIdx := { x := 0, y := 0 }, threadIdx := { x := 0, y := 0 } }).erase
            { blockIdx := { x := 0, y := 2896 }, threadIdx := { x := 0, y := 4 } }).Perm
      (gridThreads { x := (1 + 16 - 1) / 16, y := (46341 + 16 - 1) / 16 }
        { x := 16, y := 16 }) ∧
    (runThreads
        (fun t => simple_gemm_kernel FloatUnit.separate { x := 16, y := 16 } t
          46341 1 46341 F32.one F32.zero)
        (({ blockIdx := { x := 0, y := 2896 }, threadIdx := { x := 0, y := 4 } } : Thread)
          :: (gridThreads { x := (1 + 16 - 1) / 16, y := (46341 + 16 - 1) / 16 }
                { x := 16, y := 16 }).erase
              { blockIdx := { x := 0, y := 2896 }, threadIdx := { x := 0, y := 4 } })
        { A := List.replicate (46341 * 46341) F32.zero,
          B := List.replicate (46341 * 1) F32.zero,
          C := List.replicate (46341 * 1) F32.one, log := [] }).fault
      = some (Access.read Buf.A (-2147483648)) ∧
    (runThreads
        (fun t => simple_gemm_kernel FloatUnit.separate { x := 16, y := 16 } t
          46341 1 46341 F32.one F32.zero)
        (({ blockIdx := { x := 0, y := 2896 }, threadIdx := { x := 0, y := 4 } } : Thread)
          :: (gridThreads { x := (1 + 16 - 1) / 16, y := (46341 + 16 - 1) / 16 }
                { x := 16, y := 16 }).erase
              { blockIdx := { x := 0, y := 2896 }, threadIdx := { x := 0, y := 4 } })
        { A := List.replicate (46341 * 46341) F32.zero,
          B := List.replicate (46341 * 1) F32.zero,
          C := List.replicate (46341 * 1) F32.one, log := [] }).mem.C[0]?
      = some F32.one ∧
    (runThreads
        (fun t => simple_gemm_kernel FloatUnit.separate { x := 16, y := 16 } t
          46341 1 46341 F32.one F32.zero)
        (({ blockIdx := { x := 0, y := 0 }, threadIdx := { x := 0, y := 0 } } : Thread)
          :: { blockIdx := { x := 0, y := 2896 }, threadIdx := { x := 0, y := 4 } }
          :: ((gridThreads { x := (1 + 16 - 1) / 16, y := (46341 + 16 - 1) / 16 }
                { x := 16, y := 16 }).erase
              { blockIdx := { x := 0, y := 0 }, threadIdx := { x := 0, y := 0 } }).erase
              { blockIdx := { x := 0, y := 2896 }, threadIdx := { x := 0, y := 4 } })
        { A := List.replicate (46341 * 46341) F32.zero,
          B := List.replicate (46341 * 1) F32.zero,
          C := List.replicate (46341 * 1) F32.one, log := [] }).fault
      = some (Access.read Buf.A (-2147483648)) ∧
    (runThreads
        (fun t => simple_gemm_kernel FloatUnit.separate { x := 16, y := 16 } t
          46341 1 46341 F32.one F32.zero)
        (({ blockIdx := { x := 0, y := 0 }, threadIdx := { x := 0, y := 0 } } : Thread)
          :: { blockIdx := { x := 0, y := 2896 }, threadIdx := { x := 0, y := 4 } }
          :: ((gridThreads { x := (1 + 16 - 1) / 16, y := (46341 + 16 - 1) / 16 }
                { x := 16, y := 16 }).erase
              { blockIdx := { x := 0, y := 0 }, threadIdx := { x := 0, y := 0 } }).erase
              { blockIdx := { x := 0, y := 2896 }, threadIdx := { x := 0, y := 4 } })
        { A := List.replicate (46341 * 46341) F32.zero,
          B := List.replicate (46341 * 1) F32.zero,
          C := List.replicate (46341 * 1) F32.one, log := [] }).mem.C[0]?
      = some F32.zero := by
  have hbad : ({ blockIdx := { x := 0, y := 2896 }, threadIdx := { x := 0, y := 4 } } : Thread)
      ∈ gridThreads { x := (1 + 16 - 1) / 16, y := (46341 + 16 - 1) / 16 }
          { x := 16, y := 16 } :=
    (mem_gridThreads _ _ _).mpr ⟨by decide, by decide, by decide, by decide⟩
  have h0 : ({ blockIdx := { x := 0, y := 0 }, threadIdx := { x := 0, y := 0 } } : Thread)
      ∈ gridThreads { x := (1 + 16 - 1) / 16, y := (46341 + 16 - 1) / 16 }
          { x := 16, y := 16 } :=
    (mem_gridThreads _ _ _).mpr ⟨by decide, by decide, by decide, by decide⟩
  have hbad' : ({ blockIdx := { x := 0, y := 2896 }, threadIdx := { x := 0, y := 4 } } : Thread)
      ∈ (gridThreads { x := (1 + 16 - 1) / 16, y := (46341 + 16 - 1) / 16 }
          { x := 16, y := 16 }).erase
          { blockIdx := { x := 0, y := 0 }, threadIdx := { x := 0, y := 0 } } :=
    (List.mem_erase_of_ne (by decide)).mpr hbad
  obtain ⟨⟨lgX, hX⟩, _⟩ := overflow_threads FloatUnit.separate F32.one F32.zero
    (List.replicate (46341 * 46341) F32.zero) (List.replicate (46341 * 1) F32.zero)
    (List.replicate (46341 * 1) F32.one)
    ((gridThreads { x := (1 + 16 - 1) / 16, y := (46341 + 16 - 1) / 16 }
      { x := 16, y := 16 }).erase
      { blockIdx := { x := 0, y := 2896 }, threadIdx := { x := 0, y := 4 } })
    (List.length_replicate _ _) (List.length_replicate _ _) (List.length_replicate _ _)
  obtain ⟨_, ⟨lgY, hY⟩⟩ := overflow_threads FloatUnit.separate F32.one F32.zero
    (List.replicate (46341 * 46341) F32.zero) (List.replicate (46341 * 1) F32.zero)
    (List.replicate (46341 * 1) F32.one)
    (((gridThreads { x := (1 + 16 - 1) / 16, y := (46341 + 16 - 1) / 16 }
      { x := 16, y := 16 }).erase
      { blockIdx := { x := 0, y := 0 }, threadIdx := { x := 0, y := 0 } }).erase
      { blockIdx := { x := 0, y := 2896 }, threadIdx := { x := 0, y := 4 } })
    (List.length_replicate _ _) (List.length_replicate _ _) (List.length_replicate _ _)
  have hv : elem_spec FloatUnit.separate (List.replicate (46341 * 46341) F32.zero)
      (List.replicate (46341 * 1) F32.zero) (List.replicate (46341 * 1) F32.one)
      1 46341 F32.one F32.zero 0 0 = F32.zero := by
    rw [elem_spec, dot_spec_zeros _ _ _ _ _ _ (fun _ => replicate_getD _ _ _)
      (fun _ => replicate_getD _ _ _), replicate_getD_lt _ _ _ _ (by omega)]
    decide
  refine ⟨⟨List.length_replicate _ _, List.length_replicate _ _, List.length_replicate _ _⟩,
    ⟨by decide, by decide!⟩, (List.perm_cons_erase hbad).symm,
    ((List.perm_cons_erase h0).trans (List.Perm.cons _ (List.perm_cons_erase hbad'))).symm,
    ?_, ?_, ?_, ?_⟩
  · rw [hX]
    rfl
  · rw [hX]
    exact replicate_getElem? _ _ _ (by omega)
  · rw [hY]
    rfl
  · rw [hY]
    show ((List.replicate (46341 * 1) F32.one).set 0 _)[0]? = some F32.zero
    rw [hv, List.getElem?_set_self (by rw [List.length_replicate]; omega)]

/-- C9, amended: on device buffers of matching size, for dimensions whose element counts
`M * K`, `K * N`, `M * N` are `int` values (at most `INT_MAX`) and any float unit,
(1) a thread with `row < M` and `col < N` runs the kernel to its end, leaves `A` and
`B` as they are, changes `C` at index `row * N + col` only, and logs exactly the
accesses `elem_log N K row col`; (2) these accesses read or write `C` at index
`row * N + col` only and never write `A` or `B`; (3) distinct in-range positions have
distinct indices; (4) hence the threads of the grid of `gemm_host`, run one after
another in any order (any permutation of the grid), all run to the end and leave the
same final `C`, with `A` and `B` unchanged. -/
theorem kernel_updates_commute (u : FloatUnit) (M N K : Nat) (alpha beta : F32)
    (A B C : List F32) (hfit : FitsInt M N K)
    (hA : A.length = M * K) (hB : B.length = K * N) (hC : C.length = M * N) :
    (∀ (t : Thread) (lg : List Access),
      t.blockIdx.y * 16 + t.threadIdx.y < M → t.blockIdx.x * 16 + t.threadIdx.x < N →
      ∃ v : F32,
        simple_gemm_kernel u { x := 16, y := 16 } t M N K alpha beta
            { A := A, B := B, C := C, log := lg }
          = Res.ok ()
            { A := A, B := B,
              C := C.set ((t.blockIdx.y * 16 + t.threadIdx.y) * N
                    + (t.blockIdx.x * 16 + t.threadIdx.x)) v,
              log := lg ++ elem_log N K (t.blockIdx.y * 16 + t.threadIdx.y)
                    (t.blockIdx.x * 16 + t.threadIdx.x) }) ∧
    (∀ row col a, a ∈ elem_log N K row col →
      (∀ (b : Buf) (i : Int), a = Access.write b i →
        b = Buf.C ∧ i = ((row * N + col : Nat) : Int)) ∧
      (∀ i : Int, a = Access.read Buf.C i → i = ((row * N + col : Nat) : Int))) ∧
    (∀ row col row' col', col < N → col' < N →
      row * N + col = row' * N + col' → row = row' ∧ col = col') ∧
    (∃ C' : List F32, ∀ l : List Thread,
      l.Perm (gridThreads { x := (N + 16 - 1) / 16, y := (M + 16 - 1) / 16 }
        { x := 16, y := 16 }) →
      ∃ lg' : List Access,
        runThreads (fun t => simple_gemm_kernel u { x := 16, y := 16 } t M N K alpha beta) l
            { A := A, B := B, C := C, log := [] }
          = Res.ok () { A := A, B := B, C := C', log := lg' }) := by
  obtain ⟨_, _, _, h1, h2, h3⟩ := hfit
  unfold INT_MAX at h1 h2 h3
  refine ⟨?_, ?_, ?_, ?_⟩
  · intro t lg hr hc
    refine ⟨elem_spec u A B C N K alpha beta (t.blockIdx.y * 16 + t.threadIdx.y)
      (t.blockIdx.x * 16 + t.threadIdx.x), ?_⟩
    have h := update_element_ok u N K alpha beta (t.blockIdx.y * 16 + t.threadIdx.y)
      (t.blockIdx.x * 16 + t.threadIdx.x) { A := A, B := B, C := C, log := lg }
      (safe_of_fits M N K _ _ _ _ (by simp [hA]) (by simp [hB]) (by simp [hC])
        (by omega) (by omega) (by omega) hr hc)
    rw [simple_gemm_kernel_eq]
    simp only [Thread.row, Thread.col]
    rw [if_pos ⟨hr, hc⟩]
    exact h
  · intro row col a ha
    simp only [elem_log, List.mem_append, List.mem_flatMap, List.mem_range, List.mem_cons,
      List.mem_singleton, List.not_mem_nil, or_false] at ha
    rcases ha with ⟨k, _, h | h⟩ | h | h <;> subst h
    · exact ⟨fun b i h => (by cases h), fun i h => (by cases h)⟩
    · exact ⟨fun b i h => (by cases h), fun i h => (by cases h)⟩
    · exact ⟨fun b i h => (by cases h), fun i h => (by cases h; rfl)⟩
    · exact ⟨fun b i h => (by cases h; exact ⟨rfl, rfl⟩), fun i h => (by cases h)⟩
  · intro row col row' col' h1 h2 h
    exact index_inj N row col row' col' h1 h2 h
  · obtain ⟨C0, _, _, hval0, hother0⟩ := gemm_cpu_reference_ok u M N K alpha beta
      { A := A, B := B, C := C, log := [] } (by simp [hA]) (by simp [hB]) (by simp [hC])
      (by omega) (by omega) (by omega)
    refine ⟨C0, ?_⟩
    intro l hl
    obtain ⟨g1, g2, g3⟩ := schedule_elements M N l hl
    obtain ⟨C', hrun, _, hval, hother⟩ := run_elements_all u M N K alpha beta
      (thread_elements hostBlockDim M N l) { A := A, B := B, C := C, log := [] }
      g1 g2 g3 (by simp [hA]) (by simp [hB]) (by simp [hC]) (by omega) (by omega) (by omega)
    have hEq : C' = C0 := buffers_eq M N C' C0 C _ hval hother hval0 hother0
    have hr := runThreads_eq u hostBlockDim M N K alpha beta l
      { A := A, B := B, C := C, log := [] }
    rw [hrun, hEq] at hr
    exact ⟨_, hr⟩

/-- C9, amended, at `M = N = K = 2` on `A = [1, 2, 3, 4]`, `B = [5, 6, 7, 8]`,
`C = [0, 0, 0, 0]`, `alpha = 1`, `beta = 0`, with fused multiply-adds: every order of the
256 threads of the one block leaves the same `C`; run in the order of the grid and in
the reverse order, the four threads in range make their accesses in different orders
(the logs differ) and both leave `C = [19, 22, 43, 50]`. -/
theorem kernel_updates_commute_witness :
    (FitsInt 2 2 2 ∧
      [F32.ofNat 1, F32.ofNat 2, F32.ofNat 3, F32.ofNat 4].length = 2 * 2 ∧
      [F32.ofNat 5, F32.ofNat 6, F32.ofNat 7, F32.ofNat 8].length = 2 * 2 ∧
      [F32.zero, F32.zero, F32.zero, F32.zero].length = 2 * 2) ∧
    (∃ C' : List F32, ∀ l : List Thread,
      l.Perm (gridThreads { x := (2 + 16 - 1) / 16, y := (2 + 16 - 1) / 16 }
        { x := 16, y := 16 }) →
      ∃ lg' : List Access,
        runThreads
            (fun t => simple_gemm_kernel FloatUnit.fused { x := 16, y := 16 } t 2 2 2
              F32.one F32.zero) l
            { A := [F32.ofNat 1, F32.ofNat 2, F32.ofNat 3, F32.ofNat 4],
              B := [F32.ofNat 5, F32.ofNat 6, F32.ofNat 7, F32.ofNat 8],
              C := [F32.zero, F32.zero, F32.zero, F32.zero], log := [] }
          = Res.ok ()
              { A := [F32.ofNat 1, F32.ofNat 2, F32.ofNat 3, F32.ofNat 4],
                B := [F32.ofNat 5, F32.ofNat 6, F32.ofNat 7, F32.ofNat 8],
                C := C', log := lg' }) ∧
    ((gridThreads { x := (2 + 16 - 1) / 16, y := (2 + 16 - 1) / 16 }
        { x := 16, y := 16 }).reverse.Perm
      (gridThreads { x := (2 + 16 - 1) / 16, y := (2 + 16 - 1) / 16 }
        { x := 16, y := 16 })) ∧
    (runThreads
        (fun t => simple_gemm_kernel FloatUnit.fused { x := 16, y := 16 } t 2 2 2
          F32.one F32.zero)
        (gridThreads { x := (2 + 16 - 1) / 16, y := (2 + 16 - 1) / 16 } { x := 16, y := 16 })
        { A := [F32.ofNat 1, F32.ofNat 2, F32.ofNat 3, F32.ofNat 4],
          B := [F32.ofNat 5, F32.ofNat 6, F32.ofNat 7, F32.ofNat 8],
          C := [F32.zero, F32.zero, F32.zero, F32.zero], log := [] }).mem.C
      = [F32.fin false 131 1572864, F32.fin false 131 3145728,
         F32.fin false 132 2883584, F32.fin false 132 4718592] ∧
    (runThreads
        (fun t => simple_gemm_kernel FloatUnit.fused { x := 16, y := 16 } t 2 2 2
          F32.one F32.zero)
        (gridThreads { x := (2 + 16 - 1) / 16, y := (2 + 16 - 1) / 16 }
          { x := 16, y := 16 }).reverse
        { A := [F32.ofNat 1, F32.ofNat 2, F32.ofNat 3, F32.ofNat 4],
          B := [F32.ofNat 5, F32.ofNat 6, F32.ofNat 7, F32.ofNat 8],
          C := [F32.zero, F32.zero, F32.zero, F32.zero], log := [] }).mem.C
      = [F32.fin false 131 1572864, F32.fin false 131 3145728,
         F32.fin false 132 2883584, F32.fin false 132 4718592] ∧
    (runThreads
        (fun t => simple_gemm_kernel FloatUnit.fused { x := 16, y := 16 } t 2 2 2
          F32.one F32.zero)
        (gridThreads { x := (2 + 16 - 1) / 16, y := (2 + 16 - 1) / 16 } { x := 16, y := 16 })
        { A := [F32.ofNat 1, F32.ofNat 2, F32.ofNat 3, F32.ofNat 4],
          B := [F32.ofNat 5, F32.ofNat 6, F32.ofNat 7, F32.ofNat 8],
          C := [F32.zero, F32.zero, F32.zero, F32.zero], log := [] }).mem.log.take 1
      = [Access.read Buf.A 0] ∧
    (runThreads
        (fun t => simple_gemm_kernel FloatUnit.fused { x := 16, y := 16 } t 2 2 2
          F32.one F32.zero)
        (gridThreads { x := (2 + 16 - 1) / 16, y := (2 + 16 - 1) / 16 }
          { x := 16, y := 16 }).reverse
        { A := [F32.ofNat 1, F32.ofNat 2, F32.ofNat 3, F32.ofNat 4],
          B := [F32.ofNat 5, F32.ofNat 6, F32.ofNat 7, F32.ofNat 8],
          C := [F32.zero, F32.zero, F32.zero, F32.zero], log := [] }).mem.log.take 1
      = [Access.read Buf.A 2] :=
  ⟨⟨by decide, by decide, by decide, by decide⟩,
   (kernel_updates_commute FloatUnit.fused 2 2 2 F32.one F32.zero
     [F32.ofNat 1, F32.ofNat 2, F32.ofNat 3, F32.ofNat 4]
     [F32.ofNat 5, F32.ofNat 6, F32.ofNat 7, F32.ofNat 8]
     [F32.zero, F32.zero, F32.zero, F32.zero]
     (by decide) (by decide) (by decide) (by decide)).2.2.2,
   List.reverse_perm _, by decide!, by decide!, by decide!, by decide!⟩

/-- C4: for equally long buffers `C_gpu`, `C_cpu` and every tolerance `t`,
`verify_results` returns `true` exactly when no index `i` has
`abs(C_gpu[i] - C_cpu[i]) > t`; when it returns `false`, the index it reports is the
smallest index with `abs(C_gpu[i] - C_cpu[i]) > t`, reported with both values at that
index (and their distance), and the scan stops there: the outcome is the same for any two
buffers that agree with `C_gpu` and `C_cpu` up to and including that index. -/
theorem verify_results_first_mismatch (C_gpu C_cpu : List F32) (t : F32)
    (hlen : C_gpu.length = C_cpu.length) :
    ((verify_results C_gpu C_cpu t).toBool = true ↔
      ∀ (i : Nat) (g c : F32), C_gpu[i]? = some g → C_cpu[i]? = some c →
        F32.gt (F32.abs (F32.sub g c)) t = false) ∧
    ((verify_results C_gpu C_cpu t).toBool = false →
      ∃ (i : Nat) (g c : F32), C_gpu[i]? = some g ∧ C_cpu[i]? = some c ∧
        F32.gt (F32.abs (F32.sub g c)) t = true ∧
        (∀ (r : Nat) (g' c' : F32), r < i → C_gpu[r]? = some g' → C_cpu[r]? = some c' →
          F32.gt (F32.abs (F32.sub g' c')) t = false) ∧
        verify_results C_gpu C_cpu t = Verdict.mismatch i g c (F32.abs (F32.sub g c)) ∧
        ∀ G' C' : List F32,
          G'.take (i + 1) = C_gpu.take (i + 1) → C'.take (i + 1) = C_cpu.take (i + 1) →
          verify_results G' C' t = Verdict.mismatch i g c (F32.abs (F32.sub g c))) := by
  classical
  by_cases hex : ∃ (q : Nat) (g c : F32), C_gpu[q]? = some g ∧ C_cpu[q]? = some c ∧
      F32.gt (F32.abs (F32.sub g c)) t = true
  · have hq := Nat.find_spec hex
    have hmin := fun r (hr : r < Nat.find hex) => Nat.find_min hex hr
    obtain ⟨g, c, hg, hc, hgt⟩ := hq
    have hqlen : Nat.find hex < C_gpu.length := by
      rcases List.getElem?_eq_some.mp hg with ⟨h, _⟩
      exact h
    have hbefore : ∀ r, r < Nat.find hex →
        ∃ g' c', C_gpu[r]? = some g' ∧ C_cpu[r]? = some c' ∧
          F32.gt (F32.abs (F32.sub g' c')) t = false := by
      intro r hr
      have h1 : r < C_gpu.length := by omega
      have h2 : r < C_cpu.length := by omega
      refine ⟨C_gpu[r], C_cpu[r], List.getElem?_eq_getElem h1, List.getElem?_eq_getElem h2, ?_⟩
      cases hb : F32.gt (F32.abs (F32.sub C_gpu[r] C_cpu[r])) t
      · rfl
      · exact absurd ⟨C_gpu[r], C_cpu[r], List.getElem?_eq_getElem h1,
          List.getElem?_eq_getElem h2, hb⟩ (hmin r hr)
    have hres : verify_results C_gpu C_cpu t
        = Verdict.mismatch (Nat.find hex) g c (F32.abs (F32.sub g c)) :=
      verify_loop_mismatch C_gpu C_cpu t _ g c hg hc hgt C_gpu.length 0 (Nat.zero_le _)
        (by omega) (fun r _ hr => hbefore r hr)
    refine ⟨?_, ?_⟩
    · rw [hres]
      constructor
      · intro h; cases h
      · intro h
        have := h _ g c hg hc
        rw [hgt] at this
        cases this
    · intro _
      refine ⟨Nat.find hex, g, c, hg, hc, hgt, ?_, hres, ?_⟩
      · intro r g' c' hr hg' hc'
        obtain ⟨g2, c2, hg2, hc2, h2⟩ := hbefore r hr
        rw [hg'] at hg2
        rw [hc'] at hc2
        cases hg2
        cases hc2
        exact h2
      · intro G' C' hG hC
        have eG : ∀ r, r ≤ Nat.find hex → G'[r]? = C_gpu[r]? := by
          intro r hr
          rw [← List.getElem?_take_of_lt (Nat.lt_succ_of_le hr), hG,
            List.getElem?_take_of_lt (Nat.lt_succ_of_le hr)]
        have eC : ∀ r, r ≤ Nat.find hex → C'[r]? = C_cpu[r]? := by
          intro r hr
          rw [← List.getElem?_take_of_lt (Nat.lt_succ_of_le hr), hC,
            List.getElem?_take_of_lt (Nat.lt_succ_of_le hr)]
        have hg' : G'[Nat.find hex]? = some g := by rw [eG _ (Nat.le_refl _)]; exact hg
        have hc' : C'[Nat.find hex]? = some c := by rw [eC _ (Nat.le_refl _)]; exact hc
        have hlen' : Nat.find hex < G'.length := by
          rcases List.getElem?_eq_some.mp hg' with ⟨h, _⟩
          exact h
        apply verify_loop_mismatch G' C' t _ g c hg' hc' hgt G'.length 0 (Nat.zero_le _)
          (by omega)
        intro r _ hr
        obtain ⟨g2, c2, hg2, hc2, h2⟩ := hbefore r hr
        exact ⟨g2, c2, by rw [eG r (Nat.le_of_lt hr)]; exact hg2,
          by rw [eC r (Nat.le_of_lt hr)]; exact hc2, h2⟩
  · have hall : ∀ q, q < C_gpu.length →
        ∃ g c, C_gpu[q]? = some g ∧ C_cpu[q]? = some c ∧
          F32.gt (F32.abs (F32.sub g c)) t = false := by
      intro q h1
      have h2 : q < C_cpu.length := by omega
      refine ⟨C_gpu[q], C_cpu[q], List.getElem?_eq_getElem h1, List.getElem?_eq_getElem h2, ?_⟩
      cases hb : F32.gt (F32.abs (F32.sub C_gpu[q] C_cpu[q])) t
      · rfl
      · exact absurd ⟨q, C_gpu[q], C_cpu[q], List.getElem?_eq_getElem h1,
          List.getElem?_eq_getElem h2, hb⟩ hex
    have hres : verify_results C_gpu C_cpu t = Verdict.pass :=
      verify_loop_pass C_gpu C_cpu t C_gpu.length 0 (fun q _ hq => hall q (by omega))
    refine ⟨?_, ?_⟩
    · rw [hres]
      constructor
      · intro _ i g c hg hc
        cases hb : F32.gt (F32.abs (F32.sub g c)) t
        · rfl
        · exact absurd ⟨i, g, c, hg, hc, hb⟩ hex
      · intro _; rfl
    · intro h
      rw [hres] at h
      cases h

/-- C4 on two buffers of three elements that differ at indices 1 and 2: the report is
for index 1. -/
theorem verify_results_first_mismatch_witness :
    [F32.one, F32.one, F32.one].length = [F32.one, F32.zero, F32.zero].length ∧
    verify_results [F32.one, F32.one, F32.one] [F32.one, F32.zero, F32.zero] F32.tol_default
      = Verdict.mismatch 1 F32.one F32.zero F32.one ∧
    (verify_results [F32.one, F32.one, F32.one] [F32.one, F32.one, F32.one]
        F32.tol_default).toBool = true ∧
    ((verify_results [F32.one, F32.one, F32.one] [F32.one, F32.zero, F32.zero]
        F32.tol_default).toBool = true ↔
      ∀ (i : Nat) (g c : F32), [F32.one, F32.one, F32.one][i]? = some g →
        [F32.one, F32.zero, F32.zero][i]? = some c →
        F32.gt (F32.abs (F32.sub g c)) F32.tol_default = false) :=
  ⟨by decide, by decide!, by decide!,
   (verify_results_first_mismatch [F32.one, F32.one, F32.one] [F32.one, F32.zero, F32.zero]
     F32.tol_default (by decide)).1⟩

/-- C7: in `main` (`M = N = K = 512`, `alpha = 1`, `beta = 0`), the vectors are those of
the block "Initialize matrices" (`main_init`). When `hipGetDeviceCount` returns an error
(`err ≠ 0`) or a device count of 0, the only compute call is `gemm_cpu_reference`, made
once on the initialised `A`, `B` and `C_cpu`: `C_cpu` is what it leaves, `C_gpu` is
still as initialised, neither `gemm_host` nor `verify_results` is called and no verdict
exists. Otherwise `gemm_host` runs once on the initialised `A`, `B`, `C_gpu`, then
`gemm_cpu_reference` once on the initialised `A`, `B`, `C_cpu`, then `verify_results`
once on the two results, in that order, and the verdict is what `verify_results`
returns on them (never a read past the end of a vector). In both cases the
initialisation comes first, no call is repeated, and both compute calls run to their end
without an out-of-bounds access. The device may run the threads in any order
(`schedule` permutes the grid), and host and device builds may have any float unit. -/
theorem main_call_order (host dev : FloatUnit) (draw : Nat → F32) (err : Nat)
    (deviceCount : Int) (schedule : List Thread → List Thread)
    (hs : ∀ l, (schedule l).Perm l) :
    ((err ≠ 0 ∨ deviceCount = 0) →
      main host dev draw err deviceCount schedule
        = { A := (main_init draw 512 512 512).A
            B := (main_init draw 512 512 512).B
            C_gpu := (main_init draw 512 512 512).C_gpu
            C_cpu := (gemm_cpu_reference host 512 512 512 F32.one F32.zero
              { A := (main_init draw 512 512 512).A, B := (main_init draw 512 512 512).B,
                C := (main_init draw 512 512 512).C_cpu, log := [] }).mem.C
            calls := [Call.init, Call.gemm_cpu_reference]
            verdict := none
            crashed := false }) ∧
    (¬ (err ≠ 0 ∨ deviceCount = 0) →
      main host dev draw err deviceCount schedule
        = { A := (main_init draw 512 512 512).A
            B := (main_init draw 512 512 512).B
            C_gpu := (gemm_host dev schedule 512 512 512 F32.one F32.zero
              { A := (main_init draw 512 512 512).A, B := (main_init draw 512 512 512).B,
                C := (main_init draw 512 512 512).C_gpu, log := [] }).hostMem.C
            C_cpu := (gemm_cpu_reference host 512 512 512 F32.one F32.zero
              { A := (main_init draw 512 512 512).A, B := (main_init draw 512 512 512).B,
                C := (main_init draw 512 512 512).C_cpu, log := [] }).mem.C
            calls := [Call.init, Call.gemm_host, Call.gemm_cpu_reference,
                      Call.verify_results]
            verdict := some (verify_results
              (gemm_host dev schedule 512 512 512 F32.one F32.zero
                { A := (main_init draw 512 512 512).A, B := (main_init draw 512 512 512).B,
                  C := (main_init draw 512 512 512).C_gpu, log := [] }).hostMem.C
              (gemm_cpu_reference host 512 512 512 F32.one F32.zero
                { A := (main_init draw 512 512 512).A, B := (main_init draw 512 512 512).B,
                  C := (main_init draw 512 512 512).C_cpu, log := [] }).mem.C
              F32.tol_default)
            crashed := false } ∧
      ∀ i, verify_results
          (gemm_host dev schedule 512 512 512 F32.one F32.zero
            { A := (main_init draw 512 512 512).A, B := (main_init draw 512 512 512).B,
              C := (main_init draw 512 512 512).C_gpu, log := [] }).hostMem.C
          (gemm_cpu_reference host 512 512 512 F32.one F32.zero
            { A := (main_init draw 512 512 512).A, B := (main_init draw 512 512 512).B,
              C := (main_init draw 512 512 512).C_cpu, log := [] }).mem.C
          F32.tol_default ≠ Verdict.oob i) ∧
    (gemm_host dev schedule 512 512 512 F32.one F32.zero
        { A := (main_init draw 512 512 512).A, B := (main_init draw 512 512 512).B,
          C := (main_init draw 512 512 512).C_gpu, log := [] }).isOk = true ∧
    (gemm_cpu_reference host 512 512 512 F32.one F32.zero
        { A := (main_init draw 512 512 512).A, B := (main_init draw 512 512 512).B,
          C := (main_init draw 512 512 512).C_cpu, log := [] }).isOk = true := by
  have hm : main host dev draw err deviceCount schedule
      = if err ≠ 0 ∨ deviceCount = 0 then
          main_gemm_cpu_reference host 512 512 512 F32.one F32.zero
            (main_init draw 512 512 512)
        else
          main_verify_results
            (main_gemm_cpu_reference host 512 512 512 F32.one F32.zero
              (main_gemm_host dev schedule 512 512 512 F32.one F32.zero
                (main_init draw 512 512 512))) := rfl
  have hb : 512 * 512 ≤ INT_MAX := by decide
  obtain ⟨hcpu, _⟩ := main_body_cpu host 512 512 512 F32.one F32.zero draw hb hb hb
  obtain ⟨hdev, hok1, hok2, hno⟩ := main_body_device host dev 512 512 512 F32.one F32.zero
    draw schedule hs hb hb hb
  refine ⟨?_, ?_, hok1, hok2⟩
  · intro hc
    rw [hm, if_pos hc]
    exact hcpu
  · intro hc
    rw [hm, if_neg hc]
    exact ⟨hdev, hno⟩

/-- C7 for a device that is there (`err = 0`, one device) and runs the threads in the
order of the grid, with a contracting device build and a host build that rounds every
operation. -/
theorem main_call_order_witness :
    (∀ l : List Thread, (id l).Perm l) ∧
    (main FloatUnit.separate FloatUnit.fused (fun _ => F32.zero) 0 1 id).calls
      = [Call.init, Call.gemm_host, Call.gemm_cpu_reference, Call.verify_results] ∧
    (main FloatUnit.separate FloatUnit.fused (fun _ => F32.zero) 0 1 id).crashed = false ∧
    (main FloatUnit.separate FloatUnit.fused (fun _ => F32.zero) 0 1 id).verdict ≠ none ∧
    (gemm_host FloatUnit.fused id 512 512 512 F32.one F32.zero
        { A := (main_init (fun _ => F32.zero) 512 512 512).A,
          B := (main_init (fun _ => F32.zero) 512 512 512).B,
          C := (main_init (fun _ => F32.zero) 512 512 512).C_gpu, log := [] }).isOk = true := by
  have h := (main_call_order FloatUnit.separate FloatUnit.fused (fun _ => F32.zero) 0 1 id
    (fun l => List.Perm.refl l)).2.1 (by decide)
  have hok := (main_call_order FloatUnit.separate FloatUnit.fused (fun _ => F32.zero) 0 1 id
    (fun l => List.Perm.refl l)).2.2.1
  refine ⟨fun l => List.Perm.refl l, ?_, ?_, ?_, hok⟩
  · rw [h.1]
  · rw [h.1]
  · rw [h.1]
    exact Option.some_ne_none _

/-- C5 as stated fails, with or without fused multiply-adds. (1) `alpha = 0`,
`beta = 1`, `M = N = K = 1` and the finite inputs `A = [2^127]`, `B = [2^127]`,
`C = [1]`: the product overflows to infinity, `0 * inf` is NaN, and the call leaves
`C = [NaN]`, not `beta * C[0] = 1`; with `A = [1]`, `B = [1]` and the same `C` it leaves
`C = [1]`, so the output does depend on the contents of `A` and `B`. (2) With `A = [1]`,
`B = [1]`, `C = [-0.0]` it leaves `C = [+0.0]`, while `beta * C[0]` is `-0.0`.
(3) With `M = K = 46341`, `N = 1` and buffers of matching size, the index expression
`i * K + k` overflows `int` and the call ends in a read of `A[-2147483648]`. -/
theorem alpha_zero_counterexample :
    ((gemm_cpu_reference FloatUnit.separate 1 1 1 F32.zero F32.one
        { A := [F32.fin false 254 0], B := [F32.fin false 254 0], C := [F32.one],
          log := [] }).isOk = true ∧
      (gemm_cpu_reference FloatUnit.separate 1 1 1 F32.zero F32.one
        { A := [F32.fin false 254 0], B := [F32.fin false 254 0], C := [F32.one],
          log := [] }).mem.C = [F32.nan] ∧
      (gemm_cpu_reference FloatUnit.fused 1 1 1 F32.zero F32.one
        { A := [F32.fin false 254 0], B := [F32.fin false 254 0], C := [F32.one],
          log := [] }).mem.C = [F32.nan] ∧
      F32.mul F32.one ([F32.one].getD (0 * 1 + 0) F32.zero) = F32.one ∧
      ¬ F32.same F32.nan F32.one ∧
      (gemm_cpu_reference FloatUnit.separate 1 1 1 F32.zero F32.one
        { A := [F32.one], B := [F32.one], C := [F32.one], log := [] }).mem.C = [F32.one]) ∧
    ((gemm_cpu_reference FloatUnit.separate 1 1 1 F32.zero F32.one
        { A := [F32.one], B := [F32.one], C := [F32.fin true 0 0],
          log := [] }).mem.C = [F32.fin false 0 0] ∧
      (gemm_cpu_reference FloatUnit.fused 1 1 1 F32.zero F32.one
        { A := [F32.one], B := [F32.one], C := [F32.fin true 0 0],
          log := [] }).mem.C = [F32.fin false 0 0] ∧
      F32.mul F32.one ([F32.fin true 0 0].getD (0 * 1 + 0) F32.zero) = F32.fin true 0 0) ∧
    (((List.replicate (46341 * 46341) F32.one).length = 46341 * 46341 ∧
        (List.replicate (46341 * 1) F32.one).length = 46341 * 1) ∧
      (gemm_cpu_reference FloatUnit.separate 46341 1 46341 F32.zero F32.one
        { A := List.replicate (46341 * 46341) F32.one,
          B := List.replicate (46341 * 1) F32.one,
          C := List.replicate (46341 * 1) F32.one, log := [] }).fault
        = some (Access.read Buf.A (-2147483648))) := by
  obtain ⟨C', lg', hrun, _, _, _⟩ := overflow_fault_A FloatUnit.separate F32.zero F32.one
    (List.replicate (46341 * 46341) F32.one) (List.replicate (46341 * 1) F32.one)
    (List.replicate (46341 * 1) F32.one)
    (List.length_replicate _ _) (List.length_replicate _ _) (List.length_replicate _ _)
  refine ⟨⟨by decide!, by decide!, by decide!, by decide!, by decide!, by decide!⟩,
    ⟨by decide!, by decide!, by decide!⟩,
    ⟨⟨List.length_replicate _ _, List.length_replicate _ _⟩, ?_⟩⟩
  rw [hrun]
  rfl

/-- C5, amended: for `alpha = 0.0f`, every `beta`, all `M, N, K` (in particular
`M, N, K > 0`) whose element counts `M * K`, `K * N`, `M * N` are `int` values (at most
`INT_MAX`), buffers of matching size and any conforming float unit (every operation
rounded, or products fused with the following addition), `gemm_cpu_reference` runs to
its end and, at every `i < M`, `j < N` where the accumulated sum of
`A[i * K + k] * B[k * N + j]` is finite (neither NaN nor an infinity), leaves
`C[i * N + j]` equal to `beta * C0[i * N + j]` up to the sign of a zero, `C0` being `C`
before the call. -/
theorem gemm_cpu_reference_alpha_zero (u : FloatUnit) (hu : u.conforming) (M N K : Nat)
    (beta : F32) (A B C : List F32) (lg : List Access) (hfit : FitsInt M N K)
    (hA : A.length = M * K) (hB : B.length = K * N) (hC : C.length = M * N) :
    ∃ m' : Mem,
      gemm_cpu_reference u M N K F32.zero beta { A := A, B := B, C := C, log := lg }
        = Res.ok () m' ∧
      ∀ i j, i < M → j < N → (dot_spec u A B N K i j).isFinite = true →
        ∃ c : F32, m'.C[i * N + j]? = some c ∧
          F32.same c (F32.mul beta (C.getD (i * N + j) F32.zero)) := by
  obtain ⟨_, _, _, h1, h2, h3⟩ := hfit
  unfold INT_MAX at h1 h2 h3
  obtain ⟨C', hrun, _, hval, _⟩ := gemm_cpu_reference_ok u M N K F32.zero beta
    { A := A, B := B, C := C, log := lg } (by simp [hA]) (by simp [hB]) (by simp [hC])
    (by omega) (by omega) (by omega)
  refine ⟨_, hrun, ?_⟩
  intro i j hi hj hfin
  refine ⟨_, hval i j hi hj, ?_⟩
  exact FloatUnit.axpby_zero u hu _ beta _ hfin

/-- C5, amended, at `M = 2`, `N = 1`, `K = 2`, `beta = 2`, `A = [1, 2, 3, 4]`,
`B = [5, 6]`, `C = [7, -0.0]`, with fused multiply-adds: the call leaves
`C = [14, +0.0]`. -/
theorem gemm_cpu_reference_alpha_zero_witness :
    (FloatUnit.fused.conforming ∧ FitsInt 2 1 2 ∧
      [F32.ofNat 1, F32.ofNat 2, F32.ofNat 3, F32.ofNat 4].length = 2 * 2 ∧
      [F32.ofNat 5, F32.ofNat 6].length = 2 * 1 ∧
      [F32.ofNat 7, F32.fin true 0 0].length = 2 * 1) ∧
    (∃ m' : Mem,
      gemm_cpu_reference FloatUnit.fused 2 1 2 F32.zero (F32.ofNat 2)
          { A := [F32.ofNat 1, F32.ofNat 2, F32.ofNat 3, F32.ofNat 4],
            B := [F32.ofNat 5, F32.ofNat 6], C := [F32.ofNat 7, F32.fin true 0 0],
            log := [] } = Res.ok () m' ∧
      ∀ i j, i < 2 → j < 1 →
        (dot_spec FloatUnit.fused [F32.ofNat 1, F32.ofNat 2, F32.ofNat 3, F32.ofNat 4]
          [F32.ofNat 5, F32.ofNat 6] 1 2 i j).isFinite = true →
        ∃ c : F32, m'.C[i * 1 + j]? = some c ∧
          F32.same c
            (F32.mul (F32.ofNat 2) ([F32.ofNat 7, F32.fin true 0 0].getD (i * 1 + j) F32.zero))) ∧
    (gemm_cpu_reference FloatUnit.fused 2 1 2 F32.zero (F32.ofNat 2)
        { A := [F32.ofNat 1, F32.ofNat 2, F32.ofNat 3, F32.ofNat 4],
          B := [F32.ofNat 5, F32.ofNat 6], C := [F32.ofNat 7, F32.fin true 0 0],
          log := [] }).mem.C = [F32.fin false 130 6291456, F32.fin false 0 0] ∧
    F32.ofNat 14 = F32.fin false 130 6291456 ∧
    (dot_spec FloatUnit.fused [F32.ofNat 1, F32.ofNat 2, F32.ofNat 3, F32.ofNat 4]
      [F32.ofNat 5, F32.ofNat 6] 1 2 0 0).isFinite = true ∧
    (dot_spec FloatUnit.fused [F32.ofNat 1, F32.ofNat 2, F32.ofNat 3, F32.ofNat 4]
      [F32.ofNat 5, F32.ofNat 6] 1 2 1 0).isFinite = true :=
  ⟨⟨FloatUnit.fused_conforming, by decide, by decide, by decide, by decide⟩,
   gemm_cpu_reference_alpha_zero FloatUnit.fused FloatUnit.fused_conforming 2 1 2
     (F32.ofNat 2) [F32.ofNat 1, F32.ofNat 2, F32.ofNat 3, F32.ofNat 4]
     [F32.ofNat 5, F32.ofNat 6] [F32.ofNat 7, F32.fin true 0 0] []
     (by decide) (by decide) (by decide) (by decide),
   by decide!, by decide!, by decide!, by decide!⟩

/-- C6 as stated fails, with `alpha = 1`, `beta = 0` and `B` the identity matrix, with
or without fused multiply-adds: (1) `M = N = K = 1`, `A = [2]`, initial `C = [inf]`:
`0 * inf` is NaN and the call leaves `C = [NaN]`, not `A`; (2) `M = 1`, `N = K = 2`,
`A = [inf, 1]`, initial `C = [0, 0]`: `inf * 0` is NaN and the call leaves
`C = [inf, NaN]`, not `A`; (3) `M = N = K = 1`, `A = [-0.0]`, initial `C = [0]`: the
call leaves `C = [+0.0]`, which is not `-0.0` bit for bit; (4) `M = 1`, `N = K = 46341`,
`B` the 46341 x 46341 identity: the index expression `k * N + j` overflows `int` at
`k = 46340`, `j = 41708`, and the call ends in a read of `B[-2147483648]`. -/
theorem identity_counterexample :
    ((gemm_cpu_reference FloatUnit.separate 1 1 1 F32.one F32.zero
        { A := [F32.fin false 128 0], B := [F32.one], C := [F32.inf false],
          log := [] }).mem.C = [F32.nan] ∧
      (gemm_cpu_reference FloatUnit.fused 1 1 1 F32.one F32.zero
        { A := [F32.fin false 128 0], B := [F32.one], C := [F32.inf false],
          log := [] }).mem.C = [F32.nan] ∧
      ¬ F32.same F32.nan (F32.fin false 128 0)) ∧
    ((gemm_cpu_reference FloatUnit.separate 1 2 2 F32.one F32.zero
        { A := [F32.inf false, F32.one], B := [F32.one, F32.zero, F32.zero, F32.one],
          C := [F32.zero, F32.zero], log := [] }).mem.C = [F32.inf false, F32.nan] ∧
      (gemm_cpu_reference FloatUnit.fused 1 2 2 F32.one F32.zero
        { A := [F32.inf false, F32.one], B := [F32.one, F32.zero, F32.zero, F32.one],
          C := [F32.zero, F32.zero], log := [] }).mem.C = [F32.inf false, F32.nan] ∧
      ¬ F32.same F32.nan F32.one) ∧
    ((gemm_cpu_reference FloatUnit.separate 1 1 1 F32.one F32.zero
        { A := [F32.fin true 0 0], B := [F32.one], C := [F32.zero],
          log := [] }).mem.C = [F32.fin false 0 0] ∧
      (gemm_cpu_reference FloatUnit.fused 1 1 1 F32.one F32.zero
        { A := [F32.fin true 0 0], B := [F32.one], C := [F32.zero],
          log := [] }).mem.C = [F32.fin false 0 0]) ∧
    (((List.replicate (1 * 46341) F32.one).length = 1 * 46341 ∧
        ((List.range (46341 * 46341)).map
          fun p => if p / 46341 = p % 46341 then F32.one else F32.zero).length
          = 46341 * 46341 ∧
        (List.replicate (1 * 46341) F32.zero).length = 1 * 46341) ∧
      (∀ k j, k < 46341 → j < 46341 →
        ((List.range (46341 * 46341)).map
          fun p => if p / 46341 = p % 46341 then F32.one else F32.zero).getD
            (k * 46341 + j) F32.zero
          = if k = j then F32.one else F32.zero) ∧
      (gemm_cpu_reference FloatUnit.separate 1 46341 46341 F32.one F32.zero
        { A := List.replicate (1 * 46341) F32.one,
          B := (List.range (46341 * 46341)).map
            fun p => if p / 46341 = p % 46341 then F32.one else F32.zero,
          C := List.replicate (1 * 46341) F32.zero, log := [] }).fault
        = some (Access.read Buf.B (-2147483648))) := by
  have hlenB : ((List.range (46341 * 46341)).map
      fun p => if p / 46341 = p % 46341 then F32.one else F32.zero).length
      = 46341 * 46341 := by
    rw [List.length_map, List.length_range]
  obtain ⟨C', lg', hrun, _, _, _⟩ := overflow_fault_B FloatUnit.separate F32.one F32.zero
    (List.replicate (1 * 46341) F32.one)
    ((List.range (46341 * 46341)).map
      fun p => if p / 46341 = p % 46341 then F32.one else F32.zero)
    (List.replicate (1 * 46341) F32.zero)
    (List.length_replicate _ _) hlenB (List.length_replicate _ _)
  refine ⟨⟨by decide!, by decide!, by decide!⟩, ⟨by decide!, by decide!, by decide!⟩,
    ⟨by decide!, by decide!⟩,
    ⟨⟨List.length_replicate _ _, hlenB, List.length_replicate _ _⟩,
      fun k j hk hj => identity_getD 46341 k j hk hj, ?_⟩⟩
  rw [hrun]
  rfl

/-- C6, amended: for `alpha = 1`, `beta = 0`, `N = K`, `B` the `K x K` identity matrix,
every `M` and `K` whose element counts `M * K` and `K * K` are `int` values (at most
`INT_MAX`), every `A` of size `M x K`, every initial `C` of size `M x K` and any
conforming float unit (every operation rounded, or products fused with the following
addition), `gemm_cpu_reference` runs to its end and leaves `C[i * K + j]` equal to
`A[i * K + j]`, a minus zero becoming `+0.0f`, at every `i < M`, `j < K` for which row
`i` of `A` and the initial `C[i * K + j]` are finite (neither NaN nor an infinity). -/
theorem gemm_cpu_reference_identity (u : FloatUnit) (hu : u.conforming) (M K : Nat)
    (A B C : List F32) (lg : List Access) (hfit : FitsInt M K K)
    (hA : A.length = M * K) (hB : B.length = K * K) (hC : C.length = M * K)
    (hI : ∀ k j, k < K → j < K →
      B.getD (k * K + j) F32.zero = if k = j then F32.one else F32.zero) :
    ∃ m' : Mem,
      gemm_cpu_reference u M K K F32.one F32.zero { A := A, B := B, C := C, log := lg }
        = Res.ok () m' ∧
      ∀ i j, i < M → j < K →
        (∀ k, k < K → (A.getD (i * K + k) F32.zero).isFinite = true) →
        (C.getD (i * K + j) F32.zero).isFinite = true →
        m'.C[i * K + j]? = some (F32.plusZero (A.getD (i * K + j) F32.zero)) ∧
        F32.same (F32.plusZero (A.getD (i * K + j) F32.zero)) (A.getD (i * K + j) F32.zero) := by
  obtain ⟨_, _, _, h1, h2, h3⟩ := hfit
  unfold INT_MAX at h1 h2 h3
  obtain ⟨C', hrun, _, hval, _⟩ := gemm_cpu_reference_ok u M K K F32.one F32.zero
    { A := A, B := B, C := C, log := lg } (by simp [hA]) (by simp [hB]) (by simp [hC])
    (by omega) (by omega) (by omega)
  refine ⟨_, hrun, ?_⟩
  intro i j hi hj hrow hc0
  refine ⟨?_, F32.same_plusZero _⟩
  rw [hval i j hi hj]
  congr 1
  have hpz : (F32.plusZero (A.getD (i * K + j) F32.zero)).isFinite = true := by
    have := hrow j hj
    unfold F32.plusZero
    split
    · rfl
    · exact this
  rw [elem_spec, dot_identity u hu A B K K i j hj hrow (fun k hk => hI k j hk hj),
    FloatUnit.axpby_one_zero u hu _ _ hpz hc0, F32.one_mul_plusZero _ (hrow j hj)]
  obtain ⟨v, hv⟩ := F32.zero_mul_finite false _ hc0
  have hv' : F32.mul F32.zero (C.getD (i * K + j) F32.zero) = F32.fin v 0 0 := hv
  rw [hv']
  exact F32.plusZero_add_zero _ v (hrow j hj)

/-- C6, amended, at `M = 1`, `K = 2`, `A = [3, -0.0]`, `B` the 2 x 2 identity and
`C = [1, 1]`, with fused multiply-adds: the call leaves `C = [3, +0.0]`. -/
theorem gemm_cpu_reference_identity_witness :
    (FloatUnit.fused.conforming ∧ FitsInt 1 2 2 ∧
      [F32.fin false 128 4194304, F32.fin true 0 0].length = 1 * 2 ∧
      [F32.one, F32.zero, F32.zero, F32.one].length = 2 * 2 ∧
      [F32.one, F32.one].length = 1 * 2 ∧
      (∀ k j, k < 2 → j < 2 →
        [F32.one, F32.zero, F32.zero, F32.one].getD (k * 2 + j) F32.zero
          = if k = j then F32.one else F32.zero)) ∧
    (∃ m' : Mem,
      gemm_cpu_reference FloatUnit.fused 1 2 2 F32.one F32.zero
          { A := [F32.fin false 128 4194304, F32.fin true 0 0],
            B := [F32.one, F32.zero, F32.zero, F32.one], C := [F32.one, F32.one], log := [] }
        = Res.ok () m' ∧
      ∀ i j, i < 1 → j < 2 →
        (∀ k, k < 2 →
          ([F32.fin false 128 4194304, F32.fin true 0 0].getD (i * 2 + k)
            F32.zero).isFinite = true) →
        ([F32.one, F32.one].getD (i * 2 + j) F32.zero).isFinite = true →
        m'.C[i * 2 + j]? = some (F32.plusZero
          ([F32.fin false 128 4194304, F32.fin true 0 0].getD (i * 2 + j) F32.zero)) ∧
        F32.same
          (F32.plusZero ([F32.fin false 128 4194304, F32.fin true 0 0].getD (i * 2 + j) F32.zero))
          ([F32.fin false 128 4194304, F32.fin true 0 0].getD (i * 2 + j) F32.zero)) ∧
    (gemm_cpu_reference FloatUnit.fused 1 2 2 F32.one F32.zero
        { A := [F32.fin false 128 4194304, F32.fin true 0 0],
          B := [F32.one, F32.zero, F32.zero, F32.one], C := [F32.one, F32.one],
          log := [] }).mem.C = [F32.fin false 128 4194304, F32.fin false 0 0] ∧
    (gemm_cpu_reference FloatUnit.separate 1 2 2 F32.one F32.zero
        { A := [F32.fin false 128 4194304, F32.fin true 0 0],
          B := [F32.one, F32.zero, F32.zero, F32.one], C := [F32.one, F32.one],
          log := [] }).mem.C = [F32.fin false 128 4194304, F32.fin false 0 0] :=
  ⟨⟨FloatUnit.fused_conforming, by decide, by decide, by decide, by decide,
    by intro k j hk hj; interval_cases k <;> interval_cases j <;> rfl⟩,
   gemm_cpu_reference_identity FloatUnit.fused FloatUnit.fused_conforming 1 2
     [F32.fin false 128 4194304, F32.fin true 0 0]
     [F32.one, F32.zero, F32.zero, F32.one] [F32.one, F32.one] []
     (by decide) (by decide) (by decide) (by decide)
     (by intro k j hk hj; interval_cases k <;> interval_cases j <;> rfl),
   by decide!, by decide!⟩

/-- C3 as stated fails: with `A` holding `4 * 3 = 12` elements while `M = 4`, `K = 5`
(`N = 3`, `B` of 15 and `C` of 12 elements, `alpha = 1`, `beta = 0`, all of `A` and `B`
equal to 1), `gemm_cpu_reference` is not stopped by any check: it overwrites rows 0 and
1 of `C` with the value 5 and then reads `A[12]`, past the end of `A`; and `gemm_host`
reads `A[12]` while copying `A` to the device. -/
theorem size_mismatch_counterexample :
    (gemm_cpu_reference FloatUnit.separate 4 3 5 F32.one F32.zero
        { A := List.replicate 12 F32.one, B := List.replicate 15 F32.one,
          C := List.replicate 12 F32.zero, log := [] }).fault
      = some (Access.read Buf.A 12) ∧
    (gemm_cpu_reference FloatUnit.separate 4 3 5 F32.one F32.zero
        { A := List.replicate 12 F32.one, B := List.replicate 15 F32.one,
          C := List.replicate 12 F32.zero, log := [] }).mem.C
      = List.replicate 6 (F32.fin false 129 2097152) ++ List.replicate 6 F32.zero ∧
    (gemm_cpu_reference FloatUnit.fused 4 3 5 F32.one F32.zero
        { A := List.replicate 12 F32.one, B := List.replicate 15 F32.one,
          C := List.replicate 12 F32.zero, log := [] }).mem.C
      = List.replicate 6 (F32.fin false 129 2097152) ++ List.replicate 6 F32.zero ∧
    gemm_host FloatUnit.fused id 4 3 5 F32.one F32.zero
        { A := List.replicate 12 F32.one, B := List.replicate 15 F32.one,
          C := List.replicate 12 F32.zero, log := [] }
      = HostRes.hostOob (Access.read Buf.A 12)
          { A := List.replicate 12 F32.one, B := List.replicate 15 F32.one,
            C := List.replicate 12 F32.zero,
            log := (List.range 12).map fun i => Access.read Buf.A (i : Int) } ∧
    F32.ofNat 5 = F32.fin false 129 2097152 := by
  refine ⟨by decide!, by decide!, by decide!, by decide!, by decide!⟩

/-- C3, amended: neither `gemm_cpu_reference` nor `gemm_host` checks the sizes of its
buffers. For dimensions that are `int` values with element counts `M * K`, `K * N`,
`M * N` at most `INT_MAX`: (1) when `A` holds fewer than `M * K` elements (`B` and `C`
of matching size, `N > 0`), the call is not rejected before it computes:
`gemm_cpu_reference` overwrites the rows `i < A.size / K` of `C` with their values,
leaves the rest of `C` as it was, and then reads `A` out of bounds at index `A.size`;
`gemm_host` reads `A` out of bounds at index `A.size` while copying `A` to the device,
before any thread runs and without writing `C`. (2) When every buffer holds at least as
many elements as the dimensions require, `gemm_cpu_reference` runs to its end without an
out-of-bounds access, whether or not the sizes match. -/
theorem no_precondition_check :
    (∀ (u : FloatUnit) (schedule : List Thread → List Thread) (M N K : Nat)
        (alpha beta : F32) (A B C : List F32),
      FitsInt M N K →
      A.length < M * K → B.length = K * N → C.length = M * N → 0 < N →
      (∃ (C' : List F32) (lg' : List Access),
        gemm_cpu_reference u M N K alpha beta { A := A, B := B, C := C, log := [] }
          = Res.oob (Access.read Buf.A (A.length : Int))
              { A := A, B := B, C := C', log := lg' } ∧
        C'.length = C.length ∧
        (∀ i j, i < A.length / K → j < N →
          C'[i * N + j]? = some (elem_spec u A B C N K alpha beta i j)) ∧
        (∀ q, A.length / K * N ≤ q → C'[q]? = C[q]?)) ∧
      gemm_host u schedule M N K alpha beta { A := A, B := B, C := C, log := [] }
        = HostRes.hostOob (Access.read Buf.A (A.length : Int))
            { A := A, B := B, C := C,
              log := (List.range A.length).map fun i => Access.read Buf.A (i : Int) }) ∧
    (∀ (u : FloatUnit) (M N K : Nat) (alpha beta : F32) (A B C : List F32),
      FitsInt M N K →
      M * K ≤ A.length → K * N ≤ B.length → M * N ≤ C.length →
      ∃ m' : Mem,
        gemm_cpu_reference u M N K alpha beta { A := A, B := B, C := C, log := [] }
          = Res.ok () m') := by
  refine ⟨?_, ?_⟩
  · intro u schedule M N K alpha beta A B C hfit hA hB hC hN
    obtain ⟨_, _, _, h1, h2, h3⟩ := hfit
    refine ⟨?_, ?_⟩
    · unfold INT_MAX at h1 h2 h3
      exact gemm_cpu_reference_short_A u M N K alpha beta
        { A := A, B := B, C := C, log := [] }
        hA (by simp [hB]) (by simp [hC]) hN (by omega) (by omega) (by omega)
    · have h := hipMemcpyHostToDevice_oob Buf.A (M * K)
        { A := A, B := B, C := C, log := [] } hA
      unfold gemm_host
      simp only [floatCount_eq _ _ h1, bind_run, h]
      simp [Mem.buf]
  · intro u M N K alpha beta A B C hfit hA hB hC
    obtain ⟨_, _, _, h1, h2, h3⟩ := hfit
    unfold INT_MAX at h1 h2 h3
    obtain ⟨C', hrun, _⟩ := gemm_cpu_reference_ok u M N K alpha beta
      { A := A, B := B, C := C, log := [] } hA hB hC (by omega) (by omega) (by omega)
    exact ⟨_, hrun⟩

/-- C3, amended, on the example of the claim (`A` of 12 elements, `M = 4`, `N = 3`,
`K = 5`): `12 / 5 = 2` rows of `C` are overwritten before `A[12]` is read. -/
theorem no_precondition_check_witness :
    (FitsInt 4 3 5 ∧
      (List.replicate 12 F32.one).length < 4 * 5 ∧ (List.replicate 15 F32.one).length = 5 * 3 ∧
      (List.replicate 12 F32.zero).length = 4 * 3 ∧ 0 < 3) ∧
    (∃ (C' : List F32) (lg' : List Access),
      gemm_cpu_reference FloatUnit.separate 4 3 5 F32.one F32.zero
          { A := List.replicate 12 F32.one, B := List.replicate 15 F32.one,
            C := List.replicate 12 F32.zero, log := [] }
        = Res.oob (Access.read Buf.A ((List.replicate 12 F32.one).length : Int))
            { A := List.replicate 12 F32.one, B := List.replicate 15 F32.one,
              C := C', log := lg' } ∧
      C'.length = (List.replicate 12 F32.zero).length ∧
      (∀ i j, i < (List.replicate 12 F32.one).length / 5 → j < 3 →
        C'[i * 3 + j]? = some (elem_spec FloatUnit.separate (List.replicate 12 F32.one)
          (List.replicate 15 F32.one) (List.replicate 12 F32.zero) 3 5 F32.one F32.zero i j)) ∧
      (∀ q, (List.replicate 12 F32.one).length / 5 * 3 ≤ q →
        C'[q]? = (List.replicate 12 F32.zero)[q]?)) :=
  ⟨⟨by decide, by decide, by decide, by decide, by decide⟩,
   (no_precondition_check.1 FloatUnit.separate id 4 3 5 F32.one F32.zero
     (List.replicate 12 F32.one) (List.replicate 15 F32.one) (List.replicate 12 F32.zero)
     (by decide) (by decide) (by decide) (by decide) (by decide)).1⟩

end simple_gemm
